import Mathlib

/-!
# imageresizer: rendition keys, geometry, background colour and batched deletion

A shallow embedding of `internal/imagehelper/helper.go`,
`internal/services/cdnservice/helper.go`, the dispatcher and the offload path of
`internal/services/imageservice/imageService.go`, and the HTTP intake of
`internal/routes/imageroute/image.go`.

Conventions of the embedding.

* Requests to the network and calls into the codecs are oracles on an abstract state;
  a run returns the trace of the requests it made.  A nil pointer dereference is the
  outcome `panicked`, and so is the panic of `image.NewRGBA` and `image.NewNRGBA` on a
  rectangle with a negative side or with a pixel buffer too long for an `int`.
* The tasks of a job are run one after the other in the order `listenForJobs` feeds
  them; the interleaving of the worker pool is not modelled.

* A Go `string` is a `List Char` (`Str`).  Every separator the code looks at
  (`'/'`, `'.'`) is ASCII, so the byte-wise library routines behave the same on
  characters as on UTF-8 bytes.
* A Go `int` is an `Int`; the arithmetic of the code on pixel sizes and tenant ids is
  taken not to wrap.  The overflow test `image` makes on the length of a pixel buffer
  is modelled (`allocates`).
* A nil-able pointer is an `Option`.
* Library routines the code calls (`path.Clean`, `path.Join`, `strconv.Itoa`,
  `strings.TrimSuffix`, `strings.Join`, binary64 division, the rectangle methods of
  `image` and the clipping of `draw.Draw`) are embedded from the Go standard library
  and the Go language definition.
-/

namespace ImageResizer

/-- A Go string. -/
abbrev Str := List Char

/-- The type `imagedto.Dimensions`. -/
structure Dimensions where
  X : Int
  Y : Int
deriving DecidableEq, Repr

/-! ## `path.Clean` and `path.Join` -/

/-- The inner loop of the `..` case of `path.Clean`:
`for out.w > dotdot && out.index(out.w) != '/' { out.w-- }`. -/
def cleanBacktrack (buf : Str) (dotdot : Nat) : Nat → Nat → Nat
  | 0, w => w
  | fuel + 1, w =>
    if dotdot < w ∧ buf.getD w '/' ≠ '/' then cleanBacktrack buf dotdot fuel (w - 1) else w

/-- The test `path[r] != '/'` of the copy loop of `path.Clean`. -/
def notSlash (c : Char) : Bool := c != '/'

/-- The main loop of `path.Clean`.  `rest` is `path[r:]`, `out` the bytes written so
far (`out.w` is its length), `dotdot` the index where `..` must stop.  Every round
consumes at least one byte, so `path.length` rounds of fuel always suffice. -/
def cleanLoop (rooted : Bool) : Nat → Str → Str → Nat → Str
  | 0, _, out, _ => out
  | _ + 1, [], out, _ => out
  | fuel + 1, c :: cs, out, dotdot =>
    if c = '/' then
      -- empty path element
      cleanLoop rooted fuel cs out dotdot
    else if c = '.' ∧ (cs = [] ∨ cs.head? = some '/') then
      -- . element
      cleanLoop rooted fuel cs out dotdot
    else if c = '.' ∧ cs.head? = some '.' ∧ (cs.tail = [] ∨ cs.tail.head? = some '/') then
      -- .. element: remove to last /
      if dotdot < out.length then
        cleanLoop rooted fuel cs.tail
          (out.take (cleanBacktrack out dotdot out.length (out.length - 1))) dotdot
      else if rooted = false then
        cleanLoop rooted fuel cs.tail
          ((if 0 < out.length then out ++ ['/'] else out) ++ ['.', '.'])
          ((if 0 < out.length then out ++ ['/'] else out) ++ ['.', '.']).length
      else
        cleanLoop rooted fuel cs.tail out dotdot
    else
      -- real path element: add slash if needed, copy element
      cleanLoop rooted fuel (cs.dropWhile notSlash)
        ((if (rooted = true ∧ out.length ≠ 1) ∨ (rooted = false ∧ out.length ≠ 0)
            then out ++ ['/'] else out) ++ c :: cs.takeWhile notSlash)
        dotdot

/-- Go's `path.Clean`. -/
def Clean (path : Str) : Str :=
  if path = [] then ['.']
  else
    let rooted : Bool := path.head? = some '/'
    let out := cleanLoop rooted path.length (if rooted then path.tail else path)
      (if rooted then ['/'] else []) (if rooted then 1 else 0)
    if out = [] then ['.'] else out

/-- The buffer loop of `path.Join`: empty leading elements are skipped, every later
element is appended after a `'/'`. -/
def joinBuf : List Str → Str → Str
  | [], buf => buf
  | e :: es, buf =>
    if 0 < buf.length ∨ e ≠ [] then
      joinBuf es ((if 0 < buf.length then buf ++ ['/'] else buf) ++ e)
    else joinBuf es buf

/-- Go's `path.Join`. -/
def Join (elem : List Str) : Str :=
  if (elem.map List.length).sum = 0 then [] else Clean (joinBuf elem [])

/-- Go's `strconv.Itoa`: the decimal rendering of an integer. -/
def Itoa (i : Int) : Str :=
  if i < 0 then '-' :: Nat.toDigits 10 i.natAbs else Nat.toDigits 10 i.natAbs

/-- The format `fmt.Sprintf("%vx%v", d.X, d.Y)`. -/
def sprintfDims (d : Dimensions) : Str := Itoa d.X ++ 'x' :: Itoa d.Y

/-- The function `ImageSubPath` of `imagehelper`. -/
def ImageSubPath (pfx : Str) (shopID : Option Int) (productID : Str)
    (scaleDimension : Option Int) (cropDimensions minXMaxY minYMaxX : Option Dimensions)
    (fileName : Str) : Str :=
  let shopIDStr : Str := match shopID with
    | some s => Itoa s
    | none => []
  let p := Join [pfx, shopIDStr, productID]
  let p := match scaleDimension, cropDimensions, minXMaxY, minYMaxX with
    | some m, _, _, _ => Join [p, Itoa m]
    | none, some c, _, _ => Join [p, sprintfDims c]
    | none, none, some d, _ => Join [p, "minxmaxy".toList, sprintfDims d]
    | none, none, none, some d => Join [p, "minymaxx".toList, sprintfDims d]
    | none, none, none, none => Join [pfx, shopIDStr, productID]
  Join [p, fileName]

/-- The rendition a key is computed for.  `ImageSubPath` receives it as four pointers
of which at most one is non-nil. -/
inductive Rendition
  | main
  | scale (m : Int)
  | crop (d : Dimensions)
  | minXMaxY (d : Dimensions)
  | minYMaxX (d : Dimensions)
deriving DecidableEq, Repr

/-- The `scaleDimension` pointer of a rendition. -/
def Rendition.scaleArg : Rendition → Option Int
  | .scale m => some m
  | _ => none

/-- The `cropDimensions` pointer of a rendition. -/
def Rendition.cropArg : Rendition → Option Dimensions
  | .crop d => some d
  | _ => none

/-- The `minXMaxY` pointer of a rendition. -/
def Rendition.minXMaxYArg : Rendition → Option Dimensions
  | .minXMaxY d => some d
  | _ => none

/-- The `minYMaxX` pointer of a rendition. -/
def Rendition.minYMaxXArg : Rendition → Option Dimensions
  | .minYMaxX d => some d
  | _ => none

/-- The kind-segment of a destination key, in the words of the specification:
`M`, `XxY`, `minxmaxy/XxY`, `minymaxx/XxY`, or nothing for the main image. -/
def kindSegment : Rendition → Str
  | .main => []
  | .scale m => Itoa m
  | .crop d => sprintfDims d
  | .minXMaxY d => "minxmaxy/".toList ++ sprintfDims d
  | .minYMaxX d => "minymaxx/".toList ++ sprintfDims d

/-- The tenant segment of a destination key: the decimal id, or nothing for a nil id. -/
def tenantSegment : Option Int → Str
  | some s => Itoa s
  | none => []

/-- A single clean path segment: non-empty, without `'/'`, and neither `.` nor `..`. -/
def CleanSegment (s : Str) : Prop := s ≠ [] ∧ '/' ∉ s ∧ s ≠ ['.'] ∧ s ≠ ['.', '.']

/-- Every listed segment written after a `'/'`. -/
def slashTail : List Str → Str
  | [] => []
  | s :: ss => '/' :: s ++ slashTail ss

/-- A segment as a list of path segments: none when it is empty. -/
def segOf (s : Str) : List Str := if s = [] then [] else [s]


/-! ## binary64 arithmetic

`calculateTargetDimensions` and its siblings convert their operands to `float64`,
divide twice and convert back.  The operations are embedded exactly: a finite non-zero
binary64 value is `± m * 2 ^ e` with `2 ^ 52 ≤ m < 2 ^ 53`, conversion and division
round to nearest, ties to even (IEEE 754, as the Go language definition requires).
The operands are conversions of `int64` values and quotients of such, which lie inside
`[2 ^ -64, 2 ^ 127]`, well within the normal range; exponent overflow and subnormal
results therefore cannot occur and are not represented. -/

/-- The number of binary digits of `n`, counted in at most `fuel` halvings. -/
def bitLenAux : Nat → Nat → Nat
  | 0, _ => 0
  | fuel + 1, n => if n = 0 then 0 else bitLenAux fuel (n / 2) + 1

/-- The number of binary digits of `n`. -/
def bitLen (n : Nat) : Nat := bitLenAux n n

/-- A binary64 value. -/
inductive F64
  | nan
  | inf (neg : Bool)
  | zero (neg : Bool)
  | finite (neg : Bool) (m : Nat) (e : Int)
deriving DecidableEq, Repr

/-- The binary64 significand and exponent nearest to `num / den` (both positive),
ties to even. -/
def roundRatio (num den : Nat) : Nat × Int :=
  -- with `k` as below, `2 ^ (k - 1) < num / den < 2 ^ (k + 1)`
  let k : Int := (bitLen num : Int) - (bitLen den : Int)
  let s : Int := 53 - k
  -- `2 ^ 52 < n0 / d0 < 2 ^ 54`
  let n0 : Nat := num * 2 ^ s.toNat
  let d0 : Nat := den * 2 ^ (-s).toNat
  let wide : Bool := decide (d0 * 2 ^ 53 ≤ n0)
  let d1 : Nat := if wide then 2 * d0 else d0
  let e : Int := if wide then 1 - s else -s
  let q : Nat := n0 / d1
  let r : Nat := n0 % d1
  let m : Nat := if d1 < 2 * r ∨ (2 * r = d1 ∧ q % 2 = 1) then q + 1 else q
  if m = 2 ^ 53 then (2 ^ 52, e + 1) else (m, e)

/-- The conversion `float64(n)` of an `int`. -/
def F64.ofInt (n : Int) : F64 :=
  if n = 0 then .zero false
  else .finite (decide (n < 0)) (roundRatio n.natAbs 1).1 (roundRatio n.natAbs 1).2

/-- The binary64 quotient `a / b`. -/
def F64.div : F64 → F64 → F64
  | .nan, _ => .nan
  | _, .nan => .nan
  | .inf _, .inf _ => .nan
  | .inf s, .zero t => .inf (s != t)
  | .inf s, .finite t _ _ => .inf (s != t)
  | .zero s, .inf t => .zero (s != t)
  | .finite s _ _, .inf t => .zero (s != t)
  | .zero _, .zero _ => .nan
  | .zero s, .finite t _ _ => .zero (s != t)
  | .finite s _ _, .zero t => .inf (s != t)
  | .finite s m e, .finite t n f =>
    .finite (s != t) (roundRatio m n).1 ((roundRatio m n).2 + e - f)

/-- The conversion `int(f)` of a `float64`: the value truncated towards zero.  When the
truncated value is not an `int64`, or `f` is infinite or NaN, the Go language leaves
the result to the implementation; the value used is the one of amd64,
`-2 ^ 63`. -/
def F64.toInt : F64 → Int
  | .nan => -(2 ^ 63)
  | .inf _ => -(2 ^ 63)
  | .zero _ => 0
  | .finite s m e =>
    let a : Nat := if 0 ≤ e then m * 2 ^ e.toNat else m / 2 ^ (-e).toNat
    let v : Int := if s then -(a : Int) else (a : Int)
    if -(2 ^ 63) ≤ v ∧ v < 2 ^ 63 then v else -(2 ^ 63)

/-! ## Errors -/

/-- The package-level error values created with `errors.New` in `imagehelper`,
`cdnservice` and `exceptions`. -/
inductive Sentinel
  | errUnsupportedFileType
  | errNoDimensionsDefined
  | errUploadingImage
  | errScalingImage
  | errCropImage
  | errMinXMaxY
  | errMinYMaxX
  | errDeletingImage
  | ErrDeletingImages
  | ErrNotImplemented
  | ErrInvalidJobPriority
  | ErrUnauthorised
  | ErrInternalServerError
deriving DecidableEq, Repr

/-- The message an error value was created with. -/
def Sentinel.text : Sentinel → Str
  | .errUnsupportedFileType => "unsupported file type".toList
  | .errNoDimensionsDefined => "no dimensions defined".toList
  | .errUploadingImage => "could not upload image to cdn".toList
  | .errScalingImage => "could not scale image".toList
  | .errCropImage => "could not crop image".toList
  | .errMinXMaxY => "could not scale minXmaxY".toList
  | .errMinYMaxX => "could not scale minYmaxX".toList
  | .errDeletingImage => "could not delete image".toList
  | .ErrDeletingImages => "could not delete images".toList
  | .ErrNotImplemented => "NOT_IMPLEMENTED".toList
  | .ErrInvalidJobPriority => "INVALID_JOB_PRIORITY".toList
  | .ErrUnauthorised => "UNAUTHORISED".toList
  | .ErrInternalServerError => "INTERNAL_SERVER_ERROR".toList

/-- A Go `error`: the text of `Error()` and the package-level values found along its
`Unwrap` chain (what `errors.Is` tests). -/
structure GoError where
  msg : Str
  chain : List Sentinel
deriving DecidableEq, Repr

/-- A package-level error value used as an error. -/
def GoError.ofSentinel (s : Sentinel) : GoError := ⟨s.text, [s]⟩

/-- The test `errors.Is(err, target)`. -/
def GoError.Is (err : GoError) (target : Sentinel) : Bool := decide (target ∈ err.chain)

deriving instance DecidableEq for Except

/-- The error `fmt.Errorf(format, ...)` whose format has one `%w` verb: `text` is the
formatted message, `wrapped` the operand of `%w`. -/
def Errorf (text : Str) (wrapped : GoError) : GoError := ⟨text, wrapped.chain⟩

/-! ## Geometry -/

/-- The function `calculateMinXMaxYDimensions`; the result is the triple `(x, y, err)`. -/
def calculateMinXMaxYDimensions (minXMaxY : Option Dimensions) (srcX srcY : Int) :
    Int × Int × Option GoError :=
  match minXMaxY with
  | none => (0, 0, some (.ofSentinel .errNoDimensionsDefined))
  | some d =>
    if d.X = 0 ∧ d.Y = 0 then (0, 0, some (.ofSentinel .errNoDimensionsDefined))
    else
      let y := d.Y
      let div := F64.div (F64.ofInt srcY) (F64.ofInt y)
      let x := F64.toInt (F64.div (F64.ofInt srcX) div)
      (x, y, none)

/-- The function `calculateMinYMaxXDimensions`; the result is the triple `(x, y, err)`. -/
def calculateMinYMaxXDimensions (minYMaxX : Option Dimensions) (srcX srcY : Int) :
    Int × Int × Option GoError :=
  match minYMaxX with
  | none => (0, 0, some (.ofSentinel .errNoDimensionsDefined))
  | some d =>
    if d.X = 0 ∧ d.Y = 0 then (0, 0, some (.ofSentinel .errNoDimensionsDefined))
    else
      let x := d.X
      let div := F64.div (F64.ofInt srcX) (F64.ofInt x)
      let y := F64.toInt (F64.div (F64.ofInt srcY) div)
      (x, y, none)

/-- The function `calculateTargetDimensions`; the result is the triple `(x, y, err)`. -/
def calculateTargetDimensions (scaleDimension : Option Int)
    (cropDimensions : Option Dimensions) (srcX srcY : Int) : Int × Int × Option GoError :=
  let scaleDimension : Option Int := match cropDimensions with
    | some c => if c.Y > c.X then some c.Y else some c.X
    | none => scaleDimension
  match scaleDimension with
  | some m =>
    if srcX > srcY then
      let x := m
      let div := F64.div (F64.ofInt srcX) (F64.ofInt m)
      let y := F64.toInt (F64.div (F64.ofInt srcY) div)
      (x, y, none)
    else
      let y := m
      let div := F64.div (F64.ofInt srcY) (F64.ofInt m)
      let x := F64.toInt (F64.div (F64.ofInt srcX) div)
      (x, y, none)
  | none => (0, 0, some (.ofSentinel .errNoDimensionsDefined))

/-- The type `image.Point`. -/
structure Point where
  X : Int
  Y : Int
deriving DecidableEq, Repr

/-- The type `image.Rectangle`. -/
structure Rectangle where
  Min : Point
  Max : Point
deriving DecidableEq, Repr

/-- The function `image.Rect`: the rectangle with the coordinates swapped where needed
to make it well-formed. -/
def Rect (x0 y0 x1 y1 : Int) : Rectangle :=
  ⟨⟨if x0 > x1 then x1 else x0, if y0 > y1 then y1 else y0⟩,
   ⟨if x0 > x1 then x0 else x1, if y0 > y1 then y0 else y1⟩⟩

/-- The rectangles a padded rendition is built from: the bounds of the scaled image
`shrunkImage`, the placement rectangle `container` handed to `draw.Draw`, and the bounds
`result` of the canvas `res`. -/
structure Composite where
  shrunk : Rectangle
  container : Rectangle
  result : Rectangle
deriving DecidableEq, Repr

/-- The geometry of `cropImage` (the statements from `calculateTargetDimensions` to
`image.NewNRGBA(result)`) for a decoded source with `Bounds().Max = (srcX, srcY)`. -/
def cropImageGeometry (cropDimension : Dimensions) (srcX srcY : Int) :
    Except GoError Composite :=
  match calculateTargetDimensions none (some cropDimension) srcX srcY with
  | (_, _, some err) => .error err
  | (x, y, none) =>
    .ok {
      shrunk := Rect 0 0 x y
      container :=
        ⟨⟨(cropDimension.X - x).tdiv 2, (cropDimension.Y - y).tdiv 2⟩,
         ⟨cropDimension.X + (cropDimension.X - x).tdiv 2,
          cropDimension.Y + (cropDimension.Y - y).tdiv 2⟩⟩
      result := ⟨⟨0, 0⟩, ⟨cropDimension.X, cropDimension.Y⟩⟩ }

/-- The geometry of `cropImageMinXMaxY` (the statements from
`calculateMinXMaxYDimensions` to `image.NewNRGBA(result)`). -/
def cropImageMinXMaxYGeometry (minXMaxY : Dimensions) (srcX srcY : Int) :
    Except GoError Composite :=
  match calculateMinXMaxYDimensions (some minXMaxY) srcX srcY with
  | (_, _, some err) => .error err
  | (x, y, none) =>
    let resultMaxX : Int := if x < minXMaxY.X then minXMaxY.X else x
    .ok {
      shrunk := Rect 0 0 x y
      container := ⟨⟨(resultMaxX - x).tdiv 2, 0⟩, ⟨resultMaxX + (resultMaxX - x).tdiv 2, y⟩⟩
      result := ⟨⟨0, 0⟩, ⟨resultMaxX, y⟩⟩ }

/-- The geometry of `cropImageMinYMaxX` (the statements from
`calculateMinYMaxXDimensions` to `image.NewNRGBA(result)`). -/
def cropImageMinYMaxXGeometry (minYMaxX : Dimensions) (srcX srcY : Int) :
    Except GoError Composite :=
  match calculateMinYMaxXDimensions (some minYMaxX) srcX srcY with
  | (_, _, some err) => .error err
  | (x, y, none) =>
    let resultMaxY : Int := if y < minYMaxX.Y then minYMaxX.Y else y
    .ok {
      shrunk := Rect 0 0 x y
      container := ⟨⟨0, (resultMaxY - y).tdiv 2⟩, ⟨x, resultMaxY + (resultMaxY - y).tdiv 2⟩⟩
      result := ⟨⟨0, 0⟩, ⟨x, resultMaxY⟩⟩ }

/-- The binary64 value `float64(a) / (float64(b) / float64(c))`. -/
def binary64Quot (a b c : Int) : F64 :=
  F64.div (F64.ofInt a) (F64.div (F64.ofInt b) (F64.ofInt c))

/-- The value `floor(a / (b / c))` of the specification, the ratio and the quotient
taken in binary64 and then truncated: `int(float64(a) / (float64(b) / float64(c)))`. -/
def scaledSide (a b c : Int) : Int := F64.toInt (binary64Quot a b c)

/-- A finite binary64 value greater than zero. -/
def F64.isPositive : F64 → Bool
  | .finite false _ _ => true
  | _ => false

/-- The rational number a finite binary64 value stands for (zero for the others). -/
def F64.toRat : F64 → ℚ
  | .finite s m e => (if s then -1 else 1) * (m : ℚ) * 2 ^ e
  | _ => 0

/-- The truncation in `scaledSide a b c` is a floor: the binary64 quotient
`float64(a) / (float64(b) / float64(c))` is finite and positive, and `scaledSide a b c`
is the floor of the number it stands for whenever that number is below `2 ^ 63`. -/
def FloorOfQuot (a b c : Int) : Prop :=
  (binary64Quot a b c).isPositive = true
    ∧ (F64.toRat (binary64Quot a b c) < 2 ^ 63
        → scaledSide a b c = ⌊F64.toRat (binary64Quot a b c)⌋)

/-- The x/y swap of a point. -/
def Point.transpose (p : Point) : Point := ⟨p.Y, p.X⟩

/-- The x/y swap of a rectangle. -/
def Rectangle.transpose (r : Rectangle) : Rectangle := ⟨r.Min.transpose, r.Max.transpose⟩

/-- The x/y swap of the rectangles of a padded rendition. -/
def Composite.transpose (c : Composite) : Composite :=
  ⟨c.shrunk.transpose, c.container.transpose, c.result.transpose⟩

/-! ## Background colour -/

/-- The struct `rgbaStruct` of `calculateBackgroundColour`: the four `uint32` channels
returned by `Color.RGBA()`. -/
structure rgbaStruct where
  r : Nat
  g : Nat
  b : Nat
  a : Nat
deriving DecidableEq, Repr

/-- The type `color.RGBA`, with `uint8` channels. -/
structure RGBA where
  R : Nat
  G : Nat
  B : Nat
  A : Nat
deriving DecidableEq, Repr

/-- A decoded image (`image.Image`): the point `Bounds().Max` and the colours
`At(x, y).RGBA()`. -/
structure Image where
  maxX : Int
  maxY : Int
  At : Int → Int → rgbaStruct

/-- The statement `rgbaMap[rgba] += 1`, the map kept as a list of entries with distinct
keys. -/
def mapIncrement : List (rgbaStruct × Nat) → rgbaStruct → List (rgbaStruct × Nat)
  | [], k => [(k, 1)]
  | (k', n) :: rest, k =>
    if k' = k then (k', n + 1) :: rest else (k', n) :: mapIncrement rest k

/-- The slice `points` of `calculateBackgroundColour`. -/
def cornerPoints (img : Image) : List (Int × Int) :=
  [(0, 0), (img.maxX - 1, 0), (0, img.maxY - 1), (img.maxX - 1, img.maxY - 1)]

/-- The colours of the four corner pixels, in the order of `points`. -/
def cornerColours (img : Image) : List rgbaStruct :=
  (cornerPoints img).map (fun p => img.At p.1 p.2)

/-- The map `rgbaMap` after the first loop of `calculateBackgroundColour`. -/
def cornerMap (img : Image) : List (rgbaStruct × Nat) :=
  (cornerColours img).foldl mapIncrement []

/-- The conversion `uint8(v >> 8)` of a `uint32`. -/
def uint8Shift (v : Nat) : Nat := (v >>> 8) % 256

/-- The second loop of `calculateBackgroundColour`, `for rgba, number := range rgbaMap`,
over the entries in the order the range yields them. -/
def firstOverTwo : List (rgbaStruct × Nat) → RGBA
  | [] => ⟨255, 255, 255, 255⟩
  | (rgba, number) :: rest =>
    if number > 2 then
      ⟨uint8Shift rgba.r, uint8Shift rgba.g, uint8Shift rgba.b, uint8Shift rgba.a⟩
    else firstOverTwo rest

/-- The function `calculateBackgroundColour`.  Go yields the entries of a map in an
unspecified order; `order` is the order the range loop takes. -/
def calculateBackgroundColour (order : List (rgbaStruct × Nat) → List (rgbaStruct × Nat))
    (img : Image) : RGBA :=
  firstOverTwo (order (cornerMap img))

/-- The number stored under a key of the map, zero when the key is absent. -/
def lookupCount : List (rgbaStruct × Nat) → rgbaStruct → Nat
  | [], _ => 0
  | (k', n) :: rest, k => if k' = k then n else lookupCount rest k

/-- A 16-bit colour value, as `Color.RGBA()` returns. -/
def rgbaStruct.is16 (c : rgbaStruct) : Prop :=
  c.r < 65536 ∧ c.g < 65536 ∧ c.b < 65536 ∧ c.a < 65536

/-- A colour with each channel shifted right by 8 bits. -/
def rgbaStruct.shift8 (c : rgbaStruct) : RGBA := ⟨c.r >>> 8, c.g >>> 8, c.b >>> 8, c.a >>> 8⟩

/-- An image of the given size whose four corners have the given colours (every other
pixel has the colour of the last corner). -/
def cornerImage (w h : Int) (c00 c10 c01 c11 : rgbaStruct) : Image :=
  { maxX := w
    maxY := h
    At := fun x y =>
      if x = 0 ∧ y = 0 then c00
      else if x = w - 1 ∧ y = 0 then c10
      else if x = 0 ∧ y = h - 1 then c01
      else c11 }

/-! ## The object store and `CdnStruct.Delete` -/

/-- The contents of a `[]byte`. -/
abbrev Bytes := List Nat

/-- A request sent over the network or a call into a codec, with its outcome, in the
order the code issues them. -/
inductive Event
  | download (url : Str) (err : Option GoError)
  | decode (format : Str) (err : Option GoError)
  | encode (format : Str) (err : Option GoError)
  | put (bucket key : Str) (body : Bytes) (contentType : Str) (err : Option GoError)
  | list (bucket pfx : Str) (err : Option GoError)
  | deleteObjects (bucket : Str) (keys : List Str) (err : Option GoError)
deriving DecidableEq, Repr

/-- The object store behind `CdnStruct`, a state machine with state `σ`.  `ListFiles` is
`cdn.ListFiles`, which pages through `ListObjectsV2` until the store reports no further
page; its result `(files, err)` is what the store delivers.  `DeleteObjects` and
`PutObject` are the calls of the S3 client, their result the returned error. -/
structure S3 (σ : Type) where
  ListFiles : Str → Str → σ → (List Str × Option GoError) × σ
  DeleteObjects : Str → List Str → σ → Option GoError × σ
  PutObject : Str → Str → Bytes → Str → σ → Option GoError × σ

/-- The type `CdnStruct`. -/
structure CdnStruct (σ : Type) where
  s3 : S3 σ
  defaultBucket : Str

/-- The fields of `config.CDNConfig` the code reads. -/
structure CDNConfig where
  Bucket : Str
  ImagesFolder : Str
deriving DecidableEq, Repr

/-- Go's `strings.TrimSuffix`. -/
def TrimSuffix (s suffix : Str) : Str :=
  if suffix.isSuffixOf s then s.take (s.length - suffix.length) else s

/-- The first loop of `CdnStruct.Delete`: the root guard and the listing of every
path.  The result is the collected identifiers, or the error `Delete` returns. -/
def collectObjectIdentifiers {σ : Type} (cdn : CdnStruct σ) (cfg : CDNConfig)
    (bucket : Str) : List Str → List Str → List Event → σ →
    Except GoError (List Str) × List Event × σ
  | [], objectIdentifiers, trace, s => (.ok objectIdentifiers, trace, s)
  | imagePath :: rest, objectIdentifiers, trace, s =>
    if TrimSuffix imagePath ['/'] = cfg.ImagesFolder ∨ TrimSuffix imagePath ['/'] = [] then
      (.error (Errorf
        (Sentinel.ErrNotImplemented.text ++ ": you should not delete root path! ".toList
          ++ imagePath)
        (.ofSentinel .ErrNotImplemented)), trace, s)
    else
      match cdn.s3.ListFiles bucket imagePath s with
      | ((_, some err), s') => (.error err, trace ++ [.list bucket imagePath (some err)], s')
      | ((files, none), s') =>
        collectObjectIdentifiers cdn cfg bucket rest (objectIdentifiers ++ files)
          (trace ++ [.list bucket imagePath none]) s'

/-- The second loop of `CdnStruct.Delete`,
`for i, end := 0, 1000; i < len(objectIdentifiers); i, end = i+1000, end+1000`.
The result is `deleteErrors`.  Every round advances `i` by 1000, so
`len(objectIdentifiers)` rounds of fuel always suffice. -/
def deleteChunks {σ : Type} (cdn : CdnStruct σ) (bucket : Str)
    (objectIdentifiers : List Str) : Nat → Nat → Nat → List Str → List Event → σ →
    List Str × List Event × σ
  | 0, _, _, deleteErrors, trace, s => (deleteErrors, trace, s)
  | fuel + 1, i, endIdx, deleteErrors, trace, s =>
    if i < objectIdentifiers.length then
      let endIdx := if endIdx > objectIdentifiers.length then objectIdentifiers.length
        else endIdx
      let chunk := (objectIdentifiers.drop i).take (endIdx - i)
      match cdn.s3.DeleteObjects bucket chunk s with
      | (some err, s') =>
        deleteChunks cdn bucket objectIdentifiers fuel (i + 1000) (endIdx + 1000)
          (deleteErrors ++ [err.msg]) (trace ++ [.deleteObjects bucket chunk (some err)]) s'
      | (none, s') =>
        deleteChunks cdn bucket objectIdentifiers fuel (i + 1000) (endIdx + 1000)
          deleteErrors (trace ++ [.deleteObjects bucket chunk none]) s'
    else (deleteErrors, trace, s)

/-- The method `CdnStruct.Delete`: the returned error, the requests issued and the
state of the store afterwards. -/
def Delete {σ : Type} (cdn : CdnStruct σ) (cfg : CDNConfig) (bucket : Str)
    (imagePaths : List Str) (s : σ) : Option GoError × List Event × σ :=
  let bucket := if bucket = [] then cdn.defaultBucket else bucket
  match collectObjectIdentifiers cdn cfg bucket imagePaths [] [] s with
  | (.error err, trace, s') => (some err, trace, s')
  | (.ok objectIdentifiers, trace, s') =>
    match deleteChunks cdn bucket objectIdentifiers objectIdentifiers.length 0 1000 []
        trace s' with
    | (deleteErrors, trace', s'') =>
      if deleteErrors.length > 0 then
        (some (Errorf
          (Sentinel.ErrDeletingImages.text ++ ": ".toList
            ++ List.intercalate " | ".toList deleteErrors)
          (.ofSentinel .ErrDeletingImages)), trace', s'')
      else (none, trace', s'')

/-- The identifier lists of the `DeleteObjects` requests of a trace, in issue order. -/
def deleteRequests : List Event → List (List Str)
  | [] => []
  | .deleteObjects _ keys _ :: rest => keys :: deleteRequests rest
  | _ :: rest => deleteRequests rest

/-- The messages of the failed `DeleteObjects` requests of a trace, in issue order. -/
def deleteFailures : List Event → List Str
  | [] => []
  | .deleteObjects _ _ (some err) :: rest => err.msg :: deleteFailures rest
  | _ :: rest => deleteFailures rest

/-- The failed listings of a trace. -/
def listFailures : List Event → List GoError
  | [] => []
  | .list _ _ (some err) :: rest => err :: listFailures rest
  | _ :: rest => listFailures rest

/-- A store holding the given keys: every listing yields the keys that start with the
listed path, deleting removes the submitted keys, no call fails. -/
def memoryStore : S3 (List Str) where
  ListFiles := fun _ pfx s => ((s.filter (fun k => pfx.isPrefixOf k), none), s)
  DeleteObjects := fun _ keys s => (none, s.filter (fun k => !keys.contains k))
  PutObject := fun _ key _ _ s => (none, s ++ [key])

/-- A store in which the `DeleteObjects` requests listed in `failing` (counted from 0)
fail; the state counts the requests. -/
def flakyStore (files : List Str) (failing : List Nat) : S3 Nat where
  ListFiles := fun _ _ s => ((files, none), s)
  DeleteObjects := fun _ _ s =>
    (if failing.contains s then some ⟨"chunk ".toList ++ Nat.toDigits 10 s, []⟩ else none, s + 1)
  PutObject := fun _ _ _ _ s => (none, s)

/-! ## Codecs, renderers and the rendition handlers -/

/-- The raster handed to an encoder: the source scaled to `bounds` by
`draw.NearestNeighbor.Scale`, or the canvas of a padded rendition, filled with `fill`
when that is set and then composited by `draw.Draw` with the rectangles of `geometry`. -/
inductive Raster
  | scaled (src : Image) (bounds : Rectangle)
  | padded (src : Image) (geometry : Composite) (fill : Option RGBA)

/-- The codec libraries the code calls.  `mimetypeExtension` is
`mimetype.Detect(img).Extension()`; an encoder returns the bytes it wrote and its
error; `DetectContentType` is `http.DetectContentType`. -/
structure Codecs where
  mimetypeExtension : Bytes → Str
  jpegDecode : Bytes → Except GoError Image
  pngDecode : Bytes → Except GoError Image
  webpDecode : Bytes → Except GoError Image
  jpegEncode : Raster → Bytes × Option GoError
  pngEncode : Raster → Bytes × Option GoError
  DetectContentType : Bytes → Str

/-- What the code runs against besides the object store: the HTTP client of
`downloadImage` (a state machine on the same state as the store), the codecs, and the
order in which a colour map is ranged over. -/
structure Env (σ : Type) where
  httpGet : Str → σ → Except GoError Bytes × σ
  codec : Codecs
  mapOrder : List (rgbaStruct × Nat) → List (rgbaStruct × Nat)

/-- Go's `strings.TrimPrefix`. -/
def TrimPrefix (s pfx : Str) : Str := if pfx.isPrefixOf s then s.drop pfx.length else s

/-- The error of an `Except`, if any. -/
def errorOf {α : Type} : Except GoError α → Option GoError
  | .error err => some err
  | .ok _ => none

/-- The function `decodeImage`, with the decoder call it makes. -/
def decodeImage (codec : Codecs) (img : Bytes) (extension : Str) :
    Except GoError Image × List Event :=
  if extension = "jpg".toList ∨ extension = "jpeg".toList then
    (codec.jpegDecode img, [.decode "jpeg".toList (errorOf (codec.jpegDecode img))])
  else if extension = "png".toList then
    (codec.pngDecode img, [.decode "png".toList (errorOf (codec.pngDecode img))])
  else if extension = "webp".toList then
    (codec.webpDecode img, [.decode "webp".toList (errorOf (codec.webpDecode img))])
  else
    (.error (Errorf (Sentinel.errUnsupportedFileType.text ++ " : ".toList ++ extension)
      (.ofSentinel .errUnsupportedFileType)), [])

/-- The function `encodeImage`: the returned error, the bytes written to `output`, and
the encoder call it makes. -/
def encodeImage (codec : Codecs) (img : Raster) (extension : Str) :
    (Option GoError × Bytes) × List Event :=
  if extension = "jpg".toList ∨ extension = "jpeg".toList then
    (((codec.jpegEncode img).2, (codec.jpegEncode img).1),
      [.encode "jpeg".toList (codec.jpegEncode img).2])
  else if extension = "png".toList then
    (((codec.pngEncode img).2, (codec.pngEncode img).1),
      [.encode "png".toList (codec.pngEncode img).2])
  else
    ((some (Errorf (Sentinel.errUnsupportedFileType.text ++ " : ".toList ++ extension)
      (.ofSentinel .errUnsupportedFileType)), []), [])

/-- How a call ends: it returns, or it panics (on a nil pointer dereference, or inside
`image.NewRGBA` or `image.NewNRGBA`). -/
inductive Outcome (α : Type)
  | returned (a : α)
  | panicked
deriving DecidableEq, Repr

/-- Whether `image.NewRGBA(r)` and `image.NewNRGBA(r)` return.  Both compute the length
of the pixel buffer with `pixelBufferLength(4, r, ..)`, that is `mul3NonNeg(4, Dx, Dy)`,
and panic ("huge or negative dimensions") when a side of `r` is negative, when `4 * Dx`
does not fit 64 bits (it reaches `2 ^ 64`), or when `4 * Dx * Dy` does not fit an `int`
of 64 bits (it reaches `2 ^ 63`).  A buffer whose length fits but that exceeds the memory
of the machine is not modelled. -/
def allocates (r : Rectangle) : Bool :=
  decide (0 ≤ r.Max.X - r.Min.X ∧ 0 ≤ r.Max.Y - r.Min.Y
    ∧ 4 * (r.Max.X - r.Min.X) < 18446744073709551616
    ∧ 4 * (r.Max.X - r.Min.X) * (r.Max.Y - r.Min.Y) < 9223372036854775808)

/-- The function `scaleImage`.  It panics where it allocates the scaled image when the
target dimensions are too large. -/
def scaleImage (codec : Codecs) (img : Bytes) (scaleDimension : Option Int)
    (extension : Str) : Outcome (Except GoError Bytes) × List Event :=
  let origExtension := TrimPrefix (codec.mimetypeExtension img) ['.']
  let extension := if extension = [] then origExtension else extension
  match decodeImage codec img origExtension with
  | (.error err, trace) => (.returned (.error err), trace)
  | (.ok src, trace) =>
    match calculateTargetDimensions scaleDimension none src.maxX src.maxY with
    | (_, _, some err) => (.returned (.error err), trace)
    | (x, y, none) =>
      if allocates (Rect 0 0 x y) = false then (.panicked, trace)
      else
        match encodeImage codec (.scaled src (Rect 0 0 x y)) extension with
        | ((some err, _), trace') => (.returned (.error err), trace ++ trace')
        | ((none, output), trace') => (.returned (.ok output), trace ++ trace')

/-- The function `cropImage`.  A nil `cropDimension` makes `calculateTargetDimensions`
fail, so the function returns before it dereferences the pointer.  It panics where it
allocates the scaled image or the canvas when `image.NewRGBA` or `image.NewNRGBA` does. -/
def cropImage (order : List (rgbaStruct × Nat) → List (rgbaStruct × Nat)) (codec : Codecs)
    (img : Bytes) (cropDimension : Option Dimensions) (extension : Str) :
    Outcome (Except GoError Bytes) × List Event :=
  let origExtension := TrimPrefix (codec.mimetypeExtension img) ['.']
  let extension := if extension = [] then origExtension else extension
  match decodeImage codec img origExtension with
  | (.error err, trace) => (.returned (.error err), trace)
  | (.ok src, trace) =>
    let backgroundFillColour := calculateBackgroundColour order src
    match cropDimension with
    | none => (.returned (.error (.ofSentinel .errNoDimensionsDefined)), trace)
    | some c =>
      match cropImageGeometry c src.maxX src.maxY with
      | .error err => (.returned (.error err), trace)
      | .ok geometry =>
        if allocates geometry.shrunk = false then (.panicked, trace)
        else if allocates geometry.result = false then (.panicked, trace)
        else
          match encodeImage codec
              (.padded src geometry
                (if extension ≠ "png".toList then some backgroundFillColour else none))
              extension with
          | ((some err, _), trace') => (.returned (.error err), trace ++ trace')
          | ((none, output), trace') => (.returned (.ok output), trace ++ trace')

/-- The function `cropImageMinXMaxY`.  A nil `minXMaxY` makes
`calculateMinXMaxYDimensions` fail, so the function returns before it dereferences the
pointer.  It panics where it allocates the scaled image or the canvas when
`image.NewRGBA` or `image.NewNRGBA` does. -/
def cropImageMinXMaxY (order : List (rgbaStruct × Nat) → List (rgbaStruct × Nat))
    (codec : Codecs) (img : Bytes) (minXMaxY : Option Dimensions) (extension : Str) :
    Outcome (Except GoError Bytes) × List Event :=
  let origExtension := TrimPrefix (codec.mimetypeExtension img) ['.']
  let extension := if extension = [] then origExtension else extension
  match decodeImage codec img origExtension with
  | (.error err, trace) => (.returned (.error err), trace)
  | (.ok src, trace) =>
    let rgba := calculateBackgroundColour order src
    match minXMaxY with
    | none => (.returned (.error (.ofSentinel .errNoDimensionsDefined)), trace)
    | some d =>
      match cropImageMinXMaxYGeometry d src.maxX src.maxY with
      | .error err => (.returned (.error err), trace)
      | .ok geometry =>
        if allocates geometry.shrunk = false then (.panicked, trace)
        else if allocates geometry.result = false then (.panicked, trace)
        else
          match encodeImage codec
              (.padded src geometry (if extension ≠ "png".toList then some rgba else none))
              extension with
          | ((some err, _), trace') => (.returned (.error err), trace ++ trace')
          | ((none, output), trace') => (.returned (.ok output), trace ++ trace')

/-- The function `cropImageMinYMaxX`.  A nil `minYMaxX` makes
`calculateMinYMaxXDimensions` fail, so the function returns before it dereferences the
pointer.  It panics where it allocates the scaled image or the canvas when
`image.NewRGBA` or `image.NewNRGBA` does. -/
def cropImageMinYMaxX (order : List (rgbaStruct × Nat) → List (rgbaStruct × Nat))
    (codec : Codecs) (img : Bytes) (minYMaxX : Option Dimensions) (extension : Str) :
    Outcome (Except GoError Bytes) × List Event :=
  let origExtension := TrimPrefix (codec.mimetypeExtension img) ['.']
  let extension := if extension = [] then origExtension else extension
  match decodeImage codec img origExtension with
  | (.error err, trace) => (.returned (.error err), trace)
  | (.ok src, trace) =>
    let rgba := calculateBackgroundColour order src
    match minYMaxX with
    | none => (.returned (.error (.ofSentinel .errNoDimensionsDefined)), trace)
    | some d =>
      match cropImageMinYMaxXGeometry d src.maxX src.maxY with
      | .error err => (.returned (.error err), trace)
      | .ok geometry =>
        if allocates geometry.shrunk = false then (.panicked, trace)
        else if allocates geometry.result = false then (.panicked, trace)
        else
          match encodeImage codec
              (.padded src geometry (if extension ≠ "png".toList then some rgba else none))
              extension with
          | ((some err, _), trace') => (.returned (.error err), trace ++ trace')
          | ((none, output), trace') => (.returned (.ok output), trace ++ trace')

/-- The function `downloadImage`. -/
def downloadImage {σ : Type} (env : Env σ) (url : Str) (s : σ) :
    Except GoError Bytes × List Event × σ :=
  match env.httpGet url s with
  | (res, s') => (res, [.download url (errorOf res)], s')

/-- The method `CdnStruct.StoreFile`. -/
def StoreFile {σ : Type} (cdn : CdnStruct σ) (bucket filePath : Str) (file : Bytes)
    (contentType : Str) (s : σ) : Option GoError × List Event × σ :=
  match cdn.s3.PutObject (if bucket = [] then cdn.defaultBucket else bucket) filePath file
      contentType s with
  | (err, s') =>
    (err, [.put (if bucket = [] then cdn.defaultBucket else bucket) filePath file
      contentType err], s')

/-- The type `imagedto.ImageStruct`; the entries of the four lists are pointers. -/
structure ImageStruct where
  URL : Str
  ScaleDimensionMax : List (Option Int)
  CropDimensions : List (Option Dimensions)
  MinXMaxY : List (Option Dimensions)
  MinYMaxX : List (Option Dimensions)
  Name : Str
  ProductID : Str
deriving DecidableEq, Repr

/-- The type `ImageJob`.  `ImageStruct` is the embedded pointer, `ImagesOnCdn` the
pointer to the manifest, of which only the keys matter. -/
structure ImageJob where
  ImageStruct : Option ImageStruct
  ShopID : Int
  ImageExtension : Str
  ImagesOnCdn : Option (List Str)
  DeleteImages : List Str
deriving DecidableEq, Repr

/-- The result of a rendition handler: `(downloadedImage, err)` unless it panicked, the
requests and codec calls it made, and the state afterwards. -/
abbrev HandlerResult (σ : Type) := Outcome (Bytes × Option GoError) × List Event × σ

/-- The source bytes of a handler: `img` when it is non-empty, else the download. -/
def obtainSource {σ : Type} (env : Env σ) (url : Str) (img : Bytes) (s : σ) :
    Except GoError Bytes × List Event × σ :=
  if img.length = 0 then downloadImage env url s else (.ok img, [], s)

/-- The function `handleScaleImage`. -/
def handleScaleImage {σ : Type} (env : Env σ) (imageJob : ImageJob) (cdnConfig : CDNConfig)
    (scaleDimension : Option Int) (img : Bytes) (cdn : CdnStruct σ) (extension : Str)
    (s : σ) : HandlerResult σ :=
  match imageJob.ImageStruct with
  | none => (.panicked, [], s)
  | some image =>
    let imagePath := ImageSubPath [] (some imageJob.ShopID) image.ProductID scaleDimension
      none none none image.Name
    if (∃ m, imageJob.ImagesOnCdn = some m ∧ Join [cdnConfig.ImagesFolder, imagePath] ∈ m)
    then (.returned (img, none), [], s)
    else
      match obtainSource env image.URL img s with
      | (.error err, t1, s1) =>
        (.returned ([], some (Errorf ("could not download image [".toList ++ image.URL
          ++ "]: ".toList ++ err.msg) err)), t1, s1)
      | (.ok downloadedImage, t1, s1) =>
        match scaleImage env.codec downloadedImage scaleDimension extension with
        | (.panicked, t2) => (.panicked, t1 ++ t2, s1)
        | (.returned (.error err), t2) =>
          match scaleDimension with
          | none => (.panicked, t1 ++ t2, s1)
          | some m =>
            (.returned (downloadedImage, some (Errorf ("could not scale ".toList ++ imagePath
              ++ " to ".toList ++ Itoa m ++ ": ".toList ++ err.msg) err)), t1 ++ t2, s1)
        | (.returned (.ok output), t2) =>
          match StoreFile cdn [] (Join [cdnConfig.ImagesFolder, imagePath]) output
              (env.codec.DetectContentType downloadedImage) s1 with
          | (some err, t3, s2) =>
            (.returned (downloadedImage, some (Errorf ("could not store image ".toList
              ++ imagePath ++ " to cdn: ".toList ++ err.msg) err)), t1 ++ t2 ++ t3, s2)
          | (none, t3, s2) => (.returned (downloadedImage, none), t1 ++ t2 ++ t3, s2)

/-- The function `handleCropImage`. -/
def handleCropImage {σ : Type} (env : Env σ) (imageJob : ImageJob) (cdnConfig : CDNConfig)
    (cropDimension : Option Dimensions) (img : Bytes) (cdn : CdnStruct σ) (extension : Str)
    (s : σ) : HandlerResult σ :=
  match imageJob.ImageStruct with
  | none => (.panicked, [], s)
  | some image =>
    let imagePath := ImageSubPath [] (some imageJob.ShopID) image.ProductID none
      cropDimension none none image.Name
    if (∃ m, imageJob.ImagesOnCdn = some m ∧ Join [cdnConfig.ImagesFolder, imagePath] ∈ m)
    then (.returned (img, none), [], s)
    else
      match obtainSource env image.URL img s with
      | (.error err, t1, s1) =>
        (.returned ([], some (Errorf ("could not download image [".toList ++ image.URL
          ++ "]: ".toList ++ err.msg) err)), t1, s1)
      | (.ok downloadedImage, t1, s1) =>
        match cropImage env.mapOrder env.codec downloadedImage cropDimension extension with
        | (.panicked, t2) => (.panicked, t1 ++ t2, s1)
        | (.returned (.error err), t2) =>
          match cropDimension with
          | none => (.panicked, t1 ++ t2, s1)
          | some c =>
            (.returned (downloadedImage, some (Errorf ("could not scale ".toList ++ imagePath
              ++ " to ".toList ++ sprintfDims c ++ ": ".toList ++ err.msg) err)), t1 ++ t2, s1)
        | (.returned (.ok output), t2) =>
          match StoreFile cdn [] (Join [cdnConfig.ImagesFolder, imagePath]) output
              (env.codec.DetectContentType downloadedImage) s1 with
          | (some err, t3, s2) =>
            (.returned (downloadedImage, some (Errorf ("could not store image ".toList
              ++ imagePath ++ " to cdn: ".toList ++ err.msg) err)), t1 ++ t2 ++ t3, s2)
          | (none, t3, s2) => (.returned (downloadedImage, none), t1 ++ t2 ++ t3, s2)

/-- The function `handleMinXMaxYImage`. -/
def handleMinXMaxYImage {σ : Type} (env : Env σ) (imageJob : ImageJob)
    (cdnConfig : CDNConfig) (minXMaxY : Option Dimensions) (img : Bytes) (cdn : CdnStruct σ)
    (extension : Str) (s : σ) : HandlerResult σ :=
  match imageJob.ImageStruct with
  | none => (.panicked, [], s)
  | some image =>
    let imagePath := ImageSubPath [] (some imageJob.ShopID) image.ProductID none none
      minXMaxY none image.Name
    if (∃ m, imageJob.ImagesOnCdn = some m ∧ Join [cdnConfig.ImagesFolder, imagePath] ∈ m)
    then (.returned (img, none), [], s)
    else
      match obtainSource env image.URL img s with
      | (.error err, t1, s1) =>
        (.returned ([], some (Errorf ("could not download image [".toList ++ image.URL
          ++ "]: ".toList ++ err.msg) err)), t1, s1)
      | (.ok downloadedImage, t1, s1) =>
        match cropImageMinXMaxY env.mapOrder env.codec downloadedImage minXMaxY
            extension with
        | (.panicked, t2) => (.panicked, t1 ++ t2, s1)
        | (.returned (.error err), t2) =>
          match minXMaxY with
          | none => (.panicked, t1 ++ t2, s1)
          | some d =>
            (.returned (downloadedImage, some (Errorf ("could not minXmaxY crop ".toList
              ++ imagePath ++ " to ".toList ++ sprintfDims d ++ ": ".toList ++ err.msg) err)),
              t1 ++ t2, s1)
        | (.returned (.ok output), t2) =>
          match StoreFile cdn [] (Join [cdnConfig.ImagesFolder, imagePath]) output
              (env.codec.DetectContentType downloadedImage) s1 with
          | (some err, t3, s2) =>
            (.returned (downloadedImage, some (Errorf ("could not store image ".toList
              ++ imagePath ++ " to cdn: ".toList ++ err.msg) err)), t1 ++ t2 ++ t3, s2)
          | (none, t3, s2) => (.returned (downloadedImage, none), t1 ++ t2 ++ t3, s2)

/-- The function `handleMinYMaxXImage`. -/
def handleMinYMaxXImage {σ : Type} (env : Env σ) (imageJob : ImageJob)
    (cdnConfig : CDNConfig) (minYMaxX : Option Dimensions) (img : Bytes) (cdn : CdnStruct σ)
    (extension : Str) (s : σ) : HandlerResult σ :=
  match imageJob.ImageStruct with
  | none => (.panicked, [], s)
  | some image =>
    let imagePath := ImageSubPath [] (some imageJob.ShopID) image.ProductID none none
      none minYMaxX image.Name
    if (∃ m, imageJob.ImagesOnCdn = some m ∧ Join [cdnConfig.ImagesFolder, imagePath] ∈ m)
    then (.returned (img, none), [], s)
    else
      match obtainSource env image.URL img s with
      | (.error err, t1, s1) =>
        (.returned ([], some (Errorf ("could not download image [".toList ++ image.URL
          ++ "]: ".toList ++ err.msg) err)), t1, s1)
      | (.ok downloadedImage, t1, s1) =>
        match cropImageMinYMaxX env.mapOrder env.codec downloadedImage minYMaxX
            extension with
        | (.panicked, t2) => (.panicked, t1 ++ t2, s1)
        | (.returned (.error err), t2) =>
          match minYMaxX with
          | none => (.panicked, t1 ++ t2, s1)
          | some d =>
            (.returned (downloadedImage, some (Errorf ("could not minXmaxY crop ".toList
              ++ imagePath ++ " to ".toList ++ sprintfDims d ++ ": ".toList ++ err.msg) err)),
              t1 ++ t2, s1)
        | (.returned (.ok output), t2) =>
          match StoreFile cdn [] (Join [cdnConfig.ImagesFolder, imagePath]) output
              (env.codec.DetectContentType downloadedImage) s1 with
          | (some err, t3, s2) =>
            (.returned (downloadedImage, some (Errorf ("could not store image ".toList
              ++ imagePath ++ " to cdn: ".toList ++ err.msg) err)), t1 ++ t2 ++ t3, s2)
          | (none, t3, s2) => (.returned (downloadedImage, none), t1 ++ t2 ++ t3, s2)

/-- A download request. -/
def Event.isDownload : Event → Bool
  | .download _ _ => true
  | _ => false

/-- A decoder call. -/
def Event.isDecode : Event → Bool
  | .decode _ _ => true
  | _ => false

/-- A `PutObject` request. -/
def Event.isPut : Event → Bool
  | .put _ _ _ _ _ => true
  | _ => false

/-- The manifest is non-nil and contains the key. -/
def inManifest (manifest : Option (List Str)) (key : Str) : Prop :=
  ∃ m, manifest = some m ∧ key ∈ m

/-- A rendition is skipped: no download, no decode, no put, the source bytes returned
unchanged with a nil error. -/
def Skipped {σ : Type} (img : Bytes) (r : HandlerResult σ) : Prop :=
  r.1 = .returned (img, none)
    ∧ ∀ e ∈ r.2.1, e.isDownload = false ∧ e.isDecode = false ∧ e.isPut = false

/-- A handler goes on to obtain the source and to issue the put: with no source bytes at
hand its first request is the download of `url`, with source bytes at hand it downloads
nothing, and it returns a nil error only after a successful put at `key` into the
default bucket, its last request and its only put. -/
def Proceeds {σ : Type} (url key bucket : Str) (img : Bytes) (r : HandlerResult σ) : Prop :=
  (img.length = 0 → ∃ err rest, r.2.1 = .download url err :: rest)
    ∧ (img.length ≠ 0 → ∀ e ∈ r.2.1, e.isDownload = false)
    ∧ (∀ b, r.1 = .returned (b, none) →
        ∃ t body contentType, r.2.1 = t ++ [.put bucket key body contentType none]
          ∧ ∀ e ∈ t, e.isPut = false)

/-- The key a handler looks up in the manifest and stores the rendition under:
`path.Join(cdnConfig.ImagesFolder, imagePath)`. -/
def handlerKey (cdnConfig : CDNConfig) (imageJob : ImageJob) (image : ImageStruct)
    (scaleDimension : Option Int) (cropDimensions minXMaxY minYMaxX : Option Dimensions) :
    Str :=
  Join [cdnConfig.ImagesFolder,
    ImageSubPath [] (some imageJob.ShopID) image.ProductID scaleDimension cropDimensions
      minXMaxY minYMaxX image.Name]

/-- What the skip layer promises of a handler result `r`: the rendition is skipped
exactly when the manifest holds the key, a skip makes no request and leaves the store
as it was, and otherwise the handler goes on to obtain the source and to put. -/
def SkipContract {σ : Type} (manifest : Option (List Str)) (key url bucket : Str)
    (img : Bytes) (s : σ) (r : HandlerResult σ) : Prop :=
  (Skipped img r ↔ inManifest manifest key)
    ∧ (inManifest manifest key → r = (.returned (img, none), [], s))
    ∧ (¬ inManifest manifest key → Proceeds url key bucket img r)

/-- A trace without download and put requests. -/
def Quiet (t : List Event) : Prop := ∀ e ∈ t, e.isDownload = false ∧ e.isPut = false

/-- Codecs that take every source for a `10 x 10` PNG image. -/
def pngCodecs : Codecs where
  mimetypeExtension := fun _ => ".png".toList
  jpegDecode := fun _ => .error ⟨"not a jpeg".toList, []⟩
  pngDecode := fun _ => .ok ⟨10, 10, fun _ _ => ⟨0, 0, 0, 65535⟩⟩
  webpDecode := fun _ => .error ⟨"not a webp".toList, []⟩
  jpegEncode := fun _ => ([255, 216], none)
  pngEncode := fun _ => ([137, 80], none)
  DetectContentType := fun _ => "image/png".toList

/-- An environment whose downloads always deliver the same four bytes. -/
def pngEnv : Env (List Str) where
  httpGet := fun _ s => (.ok [137, 80, 78, 71], s)
  codec := pngCodecs
  mapOrder := id

/-- An image spec with two scale renditions. -/
def demoImage : ImageStruct where
  URL := "http://src/a.png".toList
  ScaleDimensionMax := [some 100, some 600]
  CropDimensions := []
  MinXMaxY := []
  MinYMaxX := []
  Name := "a.png".toList
  ProductID := "p1".toList

/-- A task for tenant 7 whose manifest already holds the key of the rendition 100. -/
def demoJob : ImageJob where
  ImageStruct := some demoImage
  ShopID := 7
  ImageExtension := []
  ImagesOnCdn := some ["images/7/p1/100/a.png".toList]
  DeleteImages := []

/-! ## `ProcessJobImage` and the image task -/

/-- The search of `strings.Index`, by position: 0 when `substr` starts `s`, else one more
than the index in the rest of `s`, and `-1` when `substr` does not occur. -/
def indexIn (substr : Str) : Str → Int
  | [] => if substr.isPrefixOf [] then 0 else -1
  | c :: cs =>
    if substr.isPrefixOf (c :: cs) then 0
    else if indexIn substr cs < 0 then -1 else indexIn substr cs + 1

/-- Go's `strings.Index(s, substr)`: the index of the first instance of `substr` in `s`,
or `-1`. -/
def Index (s substr : Str) : Int := indexIn substr s

/-- The body of the first loop of `ProcessJobImage`, on one delete path:
`idx := strings.Index(imagePath, folder); if idx > 0 { imagePath = imagePath[idx:] }`. -/
def sanitizeDeletePath (imagesFolder imagePath : Str) : Str :=
  if Index imagePath imagesFolder > 0 then imagePath.drop (Index imagePath imagesFolder).toNat
  else imagePath

/-- The first instance of `f` in `p` is at index `i`. -/
def FirstOccurrence (f p : Str) (i : Nat) : Prop :=
  i ≤ p.length ∧ f <+: p.drop i ∧ ∀ j < i, ¬ f <+: p.drop j

/-- The fields of `config.ImageConfig` the code reads. -/
structure ImageConfig where
  ImageServerUser : Str
  ImageServerPass : Str
deriving DecidableEq, Repr

/-- The field of `config.LambdaConfig` that selects the offload mode. -/
structure LambdaConfig where
  Function : Str
deriving DecidableEq, Repr

/-- The fields of `config.Config` the code reads. -/
structure Config where
  CDN : CDNConfig
  ImageConfig : ImageConfig
  LambdaConfig : LambdaConfig
deriving DecidableEq, Repr

/-- The type `ProcessImageError`. -/
structure ProcessImageError where
  URL : Str
  Err : Str
  Msg : Str
  Dim : Str
deriving DecidableEq, Repr

/-- The method `ProcessImageError.Error`. -/
def ProcessImageError.Error (e : ProcessImageError) : Str :=
  "Err: ".toList ++ e.Err ++ ", url: ".toList ++ e.URL ++ ", dimensions: ".toList ++ e.Dim
    ++ ", msg: ".toList ++ e.Msg

/-- The function `UploadMainProductImageToCDN`: the pair `(downloadedImage, err)`, the
requests made and the state afterwards. -/
def UploadMainProductImageToCDN {σ : Type} (env : Env σ) (cdn : CdnStruct σ)
    (shopID : Option Int) (productID imageName imagesFolder imgURL : Str) (img : Bytes)
    (imagesOnCDN : Option (List Str)) (s : σ) : (Bytes × Option GoError) × List Event × σ :=
  let fullImagePath := Join [imagesFolder,
    ImageSubPath [] shopID productID none none none none imageName]
  if (∃ m, imagesOnCDN = some m ∧ fullImagePath ∈ m) then (([], none), [], s)
  else
    match obtainSource env imgURL img s with
    | (.error err, t1, s1) =>
      (([], some (Errorf ("could not download image [".toList ++ imgURL ++ "]: ".toList
        ++ err.msg) err)), t1, s1)
    | (.ok downloadedImage, t1, s1) =>
      match StoreFile cdn [] fullImagePath downloadedImage
          (env.codec.DetectContentType downloadedImage) s1 with
      | (some err, t2, s2) =>
        ((downloadedImage, some (Errorf ("could not store full image: ".toList ++ err.msg)
          err)), t1 ++ t2, s2)
      | (none, t2, s2) => ((downloadedImage, none), t1 ++ t2, s2)

/-- One of the four rendition loops of `processScaleImageJob`,
`for _, d := range list { img, err = handle(d, img); if err != nil { append } }`.
`handle` is the handler of the list, `kind` the error value of the list, and `dim` the
dimensions string of an entry, which does not exist for a nil entry: formatting it
dereferences the pointer.  The result is `img` and `*collectedErrors` after the loop. -/
def renditionLoop {σ α : Type} (handle : α → Bytes → σ → HandlerResult σ) (url : Str)
    (kind : Sentinel) (dim : α → Option Str) :
    List α → Bytes → List ProcessImageError → σ →
    Outcome (Bytes × List ProcessImageError) × List Event × σ
  | [], img, collectedErrors, s => (.returned (img, collectedErrors), [], s)
  | d :: rest, img, collectedErrors, s =>
    match handle d img s with
    | (.panicked, t, s1) => (.panicked, t, s1)
    | (.returned (img1, none), t, s1) =>
      match renditionLoop handle url kind dim rest img1 collectedErrors s1 with
      | (r, t', s2) => (r, t ++ t', s2)
    | (.returned (img1, some err), t, s1) =>
      match dim d with
      | none => (.panicked, t, s1)
      | some dimensions =>
        match renditionLoop handle url kind dim rest img1
            (collectedErrors ++ [⟨url, kind.text, err.msg, dimensions⟩]) s1 with
        | (r, t', s2) => (r, t ++ t', s2)

/-- The function `processScaleImageJob`: `*collectedErrors` afterwards unless it
panicked, the requests and codec calls made, and the state afterwards. -/
def processScaleImageJob {σ : Type} (env : Env σ) (cdn : CdnStruct σ) (imageJob : ImageJob)
    (cfg : Config) (collectedErrors : List ProcessImageError) (s : σ) :
    Outcome (List ProcessImageError) × List Event × σ :=
  match imageJob.ImageStruct with
  | none => (.panicked, [], s)
  | some image =>
    match UploadMainProductImageToCDN env cdn (some imageJob.ShopID) image.ProductID
        image.Name cfg.CDN.ImagesFolder image.URL [] imageJob.ImagesOnCdn s with
    | ((img, err), t0, s0) =>
      match renditionLoop
          (fun d img s => handleScaleImage env imageJob cfg.CDN d img cdn
            imageJob.ImageExtension s)
          image.URL .errScalingImage (Option.map Itoa) image.ScaleDimensionMax img
          (match err with
            | some e => collectedErrors
                ++ [⟨image.URL, Sentinel.errUploadingImage.text, e.msg, []⟩]
            | none => collectedErrors) s0 with
      | (.panicked, t1, s1) => (.panicked, t0 ++ t1, s1)
      | (.returned (img1, errs1), t1, s1) =>
        match renditionLoop
            (fun d img s => handleCropImage env imageJob cfg.CDN d img cdn
              imageJob.ImageExtension s)
            image.URL .errCropImage (Option.map sprintfDims) image.CropDimensions img1
            errs1 s1 with
        | (.panicked, t2, s2) => (.panicked, t0 ++ t1 ++ t2, s2)
        | (.returned (img2, errs2), t2, s2) =>
          match renditionLoop
              (fun d img s => handleMinXMaxYImage env imageJob cfg.CDN d img cdn
                imageJob.ImageExtension s)
              image.URL .errMinXMaxY (Option.map sprintfDims) image.MinXMaxY img2
              errs2 s2 with
          | (.panicked, t3, s3) => (.panicked, t0 ++ t1 ++ t2 ++ t3, s3)
          | (.returned (img3, errs3), t3, s3) =>
            match renditionLoop
                (fun d img s => handleMinYMaxXImage env imageJob cfg.CDN d img cdn
                  imageJob.ImageExtension s)
                image.URL .errMinYMaxX (Option.map sprintfDims) image.MinYMaxX img3
                errs3 s3 with
            | (.panicked, t4, s4) => (.panicked, t0 ++ t1 ++ t2 ++ t3 ++ t4, s4)
            | (.returned (_, errs4), t4, s4) =>
              (.returned errs4, t0 ++ t1 ++ t2 ++ t3 ++ t4, s4)

/-- The function `ProcessJobImage`: the returned error list unless it panicked, the
requests and codec calls made, and the state afterwards.  Building the error of a failed
deletion reads `imageJob.URL`, a field of the embedded `*ImageStruct`. -/
def ProcessJobImage {σ : Type} (env : Env σ) (cdn : CdnStruct σ) (cfg : Config)
    (imageJob : ImageJob) (s : σ) : Outcome (List ProcessImageError) × List Event × σ :=
  let deleteImages := imageJob.DeleteImages.map (sanitizeDeletePath cfg.CDN.ImagesFolder)
  let imageJob : ImageJob := { imageJob with DeleteImages := deleteImages }
  match (match imageJob.ImageStruct with
      | some _ => processScaleImageJob env cdn imageJob cfg [] s
      | none => (.returned [], [], s)) with
  | (.panicked, t1, s1) => (.panicked, t1, s1)
  | (.returned collectedErrors, t1, s1) =>
    match Delete cdn cfg.CDN cfg.CDN.Bucket imageJob.DeleteImages s1 with
    | (none, t2, s2) => (.returned collectedErrors, t1 ++ t2, s2)
    | (some err, t2, s2) =>
      match imageJob.ImageStruct with
      | none => (.panicked, t1 ++ t2, s2)
      | some image =>
        (.returned (collectedErrors
          ++ [⟨image.URL, Sentinel.errDeletingImage.text, err.msg, []⟩]), t1 ++ t2, s2)

/-- An entry of one of the four lists of an image spec, tagged with its list. -/
inductive Spec
  | scale (d : Option Int)
  | crop (d : Option Dimensions)
  | minXMaxY (d : Option Dimensions)
  | minYMaxX (d : Option Dimensions)
deriving DecidableEq, Repr

/-- The error value `processScaleImageJob` reports for a failed entry of the list. -/
def Spec.kind : Spec → Sentinel
  | .scale _ => .errScalingImage
  | .crop _ => .errCropImage
  | .minXMaxY _ => .errMinXMaxY
  | .minYMaxX _ => .errMinYMaxX

/-- The dimensions string of an entry: `"%d"` of a scale entry, `"%dx%d"` of the others;
a nil entry has none. -/
def Spec.dim : Spec → Option Str
  | .scale d => d.map Itoa
  | .crop d => d.map sprintfDims
  | .minXMaxY d => d.map sprintfDims
  | .minYMaxX d => d.map sprintfDims

/-- The destination key of an entry. -/
def Spec.key (cdnConfig : CDNConfig) (imageJob : ImageJob) (image : ImageStruct) :
    Spec → Str
  | .scale d => handlerKey cdnConfig imageJob image d none none none
  | .crop d => handlerKey cdnConfig imageJob image none d none none
  | .minXMaxY d => handlerKey cdnConfig imageJob image none none d none
  | .minYMaxX d => handlerKey cdnConfig imageJob image none none none d

/-- The handler `processScaleImageJob` calls for an entry. -/
def handleSpec {σ : Type} (env : Env σ) (imageJob : ImageJob) (cdnConfig : CDNConfig)
    (cdn : CdnStruct σ) (extension : Str) (sp : Spec) (img : Bytes) (s : σ) :
    HandlerResult σ :=
  match sp with
  | .scale d => handleScaleImage env imageJob cdnConfig d img cdn extension s
  | .crop d => handleCropImage env imageJob cdnConfig d img cdn extension s
  | .minXMaxY d => handleMinXMaxYImage env imageJob cdnConfig d img cdn extension s
  | .minYMaxX d => handleMinYMaxXImage env imageJob cdnConfig d img cdn extension s

/-- The entries of the four lists in the order scale, crop, minXMaxY, minYMaxX. -/
def allSpecs (image : ImageStruct) : List Spec :=
  image.ScaleDimensionMax.map .scale ++ image.CropDimensions.map .crop
    ++ image.MinXMaxY.map .minXMaxY ++ image.MinYMaxX.map .minYMaxX

/-- Every entry attempted in turn, whatever the outcome of the entries before it: each
entry is handled with the source bytes and the state its predecessor left.  The result
is the log of the entries with the results of their handlers, and the bytes and state
after the last one.  Only a panic ends the run. -/
def attempts {σ : Type} (handle : Spec → Bytes → σ → HandlerResult σ) :
    List Spec → Bytes → σ → List (Spec × HandlerResult σ) × Bytes × σ
  | [], img, s => ([], img, s)
  | sp :: rest, img, s =>
    match handle sp img s with
    | (.panicked, t, s1) => ([(sp, (.panicked, t, s1))], img, s1)
    | (.returned (img1, err), t, s1) =>
      match attempts handle rest img1 s1 with
      | (log, img2, s2) => ((sp, (.returned (img1, err), t, s1)) :: log, img2, s2)

/-- The `ProcessImageError` of a logged attempt that failed. -/
def failure {σ : Type} (url : Str) : Spec × HandlerResult σ → Option ProcessImageError
  | (sp, (.returned (_, some err), _, _)) =>
    sp.dim.map fun dimensions => ⟨url, sp.kind.text, err.msg, dimensions⟩
  | _ => none

/-- The error a handler returns when the download of `url` failed with `err`. -/
def downloadFailure (url : Str) (err : GoError) : GoError :=
  Errorf ("could not download image [".toList ++ url ++ "]: ".toList ++ err.msg) err

/-- What `UploadMainProductImageToCDN` and the four handlers share in their use of the
source bytes.  `hit` says that the manifest holds the key. -/
def SourceStep {σ : Type} (env : Env σ) (url : Str) (hit : Prop) (img : Bytes) (s : σ)
    (r : HandlerResult σ) : Prop :=
  (hit → r = (.returned (img, none), [], s))
    ∧ (¬ hit →
      (∀ err t1 s1, obtainSource env url img s = (.error err, t1, s1) →
        r = (.returned ([], some (downloadFailure url err)), t1, s1))
      ∧ (∀ b t1 s1, obtainSource env url img s = (.ok b, t1, s1) →
        ∃ t2, (∀ e ∈ t2, e.isDownload = false) ∧ r.2.1 = t1 ++ t2
          ∧ (r.1 = .panicked ∨ ∃ e, r.1 = .returned (b, e))))

/-- The download discipline of a trace, read from left to right.  `have` says that
source bytes are at hand.  A download is allowed only while none are, it must be of
`url`, and it leaves bytes at hand exactly when it succeeded.  The result is `none` when
the trace breaks the discipline, else whether bytes are at hand at the end. -/
def track (url : Str) : Bool → List Event → Option Bool
  | h, [] => some h
  | h, .download u err :: t =>
    if h = false ∧ u = url then track url err.isNone t else none
  | h, .decode _ _ :: t => track url h t
  | h, .encode _ _ :: t => track url h t
  | h, .put _ _ _ _ _ :: t => track url h t
  | h, .list _ _ _ :: t => track url h t
  | h, .deleteObjects _ _ _ :: t => track url h t

/-- The download requests of a trace. -/
def downloads (t : List Event) : List Event := t.filter Event.isDownload

/-- The put requests of a trace at `key`. -/
def putsAt (key : Str) : List Event → List Event
  | [] => []
  | .put bucket k body contentType err :: t =>
    if k = key then .put bucket k body contentType err :: putsAt key t else putsAt key t
  | _ :: t => putsAt key t

/-- The key of the main image: `path.Join(imagesFolder, ImageSubPath(...))` of
`UploadMainProductImageToCDN`. -/
def mainKey (cdnConfig : CDNConfig) (imageJob : ImageJob) (image : ImageStruct) : Str :=
  handlerKey cdnConfig imageJob image none none none none

/-- The test of `inManifest`. -/
def held (manifest : Option (List Str)) (key : Str) : Bool :=
  match manifest with
  | some m => decide (key ∈ m)
  | none => false

/-- The entries whose key the manifest does not hold. -/
def pendingSpecs (cdnConfig : CDNConfig) (imageJob : ImageJob) (image : ImageStruct) :
    List Spec :=
  (allSpecs image).filter fun sp => !held imageJob.ImagesOnCdn (sp.key cdnConfig imageJob image)

/-! ## The dispatcher, the offload path and the HTTP intake -/

/-- The type `imagedto.ImageProcessJobData`. -/
structure ImageProcessJobData where
  ShopID : Int
  ImageExtension : Str
  Images : List (Option ImageStruct)
  DeleteImages : List Str
deriving DecidableEq, Repr

/-- The fields of `amqp.Delivery` the code reads, with the body; `Acknowledger` is the
channel the delivery arrived on.  `amqp.Delivery{}` has every field zero. -/
structure Delivery where
  Acknowledger : Option Nat
  DeliveryTag : Nat
  Redelivered : Bool
  Body : Bytes
deriving DecidableEq, Repr

/-- The value `amqp.Delivery{}`. -/
def zeroDelivery : Delivery := ⟨none, 0, false, []⟩

/-- The type `imagedto.ImageProcessJob`. -/
structure ImageProcessJob where
  Data : Option ImageProcessJobData
  QueueJob : Delivery
deriving DecidableEq, Repr

/-- A call of `Delivery.Ack(multiple)` or `Delivery.Nack(multiple, requeue)`. -/
inductive QueueAction
  | ack (tag : Nat) (multiple : Bool)
  | nack (tag : Nat) (multiple requeue : Bool)
deriving DecidableEq, Repr

/-- An element of the `[]error` a worker sends back: a `*ProcessImageError` of
`ProcessJobImage`, or the error of `callLambdaProcessJob`. -/
inductive WorkerError
  | process (e : ProcessImageError)
  | offload (e : GoError)
deriving DecidableEq, Repr

/-- The remote side of the offload path: `json.Marshal` of the task and
`client.Invoke(function, payload)`. -/
structure Offload (σ : Type) where
  Marshal : ImageJob → Except GoError Bytes
  Invoke : Str → Bytes → σ → Option GoError × σ

/-- A call of `client.Invoke`: the function name and the payload. -/
abbrev Invocation := Str × Bytes

/-- One of the four pruning loops of `callLambdaProcessJob`: the entries whose key the
manifest does not hold. -/
def prune {α : Type} (manifest : List Str) (key : α → Str) (entries : List α) : List α :=
  entries.filter fun d => decide (key d ∉ manifest)

/-- The function `callLambdaProcessJob`: the returned error unless it panicked, the
invocations made, the task as the function leaves it, and the state afterwards.  The
lists are fields of the embedded `*ImageStruct`; the manifest pointer is dereferenced
in the body of each loop. -/
def callLambdaProcessJob {σ : Type} (lam : Offload σ) (cdnConfig : CDNConfig)
    (job : ImageJob) (lambdaConfig : LambdaConfig) (s : σ) :
    Outcome (Option GoError) × List Invocation × ImageJob × σ :=
  match job.ImageStruct with
  | none => (.panicked, [], job, s)
  | some image =>
    match (match job.ImagesOnCdn with
        | some m => some m
        | none =>
          if image.ScaleDimensionMax = [] ∧ image.CropDimensions = [] ∧ image.MinXMaxY = []
            ∧ image.MinYMaxX = [] then some [] else none) with
    | none => (.panicked, [], job, s)
    | some m =>
      let scale := prune m (fun d => Join [cdnConfig.ImagesFolder,
        ImageSubPath [] (some job.ShopID) image.ProductID d none none none image.Name])
        image.ScaleDimensionMax
      let crop := prune m (fun d => Join [cdnConfig.ImagesFolder,
        ImageSubPath [] (some job.ShopID) image.ProductID none d none none image.Name])
        image.CropDimensions
      let minXMaxY := prune m (fun d => Join [cdnConfig.ImagesFolder,
        ImageSubPath [] (some job.ShopID) image.ProductID none none d none image.Name])
        image.MinXMaxY
      let minYMaxX := prune m (fun d => Join [cdnConfig.ImagesFolder,
        ImageSubPath [] (some job.ShopID) image.ProductID none none none d image.Name])
        image.MinYMaxX
      let job : ImageJob := { job with ImageStruct := some { image with
        ScaleDimensionMax := scale, CropDimensions := crop, MinXMaxY := minXMaxY,
        MinYMaxX := minYMaxX } }
      if scale.length = 0 ∧ crop.length = 0 ∧ minXMaxY.length = 0 ∧ minXMaxY.length = 0 then
        (.returned none, [], job, s)
      else
        match lam.Marshal job with
        | .error err =>
          (.returned (some (Errorf ("error marshalling processimage lambda request: ".toList
            ++ err.msg) err)), [], job, s)
        | .ok payload =>
          match lam.Invoke lambdaConfig.Function payload s with
          | (some err, s1) =>
            (.returned (some (Errorf ("error calling processimage lambda: ".toList
              ++ err.msg) err)), [(lambdaConfig.Function, payload)], job, s1)
          | (none, s1) => (.returned none, [(lambdaConfig.Function, payload)], job, s1)

/-- The result of a worker or of the dispatcher: the value unless a panic ended the
process, the requests and codec calls made, the invocations made, and the state. -/
abbrev Run (σ α : Type) := Outcome α × List Event × List Invocation × σ

/-- The body of the loop of `spawnWorker`: what the worker sends on the error channel
of the task. -/
def spawnWorker {σ : Type} (env : Env σ) (lam : Offload σ) (cdn : CdnStruct σ)
    (cfg : Config) (job : ImageJob) (s : σ) : Run σ (List WorkerError) :=
  if cfg.LambdaConfig.Function ≠ [] then
    match callLambdaProcessJob lam cfg.CDN job cfg.LambdaConfig s with
    | (.panicked, inv, _, s1) => (.panicked, [], inv, s1)
    | (.returned (some err), inv, _, s1) => (.returned [.offload err], [], inv, s1)
    | (.returned none, inv, _, s1) => (.returned [], [], inv, s1)
  else
    match ProcessJobImage env cdn cfg job s with
    | (.panicked, t, s1) => (.panicked, t, [], s1)
    | (.returned errs, t, s1) => (.returned (errs.map .process), t, [], s1)

/-- The tasks of a job handled one after the other in the order they are fed, and the
errors they send back collected in that order. -/
def runTasks {σ : Type} (worker : ImageJob → σ → Run σ (List WorkerError)) :
    List ImageJob → List WorkerError → σ → Run σ (List WorkerError)
  | [], collectedErrors, s => (.returned collectedErrors, [], [], s)
  | task :: rest, collectedErrors, s =>
    match worker task s with
    | (.panicked, t, inv, s1) => (.panicked, t, inv, s1)
    | (.returned imageErrors, t, inv, s1) =>
      match runTasks worker rest (collectedErrors ++ imageErrors) s1 with
      | (r, t', inv', s2) => (r, t ++ t', inv ++ inv', s2)

/-- The end of a round of `listenForJobs`: the calls made on the delivery.  The nack is
made a minute later. -/
def respondToQueue (collectedErrors : List WorkerError) (QueueJob : Delivery) :
    List QueueAction :=
  if collectedErrors.length > 0 then
    if QueueJob = zeroDelivery then []
    else [.nack QueueJob.DeliveryTag false (!QueueJob.Redelivered)]
  else
    if QueueJob = zeroDelivery then []
    else [.ack QueueJob.DeliveryTag false]

/-- The manifest of a job: `cdn.ListFilesToMap` of the tenant folder when the tenant id
is not 0, which pages through the store like `cdn.ListFiles` and keeps the keys; empty
when the tenant id is 0, nil when the listing failed.  Only the keys matter. -/
def listOfFiles {σ : Type} (cdn : CdnStruct σ) (cfg : Config) (data : ImageProcessJobData)
    (s : σ) : List Str × List Event × σ :=
  if data.ShopID ≠ 0 then
    match cdn.s3.ListFiles cdn.defaultBucket (Join [cfg.CDN.ImagesFolder,
        ImageSubPath [] (some data.ShopID) [] none none none none []]) s with
    | ((_, some err), s1) =>
      ([], [.list cdn.defaultBucket (Join [cfg.CDN.ImagesFolder,
        ImageSubPath [] (some data.ShopID) [] none none none none []]) (some err)], s1)
    | ((files, none), s1) =>
      (files, [.list cdn.defaultBucket (Join [cfg.CDN.ImagesFolder,
        ImageSubPath [] (some data.ShopID) [] none none none none []]) none], s1)
  else ([], [], s)

/-- The tasks `listenForJobs` feeds to the workers for a job: one per image, then the
delete task. -/
def tasksOf (data : ImageProcessJobData) (manifest : List Str) : List ImageJob :=
  data.Images.map (fun imgJob =>
      ⟨imgJob, data.ShopID, data.ImageExtension, some manifest, []⟩)
    ++ [⟨none, 0, [], none, data.DeleteImages⟩]

/-- One round of the loop of `listenForJobs`, for the job `job`: the collected errors
and the calls made on the delivery. -/
def listenForJobs {σ : Type} (env : Env σ) (lam : Offload σ) (cdn : CdnStruct σ)
    (cfg : Config) (job : ImageProcessJob) (s : σ) :
    Run σ (List WorkerError × List QueueAction) :=
  match job.Data with
  | none => (.panicked, [], [], s)
  | some data =>
    match listOfFiles cdn cfg data s with
    | (manifest, t0, s0) =>
      match runTasks (spawnWorker env lam cdn cfg) (tasksOf data manifest) [] s0 with
      | (.panicked, t, inv, s1) => (.panicked, t0 ++ t, inv, s1)
      | (.returned collectedErrors, t, inv, s1) =>
        (.returned (collectedErrors, respondToQueue collectedErrors job.QueueJob),
          t0 ++ t, inv, s1)

/-- The type `imagedto.ImageScaleJobReq`. -/
structure ImageScaleJobReq where
  Job : Option ImageProcessJobData
  Priority : Str
deriving DecidableEq, Repr

/-- What `AddImageScaleJob` reads of a request: the headers `user` and `pass`, and the
result of decoding the body. -/
structure Request where
  user : Str
  pass : Str
  body : Except GoError ImageScaleJobReq

/-- The type `ErrResp` of `respondWithError`, without the list that is never set. -/
structure ErrResp where
  Error : Str
  TransactionID : Str
deriving DecidableEq, Repr

/-- What `RespondJSON` writes: the status code and the payload. -/
structure Response where
  code : Nat
  payload : Option ErrResp
deriving DecidableEq, Repr

/-- The function `respondWithError`. -/
def respondWithError (transactionID : Str) (err : GoError) : Response :=
  if err.Is .ErrInvalidJobPriority then ⟨400, some ⟨err.msg, transactionID⟩⟩
  else if err.Is .ErrUnauthorised then ⟨401, some ⟨err.msg, transactionID⟩⟩
  else ⟨500, some ⟨Sentinel.ErrInternalServerError.text, transactionID⟩⟩

/-- What a call of `AddImageScaleJob` does: the response, the jobs handed to
`imageservice.AddImageJob`, and the jobs handed to `ImagePublish`. -/
structure Served where
  response : Response
  dispatched : List ImageProcessJob
  published : List (Option ImageProcessJobData)
deriving DecidableEq, Repr

/-- The handler `AddImageScaleJob`.  `ImagePublish` is the publish call of the queue
service with its returned error. -/
def AddImageScaleJob (cfg : Config) (ImagePublish : Option ImageProcessJobData → Option GoError)
    (transactionID : Str) (r : Request) : Served :=
  if r.user ≠ cfg.ImageConfig.ImageServerUser ∧ r.pass ≠ cfg.ImageConfig.ImageServerPass then
    ⟨respondWithError transactionID (.ofSentinel .ErrUnauthorised), [], []⟩
  else
    match r.body with
    | .error err => ⟨respondWithError transactionID err, [], []⟩
    | .ok job =>
      if job.Priority = "urgent".toList then
        ⟨⟨200, none⟩, [⟨job.Job, zeroDelivery⟩], []⟩
      else if job.Priority = "normal".toList then
        match ImagePublish job.Job with
        | some err => ⟨respondWithError transactionID err, [], [job.Job]⟩
        | none => ⟨⟨200, none⟩, [], [job.Job]⟩
      else ⟨respondWithError transactionID (.ofSentinel .ErrInvalidJobPriority), [], []⟩

/-- The call of `UploadMainProductImageToCDN` that `processScaleImageJob` makes. -/
def uploadOf {σ : Type} (env : Env σ) (cdn : CdnStruct σ) (imageJob : ImageJob)
    (image : ImageStruct) (cfg : Config) (s : σ) : (Bytes × Option GoError) × List Event × σ :=
  UploadMainProductImageToCDN env cdn (some imageJob.ShopID) image.ProductID image.Name
    cfg.CDN.ImagesFolder image.URL [] imageJob.ImagesOnCdn s

/-- The `ProcessImageError` of a failed upload of the main image. -/
def uploadFailure (url : Str) : Option GoError → List ProcessImageError
  | some err => [⟨url, Sentinel.errUploadingImage.text, err.msg, []⟩]
  | none => []

/-- The attempts of an image task after the upload of the main image: every entry of
the four lists in turn, starting from the bytes and the state the upload left. -/
def attemptLog {σ : Type} (env : Env σ) (cdn : CdnStruct σ) (imageJob : ImageJob)
    (image : ImageStruct) (cfg : Config) (s : σ) : List (Spec × HandlerResult σ) × Bytes × σ :=
  attempts (handleSpec env imageJob cfg.CDN cdn imageJob.ImageExtension) (allSpecs image)
    (uploadOf env cdn imageJob image cfg s).1.1 (uploadOf env cdn imageJob image cfg s).2.2

/-- An environment whose downloads always fail. -/
def offlineEnv : Env (List Str) where
  httpGet := fun _ s => (.error ⟨"connection refused".toList, []⟩, s)
  codec := pngCodecs
  mapOrder := id

/-- A store like `memoryStore` that refuses to put the keys in `rejected`. -/
def pickyStore (rejected : List Str) : S3 (List Str) where
  ListFiles := memoryStore.ListFiles
  DeleteObjects := memoryStore.DeleteObjects
  PutObject := fun _ key _ _ s =>
    if rejected.contains key then (some ⟨"rejected".toList, []⟩, s) else (none, s ++ [key])

/-- A configuration of the local mode. -/
def demoConfig : Config where
  CDN := ⟨"bucket".toList, "images".toList⟩
  ImageConfig := ⟨"admin".toList, "secret".toList⟩
  LambdaConfig := ⟨[]⟩

/-- The task of `demoJob` with an empty manifest. -/
def coldJob : ImageJob := { demoJob with ImagesOnCdn := some [] }

/-- A delete-only task, as `listenForJobs` builds it, for the paths `paths`. -/
def deleteTask (paths : List Str) : ImageJob := ⟨none, 0, [], none, paths⟩

/-- A remote side that accepts every invocation. -/
def remote : Offload (List Str) where
  Marshal := fun _ => .ok [123, 125]
  Invoke := fun _ _ s => (none, s)

/-- A configuration of the offload mode. -/
def offloadConfig : Config := { demoConfig with LambdaConfig := ⟨"processimage".toList⟩ }

/-- An image spec with one minYMaxX rendition and no other. -/
def tallImage : ImageStruct where
  URL := "http://src/a.png".toList
  ScaleDimensionMax := []
  CropDimensions := []
  MinXMaxY := []
  MinYMaxX := [some ⟨100, 200⟩]
  Name := "a.png".toList
  ProductID := "p1".toList

/-- An image spec with one minXMaxY rendition and no other. -/
def wideImage : ImageStruct where
  URL := "http://src/a.png".toList
  ScaleDimensionMax := []
  CropDimensions := []
  MinXMaxY := [some ⟨100, 200⟩]
  MinYMaxX := []
  Name := "a.png".toList
  ProductID := "p1".toList

/-- A task for tenant 7 with the image spec `image` and an empty manifest. -/
def taskOf (image : ImageStruct) : ImageJob := ⟨some image, 7, [], some [], []⟩

/-- The job data of tenant 7 with the one image `demoImage` and nothing to delete. -/
def demoData : ImageProcessJobData where
  ShopID := 7
  ImageExtension := []
  Images := [some demoImage]
  DeleteImages := []

/-- A delivery from the queue. -/
def demoDelivery : Delivery := ⟨some 1, 42, false, [123, 125]⟩

/-- The image task `listenForJobs` builds for an image of a job, with the manifest of
the job. -/
def imageTask (data : ImageProcessJobData) (image : ImageStruct) (manifest : List Str) :
    ImageJob :=
  ⟨some image, data.ShopID, data.ImageExtension, some manifest, []⟩

/-- The folder `listenForJobs` lists for the manifest of a job. -/
def tenantFolder (cfg : Config) (data : ImageProcessJobData) : Str :=
  Join [cfg.CDN.ImagesFolder, ImageSubPath [] (some data.ShopID) [] none none none none []]

/-- Codecs that take every source for a `10 x 10` WebP image. -/
def webpCodecs : Codecs where
  mimetypeExtension := fun _ => ".webp".toList
  jpegDecode := fun _ => .error ⟨"not a jpeg".toList, []⟩
  pngDecode := fun _ => .error ⟨"not a png".toList, []⟩
  webpDecode := fun _ => .ok ⟨10, 10, fun _ _ => ⟨0, 0, 0, 65535⟩⟩
  jpegEncode := fun _ => ([255, 216], none)
  pngEncode := fun _ => ([137, 80], none)
  DetectContentType := fun _ => "image/webp".toList

/-- An environment whose downloads always deliver the same four bytes of a WebP. -/
def webpEnv : Env (List Str) where
  httpGet := fun _ s => (.ok [82, 73, 70, 70], s)
  codec := webpCodecs
  mapOrder := id

/-- An image spec with two scale renditions whose source is a WebP. -/
def webpImage : ImageStruct where
  URL := "http://src/a.webp".toList
  ScaleDimensionMax := [some 100, some 600]
  CropDimensions := []
  MinXMaxY := []
  MinYMaxX := []
  Name := "a.webp".toList
  ProductID := "p1".toList

/-- The job data of tenant 7 with the one image `webpImage`, no default output format
and nothing to delete. -/
def webpData : ImageProcessJobData where
  ShopID := 7
  ImageExtension := []
  Images := [some webpImage]
  DeleteImages := []

/-! ## Codec dispatch -/

/-- The format tokens `decodeImage` has a case for. -/
def decodableTokens : List Str :=
  ["jpg".toList, "jpeg".toList, "png".toList, "webp".toList]

/-- The format tokens `encodeImage` has a case for. -/
def encodableTokens : List Str := ["jpg".toList, "jpeg".toList, "png".toList]

/-- The decoders are library code: `errUnsupportedFileType` is an unexported value of
`imagehelper`, which `image/jpeg`, `image/png` and `golang.org/x/image/webp` cannot
return or wrap. -/
def Codecs.LibraryDecoders (codec : Codecs) : Prop :=
  ∀ (img : Bytes) (e : GoError),
    (codec.jpegDecode img = .error e ∨ codec.pngDecode img = .error e
      ∨ codec.webpDecode img = .error e) → e.Is .errUnsupportedFileType = false

/-- The error of `decodeImage` and `encodeImage` for a token without a case. -/
def unsupportedFileType (extension : Str) : GoError :=
  Errorf (Sentinel.errUnsupportedFileType.text ++ " : ".toList ++ extension)
    (.ofSentinel .errUnsupportedFileType)

/-- A job of tenant 7 in the shape the queue delivers it, with no image and one path to
delete. -/
def deleteOnlyData : ImageProcessJobData where
  ShopID := 7
  ImageExtension := []
  Images := []
  DeleteImages := ["images/7/p1/a.png".toList]

/-- An image spec whose scale list is the JSON `[null]`. -/
def nullScaleImage : ImageStruct where
  URL := "http://src/a.png".toList
  ScaleDimensionMax := [none]
  CropDimensions := []
  MinXMaxY := []
  MinYMaxX := []
  Name := "a.png".toList
  ProductID := "p1".toList

/-- An image spec whose crop list is the JSON `[null]`. -/
def nullCropImage : ImageStruct where
  URL := "http://src/a.png".toList
  ScaleDimensionMax := []
  CropDimensions := [none]
  MinXMaxY := []
  MinYMaxX := []
  Name := "a.png".toList
  ProductID := "p1".toList

/-- Codecs that detect a WebP the decoder cannot read, a truncated file for one. -/
def truncatedWebpCodecs : Codecs :=
  { webpCodecs with webpDecode := fun _ => .error ⟨"unexpected EOF".toList, []⟩ }

/-- The detected format of a source is webp: `origExtension` of the renderers. -/
def detectedWebp (codec : Codecs) (img : Bytes) : Prop :=
  TrimPrefix (codec.mimetypeExtension img) ['.'] = "webp".toList

/-! ## `draw.Draw` -/

/-- The method `Point.Sub` of `image`. -/
def Point.Sub (p q : Point) : Point := ⟨p.X - q.X, p.Y - q.Y⟩

/-- The method `Point.In` of `image`. -/
def Point.In (p : Point) (r : Rectangle) : Bool :=
  decide (r.Min.X ≤ p.X ∧ p.X < r.Max.X ∧ r.Min.Y ≤ p.Y ∧ p.Y < r.Max.Y)

/-- The method `Rectangle.Add` of `image`. -/
def Rectangle.Add (r : Rectangle) (p : Point) : Rectangle :=
  ⟨⟨r.Min.X + p.X, r.Min.Y + p.Y⟩, ⟨r.Max.X + p.X, r.Max.Y + p.Y⟩⟩

/-- The method `Rectangle.Empty` of `image`. -/
def Rectangle.Empty (r : Rectangle) : Bool :=
  decide (r.Min.X ≥ r.Max.X ∨ r.Min.Y ≥ r.Max.Y)

/-- The value `image.ZR`. -/
def ZR : Rectangle := ⟨⟨0, 0⟩, ⟨0, 0⟩⟩

/-- The method `Rectangle.Intersect` of `image`: the zero rectangle when the two do not
overlap. -/
def Rectangle.Intersect (r s : Rectangle) : Rectangle :=
  let r1 : Rectangle :=
    ⟨⟨if r.Min.X < s.Min.X then s.Min.X else r.Min.X,
      if r.Min.Y < s.Min.Y then s.Min.Y else r.Min.Y⟩,
     ⟨if r.Max.X > s.Max.X then s.Max.X else r.Max.X,
      if r.Max.Y > s.Max.Y then s.Max.Y else r.Max.Y⟩⟩
  if r1.Empty then ZR else r1

/-- The function `clip` of `image/draw` for a nil mask: the rectangle `r` clipped to the
bounds of `dst` and to the bounds of `src` moved to where `sp` lands on `r.Min`, and the
source point moved along with the clipped corner. -/
def clip (dstBounds r srcBounds : Rectangle) (sp : Point) : Rectangle × Point :=
  let orig := r.Min
  let r1 := (r.Intersect dstBounds).Intersect (srcBounds.Add (orig.Sub sp))
  let dx := r1.Min.X - orig.X
  let dy := r1.Min.Y - orig.Y
  if dx = 0 ∧ dy = 0 then (r1, sp) else (r1, ⟨sp.X + dx, sp.Y + dy⟩)

/-- The rectangle of the canvas that
`draw.Draw(res, container, shrunkImage, image.Point{}, draw.Over)` composites onto:
`DrawMask` clips `container` with `clip` and writes the pixels of the clipped rectangle,
none when it is empty. -/
def Composite.drawn (g : Composite) : Rectangle :=
  (clip g.result g.container g.shrunk ⟨0, 0⟩).1

/-- The path elements of a string, the pieces between its `'/'` separators
(`strings.Split(s, "/")`). -/
def splitSlash : Str → List Str
  | [] => [[]]
  | c :: cs =>
    if c = '/' then [] :: splitSlash cs
    else
      match splitSlash cs with
      | [] => [[c]]
      | x :: xs => (c :: x) :: xs

/-- No path element of the string is `..`. -/
def NoDotDot (s : Str) : Prop := ['.', '.'] ∉ splitSlash s

/-- A path element `path.Clean` keeps: neither empty nor `.`. -/
def keptElement (s : Str) : Bool := decide (s ≠ [] ∧ s ≠ ['.'])

instance (s : Str) : Decidable (NoDotDot s) := by
  unfold NoDotDot
  infer_instance

/-! ## Reading a key back -/

/-- The value of a decimal digit. -/
def digitValue (c : Char) : Nat := c.toNat - 48

/-- The number a string of decimal digits stands for. -/
def decimalValue (s : Str) : Nat := s.foldl (fun a c => 10 * a + digitValue c) 0

/-- The ten decimal digits. -/
def decimalDigits : Str := "0123456789".toList

/-- An image spec whose first crop asks for a negative width. -/
def negativeCropImage : ImageStruct where
  URL := "http://src/a.png".toList
  ScaleDimensionMax := []
  CropDimensions := [some ⟨-1, 5⟩, some ⟨100, 100⟩]
  MinXMaxY := []
  MinYMaxX := []
  Name := "a.png".toList
  ProductID := "p1".toList

/-- An image spec whose scale list is the JSON `[null, 600]`. -/
def nullThenScaleImage : ImageStruct where
  URL := "http://src/a.png".toList
  ScaleDimensionMax := [none, some 600]
  CropDimensions := []
  MinXMaxY := []
  MinYMaxX := []
  Name := "a.png".toList
  ProductID := "p1".toList

/-! ## Theorems: destination keys -/

theorem slashTail_append (a b : List Str) : slashTail (a ++ b) = slashTail a ++ slashTail b := by
  induction a with
  | nil => rfl
  | cons s ss ih => simp [slashTail, ih]

theorem intercalate_cons_eq (g : Str) (gs : List Str) :
    List.intercalate ['/'] (g :: gs) = g ++ slashTail gs := by
  induction gs generalizing g with
  | nil => simp [List.intercalate, slashTail]
  | cons h t ih =>
    have := ih h
    simp only [List.intercalate, List.intersperse, List.flatten] at this ⊢
    simp [slashTail, this]

theorem takeWhile_segment (cs r : Str) (hcs : '/' ∉ cs) (hr : r = [] ∨ r.head? = some '/') :
    (cs ++ r).takeWhile notSlash = cs ∧ (cs ++ r).dropWhile notSlash = r := by
  induction cs with
  | nil =>
    rcases hr with rfl | hr
    · simp
    · cases r with
      | nil => simp
      | cons a t =>
        simp at hr
        subst hr
        simp [List.takeWhile, List.dropWhile, notSlash]
  | cons a t ih =>
    have ha : a ≠ '/' := fun h => hcs (by simp [h])
    have ht : '/' ∉ t := fun h => hcs (by simp [h])
    have := ih ht
    have ha2 : (a != '/') = true := by simp [ha]
    simp [List.takeWhile, List.dropWhile, notSlash, ha2, this]

theorem cleanLoop_segment (fuel : Nat) (s r out : Str) (hs : CleanSegment s)
    (hr : r = [] ∨ r.head? = some '/') :
    cleanLoop false (fuel + 1) (s ++ r) out 0
      = cleanLoop false fuel r ((if out.length ≠ 0 then out ++ ['/'] else out) ++ s) 0 := by
  obtain ⟨hne, hsl, hdot, hdd⟩ := hs
  cases s with
  | nil => exact absurd rfl hne
  | cons c cs =>
    have hc : c ≠ '/' := fun h => hsl (by simp [h])
    have hcs : '/' ∉ cs := fun h => hsl (by simp [h])
    have h2 : ¬ (c = '.' ∧ (cs ++ r = [] ∨ (cs ++ r).head? = some '/')) := by
      rintro ⟨rfl, h⟩
      cases cs with
      | nil => exact hdot rfl
      | cons d ds =>
        have hd : d ≠ '/' := fun h => hcs (by simp [h])
        simp at h
        exact hd h
    have h3 : ¬ (c = '.' ∧ (cs ++ r).head? = some '.' ∧
        ((cs ++ r).tail = [] ∨ (cs ++ r).tail.head? = some '/')) := by
      rintro ⟨rfl, h, h'⟩
      cases cs with
      | nil =>
        rcases hr with rfl | hr
        · simp at h
        · simp [hr] at h
      | cons d ds =>
        simp at h
        subst h
        cases ds with
        | nil => exact hdd rfl
        | cons e es =>
          have he : e ≠ '/' := fun h => hcs (by simp [h])
          simp at h'
          exact he h'
    obtain ⟨htw, hdw⟩ := takeWhile_segment cs r hcs hr
    show cleanLoop false (fuel + 1) (c :: (cs ++ r)) out 0 = _
    rw [cleanLoop, if_neg hc, if_neg h2, if_neg h3, htw, hdw]
    simp

theorem cleanLoop_slashTail (items : List Str) :
    ∀ (fuel : Nat) (out : Str), (∀ s ∈ items, s = [] ∨ CleanSegment s) → out ≠ [] →
      (slashTail items).length ≤ fuel →
      cleanLoop false fuel (slashTail items) out 0
        = out ++ slashTail (items.filter (· ≠ [])) := by
  induction items with
  | nil =>
    intro fuel out _ _ _
    cases fuel <;> simp [slashTail, cleanLoop]
  | cons s ss ih =>
    intro fuel out hall hout hfuel
    have hss : ∀ t ∈ ss, t = [] ∨ CleanSegment t := fun t ht => hall t (by simp [ht])
    have hrest : slashTail ss = [] ∨ (slashTail ss).head? = some '/' := by
      cases ss <;> simp [slashTail]
    simp only [slashTail, List.length_cons, List.length_append] at hfuel
    cases fuel with
    | zero => omega
    | succ fuel =>
      rcases hall s (by simp) with rfl | hs
      · show cleanLoop false (fuel + 1) ('/' :: slashTail ss) out 0 = _
        rw [cleanLoop, if_pos rfl, ih fuel out hss hout (by simp at hfuel; omega)]
        simp
      · have hlen : 0 < s.length := List.length_pos.mpr hs.1
        cases fuel with
        | zero => omega
        | succ fuel =>
          show cleanLoop false (fuel + 1 + 1) ('/' :: (s ++ slashTail ss)) out 0 = _
          rw [cleanLoop, if_pos rfl, cleanLoop_segment fuel s (slashTail ss) out hs hrest]
          have hol : out.length ≠ 0 := by
            intro h
            exact hout (List.length_eq_zero.mp h)
          rw [if_pos hol, ih fuel _ hss (by simp) (by omega)]
          have : (s :: ss).filter (· ≠ []) = s :: ss.filter (· ≠ []) := by
            simp [List.filter, hs.1]
          rw [this]
          simp [slashTail]

theorem Clean_segments (g : Str) (items : List Str) (hg : CleanSegment g)
    (hall : ∀ s ∈ items, s = [] ∨ CleanSegment s) :
    Clean (g ++ slashTail items) = g ++ slashTail (items.filter (· ≠ [])) := by
  have hrest : slashTail items = [] ∨ (slashTail items).head? = some '/' := by
    cases items <;> simp [slashTail]
  obtain ⟨c, cs, rfl⟩ : ∃ c cs, g = c :: cs := by
    cases g with
    | nil => exact absurd rfl hg.1
    | cons c cs => exact ⟨c, cs, rfl⟩
  have hc : c ≠ '/' := fun h => hg.2.1 (by simp [h])
  have hroot : ((c :: cs ++ slashTail items).head? = some '/') = False := by
    simp [hc]
  unfold Clean
  simp only [List.cons_append, List.length_cons, List.head?_cons, Option.some.injEq, hc,
    decide_False, Bool.false_eq_true, if_false, reduceCtorEq]
  rw [← List.cons_append, cleanLoop_segment _ (c :: cs) (slashTail items) [] hg hrest]
  simp only [List.length_nil, ne_eq, not_true_eq_false, if_false, List.nil_append]
  rw [cleanLoop_slashTail items _ _ hall (by simp) (by simp)]
  simp

theorem filter_clean_segments (t : List Str) (ht : ∀ x ∈ t, CleanSegment x) :
    t.filter (· ≠ []) = t := by
  apply List.filter_eq_self.mpr
  intro x hx
  simpa using (ht x hx).1

theorem joinBuf_nonempty (elems : List (List Str)) :
    ∀ (g : Str) (items : List Str), g ≠ [] →
      (∀ gs ∈ elems, ∀ x ∈ gs, CleanSegment x) →
      ∃ more : List Str,
        joinBuf (elems.map (List.intercalate ['/'])) (g ++ slashTail items)
            = g ++ slashTail (items ++ more)
          ∧ more.filter (· ≠ []) = elems.flatten
          ∧ ∀ s ∈ more, s = [] ∨ CleanSegment s := by
  induction elems with
  | nil =>
    intro g items _ _
    exact ⟨[], by simp [joinBuf], by simp, by simp⟩
  | cons gs es ih =>
    intro g items hg hall
    have hes : ∀ gs ∈ es, ∀ x ∈ gs, CleanSegment x := fun gs h => hall gs (by simp [h])
    have hgs : ∀ x ∈ gs, CleanSegment x := hall gs (by simp)
    have hpos : 0 < (g ++ slashTail items).length := by
      have := List.length_pos.mpr hg
      simp
      omega
    cases gs with
    | nil =>
      obtain ⟨more, h1, h2, h3⟩ := ih g (items ++ [[]]) hg hes
      refine ⟨[] :: more, ?_, ?_, ?_⟩
      · simp only [List.map_cons, joinBuf, hpos, true_or, if_true]
        have : g ++ slashTail items ++ ['/'] ++ List.intercalate ['/'] ([] : List Str)
            = g ++ slashTail (items ++ [[]]) := by
          simp [slashTail_append, slashTail, List.intercalate]
        rw [this, h1]
        simp
      · simpa using h2
      · intro s hs
        rcases List.mem_cons.mp hs with rfl | hs
        · exact Or.inl rfl
        · exact h3 s hs
    | cons h t =>
      obtain ⟨more, h1, h2, h3⟩ := ih g (items ++ h :: t) hg hes
      refine ⟨h :: t ++ more, ?_, ?_, ?_⟩
      · simp only [List.map_cons, joinBuf, hpos, true_or, if_true]
        have : g ++ slashTail items ++ ['/'] ++ List.intercalate ['/'] (h :: t)
            = g ++ slashTail (items ++ h :: t) := by
          rw [intercalate_cons_eq]
          simp [slashTail_append, slashTail]
        rw [this, h1]
        simp
      · rw [List.filter_append, filter_clean_segments _ hgs, h2]
        simp
      · intro s hs
        rcases List.mem_append.mp hs with hs | hs
        · exact Or.inr (hgs s hs)
        · exact h3 s hs

theorem joinBuf_nil (elems : List (List Str))
    (hall : ∀ gs ∈ elems, ∀ x ∈ gs, CleanSegment x) :
    (elems.flatten = [] ∧ ((elems.map (List.intercalate ['/'])).map List.length).sum = 0)
    ∨ ∃ (g : Str) (rest items : List Str),
        elems.flatten = g :: rest ∧ CleanSegment g
        ∧ ((elems.map (List.intercalate ['/'])).map List.length).sum ≠ 0
        ∧ joinBuf (elems.map (List.intercalate ['/'])) [] = g ++ slashTail items
        ∧ items.filter (· ≠ []) = rest
        ∧ ∀ s ∈ items, s = [] ∨ CleanSegment s := by
  induction elems with
  | nil => exact Or.inl ⟨rfl, rfl⟩
  | cons gs es ih =>
    have hes : ∀ gs ∈ es, ∀ x ∈ gs, CleanSegment x := fun gs h => hall gs (by simp [h])
    have hgs : ∀ x ∈ gs, CleanSegment x := hall gs (by simp)
    cases gs with
    | nil =>
      rcases ih hes with ⟨h1, h2⟩ | ⟨g, rest, items, h1, h2, h3, h4, h5, h6⟩
      · left
        exact ⟨by simpa using h1, by simpa [List.intercalate] using h2⟩
      · right
        refine ⟨g, rest, items, by simpa using h1, h2, by simpa [List.intercalate] using h3,
          ?_, h5, h6⟩
        simpa [joinBuf, List.intercalate] using h4
    | cons h t =>
      right
      have hh : CleanSegment h := hgs h (by simp)
      have ht : ∀ x ∈ t, CleanSegment x := fun x hx => hgs x (by simp [hx])
      obtain ⟨more, h1, h2, h3⟩ := joinBuf_nonempty es h t hh.1 hes
      have hlen : 0 < h.length := List.length_pos.mpr hh.1
      refine ⟨h, t ++ es.flatten, t ++ more, by simp, hh, ?_, ?_, ?_, ?_⟩
      · simp only [List.map_cons, List.sum_cons, intercalate_cons_eq, List.length_append]
        omega
      · have hne : List.intercalate ['/'] (h :: t) ≠ [] := by
          rw [intercalate_cons_eq]
          simp [hh.1]
        simp only [List.map_cons, joinBuf, List.length_nil, lt_self_iff_false, false_or, hne,
          ne_eq, not_false_eq_true, if_true, if_false, List.nil_append]
        rw [intercalate_cons_eq, h1]
      · rw [List.filter_append, filter_clean_segments _ ht, h2]
      · intro s hs
        rcases List.mem_append.mp hs with hs | hs
        · exact Or.inr (ht s hs)
        · exact h3 s hs

/-- `path.Join` of clean relative paths is the `'/'`-join of all their segments. -/
theorem Join_clean (elems : List (List Str))
    (hall : ∀ gs ∈ elems, ∀ x ∈ gs, CleanSegment x) :
    Join (elems.map (List.intercalate ['/'])) = List.intercalate ['/'] elems.flatten := by
  rcases joinBuf_nil elems hall with ⟨h1, h2⟩ | ⟨g, rest, items, h1, h2, h3, h4, h5, h6⟩
  · rw [Join, if_pos h2, h1]
    rfl
  · rw [Join, if_neg h3, h4, Clean_segments g items h2 h6, h5, h1, intercalate_cons_eq]

theorem toDigitsCore_plain (fuel : Nat) :
    ∀ (n : Nat) (ds : List Char), (∀ c ∈ ds, c ≠ '/' ∧ c ≠ '.') →
      ∀ c ∈ Nat.toDigitsCore 10 fuel n ds, c ≠ '/' ∧ c ≠ '.' := by
  induction fuel with
  | zero => intro n ds h; simpa [Nat.toDigitsCore] using h
  | succ fuel ih =>
    intro n ds h
    have hd : (n % 10).digitChar ≠ '/' ∧ (n % 10).digitChar ≠ '.' := by
      have : n % 10 < 10 := Nat.mod_lt _ (by decide)
      generalize n % 10 = d at this
      interval_cases d <;> decide
    have hcons : ∀ c ∈ (n % 10).digitChar :: ds, c ≠ '/' ∧ c ≠ '.' := by
      intro c hc
      rcases List.mem_cons.mp hc with rfl | hc
      · exact hd
      · exact h c hc
    simp only [Nat.toDigitsCore]
    split
    · exact hcons
    · exact ih _ _ hcons

theorem toDigitsCore_ne_nil (fuel : Nat) :
    ∀ (n : Nat) (ds : List Char), (ds ≠ [] ∨ 0 < fuel) → Nat.toDigitsCore 10 fuel n ds ≠ [] := by
  induction fuel with
  | zero =>
    intro n ds h
    rcases h with h | h
    · simpa [Nat.toDigitsCore] using h
    · omega
  | succ fuel ih =>
    intro n ds _
    simp only [Nat.toDigitsCore]
    split
    · simp
    · exact ih _ _ (Or.inl (by simp))

theorem plain_cleanSegment (s : Str) (hne : s ≠ []) (h : ∀ c ∈ s, c ≠ '/' ∧ c ≠ '.') :
    CleanSegment s := by
  refine ⟨hne, fun hm => (h _ hm).1 rfl, ?_, ?_⟩
  · rintro rfl
    exact (h '.' (by simp)).2 rfl
  · rintro rfl
    exact (h '.' (by simp)).2 rfl

theorem Itoa_plain (i : Int) : Itoa i ≠ [] ∧ ∀ c ∈ Itoa i, c ≠ '/' ∧ c ≠ '.' := by
  have h1 := toDigitsCore_plain (i.natAbs + 1) i.natAbs [] (by simp)
  have h2 := toDigitsCore_ne_nil (i.natAbs + 1) i.natAbs [] (Or.inr (by omega))
  unfold Itoa Nat.toDigits
  split
  · refine ⟨by simp, ?_⟩
    intro c hc
    rcases List.mem_cons.mp hc with rfl | hc
    · decide
    · exact h1 c hc
  · exact ⟨h2, h1⟩

theorem Itoa_cleanSegment (i : Int) : CleanSegment (Itoa i) :=
  plain_cleanSegment _ (Itoa_plain i).1 (Itoa_plain i).2

theorem sprintfDims_cleanSegment (d : Dimensions) : CleanSegment (sprintfDims d) := by
  apply plain_cleanSegment
  · simp [sprintfDims]
  · intro c hc
    simp only [sprintfDims, List.mem_append, List.mem_cons] at hc
    rcases hc with hc | rfl | hc
    · exact (Itoa_plain d.X).2 c hc
    · decide
    · exact (Itoa_plain d.Y).2 c hc

theorem intercalate_segOf (s : Str) : List.intercalate ['/'] (segOf s) = s := by
  unfold segOf
  split
  · simp_all [List.intercalate]
  · simp [List.intercalate]

theorem segOf_clean (s : Str) (h : s = [] ∨ CleanSegment s) : ∀ x ∈ segOf s, CleanSegment x := by
  intro x hx
  unfold segOf at hx
  split at hx
  · simp at hx
  · rcases h with h | h
    · contradiction
    · simp at hx
      exact hx ▸ h

theorem segOf_of_clean (s : Str) (h : CleanSegment s) : segOf s = [s] := by
  simp [segOf, h.1]

theorem filter_cons_segOf (s : Str) (l : List Str) :
    (s :: l).filter (· ≠ []) = segOf s ++ l.filter (· ≠ []) := by
  by_cases h : s = [] <;> simp [List.filter, segOf, h]

theorem intercalate_split (A B : List Str) (k1 k2 : Str) :
    List.intercalate ['/'] (A ++ (k1 ++ '/' :: k2) :: B)
      = List.intercalate ['/'] (A ++ k1 :: k2 :: B) := by
  cases A with
  | nil => simp [intercalate_cons_eq, slashTail]
  | cons a A => simp [intercalate_cons_eq, slashTail_append, slashTail]

theorem Join_two (gs hs : List Str) (hg : ∀ x ∈ gs, CleanSegment x)
    (hh : ∀ x ∈ hs, CleanSegment x) :
    Join [List.intercalate ['/'] gs, List.intercalate ['/'] hs]
      = List.intercalate ['/'] (gs ++ hs) := by
  have := Join_clean [gs, hs] (by
    intro l hl
    simp at hl
    rcases hl with rfl | rfl <;> assumption)
  simpa using this

theorem Join_three (gs hs ks : List Str) (hg : ∀ x ∈ gs, CleanSegment x)
    (hh : ∀ x ∈ hs, CleanSegment x) (hk : ∀ x ∈ ks, CleanSegment x) :
    Join [List.intercalate ['/'] gs, List.intercalate ['/'] hs, List.intercalate ['/'] ks]
      = List.intercalate ['/'] (gs ++ hs ++ ks) := by
  have := Join_clean [gs, hs, ks] (by
    intro l hl
    simp at hl
    rcases hl with rfl | rfl | rfl <;> assumption)
  simpa using this

theorem tenantSegment_clean (shopID : Option Int) :
    tenantSegment shopID = [] ∨ CleanSegment (tenantSegment shopID) := by
  cases shopID with
  | none => exact Or.inl rfl
  | some s => exact Or.inr (Itoa_cleanSegment s)

theorem literal_minxmaxy_clean : CleanSegment "minxmaxy".toList := by
  refine ⟨by decide, by decide, by decide, by decide⟩

theorem literal_minymaxx_clean : CleanSegment "minymaxx".toList := by
  refine ⟨by decide, by decide, by decide, by decide⟩

theorem mem_append_clean {a b : List Str} (ha : ∀ x ∈ a, CleanSegment x)
    (hb : ∀ x ∈ b, CleanSegment x) : ∀ x ∈ a ++ b, CleanSegment x := by
  intro x hx
  rcases List.mem_append.mp hx with h | h
  · exact ha x h
  · exact hb x h

/-- The key of a rendition as the `'/'`-join of its non-empty segments. -/
theorem ImageSubPath_segments (pfx productID fileName : Str) (shopID : Option Int)
    (r : Rendition)
    (hp : pfx = [] ∨ CleanSegment pfx) (hd : productID = [] ∨ CleanSegment productID)
    (hf : fileName = [] ∨ CleanSegment fileName) :
    ImageSubPath pfx shopID productID r.scaleArg r.cropArg r.minXMaxYArg r.minYMaxXArg fileName
        = List.intercalate ['/']
            ([pfx, tenantSegment shopID, productID, kindSegment r, fileName].filter
              (· ≠ [])) := by
  have hshop : (match shopID with
      | some s => Itoa s
      | none => []) = tenantSegment shopID := by
    cases shopID <;> rfl
  have hP := segOf_clean pfx hp
  have hD := segOf_clean productID hd
  have hF := segOf_clean fileName hf
  have hT := segOf_clean _ (tenantSegment_clean shopID)
  have hbase : Join [pfx, tenantSegment shopID, productID]
      = List.intercalate ['/'] (segOf pfx ++ segOf (tenantSegment shopID) ++ segOf productID) := by
    have := Join_three _ _ _ hP hT hD
    simpa only [intercalate_segOf] using this
  have hB := mem_append_clean (mem_append_clean hP hT) hD
  have hfile : ∀ gs : List Str, (∀ x ∈ gs, CleanSegment x) →
      Join [List.intercalate ['/'] gs, fileName]
        = List.intercalate ['/'] (gs ++ segOf fileName) := by
    intro gs hgs
    have := Join_two gs (segOf fileName) hgs hF
    simpa only [intercalate_segOf] using this
  have hone : ∀ k : Str, CleanSegment k → List.intercalate ['/'] [k] = k := by
    intro k _
    simp [List.intercalate]
  simp only [filter_cons_segOf, List.filter_nil, List.append_nil]
  cases r with
  | main =>
    simp only [ImageSubPath, hshop, Rendition.scaleArg, Rendition.cropArg,
      Rendition.minXMaxYArg, Rendition.minYMaxXArg, hbase, kindSegment]
    rw [hfile _ hB]
    simp [segOf]
  | scale m =>
    have hk := Itoa_cleanSegment m
    have h2 := Join_two _ [Itoa m] hB (by simpa using hk)
    rw [hone _ hk] at h2
    simp only [ImageSubPath, hshop, Rendition.scaleArg, Rendition.cropArg,
      Rendition.minXMaxYArg, Rendition.minYMaxXArg, hbase, kindSegment, h2]
    rw [hfile _ (mem_append_clean hB (by simpa using hk)), segOf_of_clean _ hk]
    simp
  | crop d =>
    have hk := sprintfDims_cleanSegment d
    have h2 := Join_two _ [sprintfDims d] hB (by simpa using hk)
    rw [hone _ hk] at h2
    simp only [ImageSubPath, hshop, Rendition.scaleArg, Rendition.cropArg,
      Rendition.minXMaxYArg, Rendition.minYMaxXArg, hbase, kindSegment, h2]
    rw [hfile _ (mem_append_clean hB (by simpa using hk)), segOf_of_clean _ hk]
    simp
  | minXMaxY d =>
    have hk := sprintfDims_cleanSegment d
    have hl := literal_minxmaxy_clean
    have hkk : ∀ x ∈ ["minxmaxy".toList, sprintfDims d], CleanSegment x := by
      intro x hx
      simp only [List.mem_cons, List.mem_singleton] at hx
      rcases hx with rfl | rfl | hx
      · exact hl
      · exact hk
      · simp at hx
    have h3 := Join_three _ ["minxmaxy".toList] [sprintfDims d] hB (by simpa using hl)
      (by simpa using hk)
    rw [hone _ hk, hone _ hl] at h3
    simp only [ImageSubPath, hshop, Rendition.scaleArg, Rendition.cropArg,
      Rendition.minXMaxYArg, Rendition.minYMaxXArg, hbase, kindSegment, h3]
    rw [hfile _ (by
      intro x hx
      simp only [List.append_assoc] at hx
      exact mem_append_clean hP (mem_append_clean hT (mem_append_clean hD hkk)) x
        (by simpa using hx))]
    have hseg : segOf ("minxmaxy/".toList ++ sprintfDims d)
        = ["minxmaxy".toList ++ '/' :: sprintfDims d] := by
      simp [segOf]
    rw [hseg]
    have := intercalate_split
      (segOf pfx ++ segOf (tenantSegment shopID) ++ segOf productID) (segOf fileName)
      "minxmaxy".toList (sprintfDims d)
    simp only [List.append_assoc, List.singleton_append, List.cons_append, List.nil_append]
      at this ⊢
    rw [this]
  | minYMaxX d =>
    have hk := sprintfDims_cleanSegment d
    have hl := literal_minymaxx_clean
    have hkk : ∀ x ∈ ["minymaxx".toList, sprintfDims d], CleanSegment x := by
      intro x hx
      simp only [List.mem_cons, List.mem_singleton] at hx
      rcases hx with rfl | rfl | hx
      · exact hl
      · exact hk
      · simp at hx
    have h3 := Join_three _ ["minymaxx".toList] [sprintfDims d] hB (by simpa using hl)
      (by simpa using hk)
    rw [hone _ hk, hone _ hl] at h3
    simp only [ImageSubPath, hshop, Rendition.scaleArg, Rendition.cropArg,
      Rendition.minXMaxYArg, Rendition.minYMaxXArg, hbase, kindSegment, h3]
    rw [hfile _ (by
      intro x hx
      simp only [List.append_assoc] at hx
      exact mem_append_clean hP (mem_append_clean hT (mem_append_clean hD hkk)) x
        (by simpa using hx))]
    have hseg : segOf ("minymaxx/".toList ++ sprintfDims d)
        = ["minymaxx".toList ++ '/' :: sprintfDims d] := by
      simp [segOf]
    rw [hseg]
    have := intercalate_split
      (segOf pfx ++ segOf (tenantSegment shopID) ++ segOf productID) (segOf fileName)
      "minymaxx".toList (sprintfDims d)
    simp only [List.append_assoc, List.singleton_append, List.cons_append, List.nil_append]
      at this ⊢
    rw [this]

/-- C1: for a prefix, product id and file name that are each empty or a single clean
path segment, any optional tenant id and at most one rendition spec, `ImageSubPath`
returns the `'/'`-join of the non-empty segments prefix, decimal tenant id, product id,
kind-segment, file name; with every input empty or nil the result is the empty string. -/
theorem ImageSubPath_eq_join (pfx productID fileName : Str) (shopID : Option Int)
    (r : Rendition)
    (hp : pfx = [] ∨ CleanSegment pfx) (hd : productID = [] ∨ CleanSegment productID)
    (hf : fileName = [] ∨ CleanSegment fileName) :
    ImageSubPath pfx shopID productID r.scaleArg r.cropArg r.minXMaxYArg r.minYMaxXArg fileName
        = List.intercalate ['/']
            ([pfx, tenantSegment shopID, productID, kindSegment r, fileName].filter (· ≠ []))
      ∧ ImageSubPath [] none [] none none none none [] = [] :=
  ⟨ImageSubPath_segments pfx productID fileName shopID r hp hd hf, by decide⟩

/-- C1 on the key of a minYMaxX rendition `(100, 100)`. -/
theorem ImageSubPath_eq_join_witness :
    ("prefix".toList = [] ∨ CleanSegment "prefix".toList)
      ∧ ("asd".toList = [] ∨ CleanSegment "asd".toList)
      ∧ ("file.name".toList = [] ∨ CleanSegment "file.name".toList)
      ∧ ImageSubPath "prefix".toList (some 1) "asd".toList none none none
          (some ⟨100, 100⟩) "file.name".toList
        = "prefix/1/asd/minymaxx/100x100/file.name".toList :=
  have hp : "prefix".toList = [] ∨ CleanSegment "prefix".toList :=
    Or.inr ⟨by decide, by decide, by decide, by decide⟩
  have hd : "asd".toList = [] ∨ CleanSegment "asd".toList :=
    Or.inr ⟨by decide, by decide, by decide, by decide⟩
  have hf : "file.name".toList = [] ∨ CleanSegment "file.name".toList :=
    Or.inr ⟨by decide, by decide, by decide, by decide⟩
  ⟨hp, hd, hf,
    (ImageSubPath_eq_join "prefix".toList "asd".toList "file.name".toList (some 1)
      (.minYMaxX ⟨100, 100⟩) hp hd hf).1.trans (by decide)⟩

/-! ## Theorems: geometry -/

theorem ofInt_pos (n : Int) (h : 0 < n) :
    ∃ m e, F64.ofInt n = .finite false m e := by
  refine ⟨(roundRatio n.natAbs 1).1, (roundRatio n.natAbs 1).2, ?_⟩
  have h0 : n ≠ 0 := by omega
  have h1 : ¬ n < 0 := by omega
  simp [F64.ofInt, h0, h1]

theorem binary64Quot_pos (a b c : Int) (ha : 0 < a) (hb : 0 < b) (hc : 0 < c) :
    (binary64Quot a b c).isPositive = true := by
  obtain ⟨ma, ea, hA⟩ := ofInt_pos a ha
  obtain ⟨mb, eb, hB⟩ := ofInt_pos b hb
  obtain ⟨mc, ec, hC⟩ := ofInt_pos c hc
  simp [binary64Quot, hA, hB, hC, F64.div, F64.isPositive]

/-- The conversion `int(f)` of a positive binary64 value below `2 ^ 63` is the floor of
the number it stands for. -/
theorem toInt_eq_floor (m : Nat) (e : Int)
    (h : F64.toRat (.finite false m e) < 2 ^ 63) :
    F64.toInt (.finite false m e) = ⌊F64.toRat (.finite false m e)⌋ := by
  simp only [F64.toRat, Bool.false_eq_true, if_false, one_mul] at h ⊢
  rcases le_or_lt 0 e with he | he
  · obtain ⟨k, rfl⟩ := Int.eq_ofNat_of_zero_le he
    have hv : (m : ℚ) * 2 ^ (k : Int) = ((m * 2 ^ k : Nat) : ℚ) := by
      push_cast
      rw [zpow_natCast]
    rw [hv] at h ⊢
    have hlt : ((m * 2 ^ k : Nat) : Int) < 2 ^ 63 := by exact_mod_cast h
    have hge : -(2 ^ 63 : Int) ≤ ((m * 2 ^ k : Nat) : Int) := by
      have : (0 : Int) ≤ ((m * 2 ^ k : Nat) : Int) := Int.natCast_nonneg _
      omega
    simp only [F64.toInt, he, if_true, Int.toNat_ofNat, Bool.false_eq_true, if_false]
    rw [if_pos ⟨hge, hlt⟩]
    exact (Int.floor_natCast _).symm
  · obtain ⟨k, hk⟩ : ∃ k : Nat, e = -(k : Int) := ⟨(-e).toNat, by omega⟩
    subst hk
    have hv : (m : ℚ) * 2 ^ (-(k : Int)) = (m : ℚ) / ((2 ^ k : Nat) : ℚ) := by
      rw [zpow_neg, div_eq_mul_inv, zpow_natCast]
      push_cast
      rfl
    have hfl : ⌊(m : ℚ) / ((2 ^ k : Nat) : ℚ)⌋ = ((m / 2 ^ k : Nat) : Int) := by
      have := Rat.floor_intCast_div_natCast (m : Int) (2 ^ k)
      simpa using this
    rw [hv] at h ⊢
    have hne : ¬ (0 : Int) ≤ -(k : Int) := by omega
    have hlt : ((m / 2 ^ k : Nat) : Int) < 2 ^ 63 := by
      have h1 : (((m / 2 ^ k : Nat) : Int) : ℚ) ≤ (m : ℚ) / ((2 ^ k : Nat) : ℚ) := by
        rw [← hfl]
        exact Int.floor_le _
      have h2 : (((m / 2 ^ k : Nat) : Int) : ℚ) < ((2 ^ 63 : Int) : ℚ) := by
        push_cast at h1 ⊢
        exact lt_of_le_of_lt h1 (by simpa using h)
      exact_mod_cast h2
    have hge : -(2 ^ 63 : Int) ≤ ((m / 2 ^ k : Nat) : Int) := by
      have : (0 : Int) ≤ ((m / 2 ^ k : Nat) : Int) := Int.natCast_nonneg _
      omega
    simp only [F64.toInt, hne, if_false, neg_neg, Int.toNat_ofNat, Bool.false_eq_true]
    rw [if_pos ⟨hge, hlt⟩, hfl]

/-- For positive operands the value `int(float64(a) / (float64(b) / float64(c)))` is the
floor of the binary64 quotient, as long as that quotient is below `2 ^ 63`. -/
theorem scaledSide_eq_floor (a b c : Int) (ha : 0 < a) (hb : 0 < b) (hc : 0 < c)
    (h : F64.toRat (binary64Quot a b c) < 2 ^ 63) :
    scaledSide a b c = ⌊F64.toRat (binary64Quot a b c)⌋ := by
  have hp := binary64Quot_pos a b c ha hb hc
  unfold scaledSide
  generalize binary64Quot a b c = q at hp h ⊢
  cases q with
  | finite s m e =>
    cases s with
    | false => exact toInt_eq_floor m e h
    | true => simp [F64.isPositive] at hp
  | _ => simp [F64.isPositive] at hp

/-- C2: for positive source sides and a positive scale-max `M`,
`calculateTargetDimensions(M, nil, sx, sy)` returns no error and `(w, h)` with `w = M`,
`h = floor(sy / (sx / M))` when `sx > sy`, and `h = M`, `w = floor(sx / (sy / M))`
otherwise; the ratio and the quotient are taken in binary64, the quotient is positive and
its truncation is its floor.  `(2000, 1000)` with `M = 1000` gives `(1000, 500)` and
`(1000, 2000)` gives `(500, 1000)`. -/
theorem calculateTargetDimensions_scale (M sx sy : Int) (hM : 0 < M) (hx : 0 < sx)
    (hy : 0 < sy) :
    calculateTargetDimensions (some M) none sx sy
        = (if sx > sy then (M, scaledSide sy sx M, none) else (scaledSide sx sy M, M, none))
      ∧ FloorOfQuot sy sx M
      ∧ FloorOfQuot sx sy M
      ∧ calculateTargetDimensions (some 1000) none 2000 1000 = (1000, 500, none)
      ∧ calculateTargetDimensions (some 1000) none 1000 2000 = (500, 1000, none) := by
  refine ⟨?_,
    ⟨binary64Quot_pos _ _ _ hy hx hM, scaledSide_eq_floor _ _ _ hy hx hM⟩,
    ⟨binary64Quot_pos _ _ _ hx hy hM, scaledSide_eq_floor _ _ _ hx hy hM⟩,
    by decide, by decide⟩
  by_cases h : sx > sy <;> simp [calculateTargetDimensions, scaledSide, binary64Quot, h]

/-- C2 at the source `(2000, 1000)` with `M = 1000`. -/
theorem calculateTargetDimensions_scale_witness :
    (0 : Int) < 1000 ∧ (0 : Int) < 2000 ∧
      calculateTargetDimensions (some 1000) none 2000 1000
        = (if (2000 : Int) > 1000 then (1000, scaledSide 1000 2000 1000, none)
            else (scaledSide 2000 1000 1000, 1000, none)) :=
  ⟨by decide, by decide,
    (calculateTargetDimensions_scale 1000 2000 1000 (by decide) (by decide) (by decide)).1⟩

/-- The binary64 quotient is not the exact one: a `9 x 9` source scaled to `M = 7` gets
width `6`, while `9 / (9 / 7) = 7` exactly. -/
theorem calculateTargetDimensions_square_nine :
    calculateTargetDimensions (some 7) none 9 9 = (6, 7, none) := by decide

theorem max_eq_ite (a b : Int) : (if b > a then b else a) = max a b := by
  rcases le_or_lt b a with h | h
  · rw [if_neg (by omega), max_eq_left h]
  · rw [if_pos h, max_eq_right (le_of_lt h)]

/-- C3: for every source size and crop `(Cx, Cy)` the target dimensions of the crop are
those of the scale-max `max(Cx, Cy)`, never an error, and `cropImage` uses a canvas of
exactly `Cx` by `Cy` with the placement rectangle `Min = ((Cx-w)/2, (Cy-h)/2)`,
`Max = (Cx+(Cx-w)/2, Cy+(Cy-h)/2)`, the divisions truncating; a `(2000, 1000)` source
cropped to `(500, 500)` is scaled to `(500, 250)` and placed at `(0,125)-(500,625)`. -/
theorem cropImage_geometry (c : Dimensions) (sx sy : Int) :
    calculateTargetDimensions none (some c) sx sy
        = calculateTargetDimensions (some (max c.X c.Y)) none sx sy
      ∧ (calculateTargetDimensions none (some c) sx sy).2.2 = none
      ∧ cropImageGeometry c sx sy = .ok {
          shrunk := Rect 0 0 (calculateTargetDimensions (some (max c.X c.Y)) none sx sy).1
            (calculateTargetDimensions (some (max c.X c.Y)) none sx sy).2.1
          container :=
            ⟨⟨(c.X - (calculateTargetDimensions (some (max c.X c.Y)) none sx sy).1).tdiv 2,
              (c.Y - (calculateTargetDimensions (some (max c.X c.Y)) none sx sy).2.1).tdiv 2⟩,
             ⟨c.X + (c.X - (calculateTargetDimensions (some (max c.X c.Y)) none sx sy).1).tdiv 2,
              c.Y + (c.Y
                - (calculateTargetDimensions (some (max c.X c.Y)) none sx sy).2.1).tdiv 2⟩⟩
          result := ⟨⟨0, 0⟩, ⟨c.X, c.Y⟩⟩ }
      ∧ cropImageGeometry ⟨500, 500⟩ 2000 1000
          = .ok ⟨⟨⟨0, 0⟩, ⟨500, 250⟩⟩, ⟨⟨0, 125⟩, ⟨500, 625⟩⟩, ⟨⟨0, 0⟩, ⟨500, 500⟩⟩⟩ := by
  have h1 : calculateTargetDimensions none (some c) sx sy
      = calculateTargetDimensions (some (max c.X c.Y)) none sx sy := by
    rw [← max_eq_ite c.X c.Y]
    by_cases h : c.Y > c.X <;> simp [calculateTargetDimensions, h]
  have h2 : (calculateTargetDimensions (some (max c.X c.Y)) none sx sy).2.2 = none := by
    by_cases h : sx > sy <;> simp [calculateTargetDimensions, h]
  have h3 : calculateTargetDimensions none (some ⟨500, 500⟩) 2000 1000 = (500, 250, none) := by
    decide
  refine ⟨h1, h1 ▸ h2, ?_, by rw [cropImageGeometry, h3]; decide⟩
  unfold cropImageGeometry
  rw [h1]
  generalize calculateTargetDimensions (some (max c.X c.Y)) none sx sy = r at h2
  obtain ⟨x, y, e⟩ := r
  simp only at h2
  subst h2
  rfl

theorem max_eq_ite_lt (w m : Int) : (if w < m then m else w) = max w m := by
  rcases le_or_lt m w with h | h
  · rw [if_neg (by omega), max_eq_left h]
  · rw [if_pos h, max_eq_right (le_of_lt h)]

/-- C4: for every source size and minXMaxY spec `(Mx, My)` with `My > 0`,
`calculateMinXMaxYDimensions` returns `h = My`, `w = floor(sx / (sy / My))` (binary64,
truncated) and no error, and `cropImageMinXMaxY` uses a canvas of width `max(w, Mx)` and
height `h`, the scaled image placed at `((max(w, Mx) - w)/2, 0)`; the canvas is never
narrower than `Mx` nor than the scaled image. -/
theorem cropImageMinXMaxY_geometry (Mx My sx sy : Int) (hMy : 0 < My) :
    calculateMinXMaxYDimensions (some ⟨Mx, My⟩) sx sy = (scaledSide sx sy My, My, none)
      ∧ cropImageMinXMaxYGeometry ⟨Mx, My⟩ sx sy = .ok {
          shrunk := Rect 0 0 (scaledSide sx sy My) My
          container :=
            ⟨⟨(max (scaledSide sx sy My) Mx - scaledSide sx sy My).tdiv 2, 0⟩,
             ⟨max (scaledSide sx sy My) Mx
                + (max (scaledSide sx sy My) Mx - scaledSide sx sy My).tdiv 2, My⟩⟩
          result := ⟨⟨0, 0⟩, ⟨max (scaledSide sx sy My) Mx, My⟩⟩ }
      ∧ Mx ≤ max (scaledSide sx sy My) Mx
      ∧ scaledSide sx sy My ≤ max (scaledSide sx sy My) Mx := by
  have hne : ¬ (Mx = 0 ∧ My = 0) := by omega
  have h1 : calculateMinXMaxYDimensions (some ⟨Mx, My⟩) sx sy
      = (scaledSide sx sy My, My, none) := by
    simp [calculateMinXMaxYDimensions, hne, scaledSide, binary64Quot]
  refine ⟨h1, ?_, le_max_right _ _, le_max_left _ _⟩
  simp only [cropImageMinXMaxYGeometry, h1, max_eq_ite_lt]

/-- C4 at the source `(1000, 2000)` with the spec `(800, 500)`: the scaled image is
`250 x 500`, the canvas `800 x 500`, the origin `(275, 0)`. -/
theorem cropImageMinXMaxY_geometry_witness :
    (0 : Int) < 500
      ∧ cropImageMinXMaxYGeometry ⟨800, 500⟩ 1000 2000
        = .ok ⟨⟨⟨0, 0⟩, ⟨250, 500⟩⟩, ⟨⟨275, 0⟩, ⟨1075, 500⟩⟩, ⟨⟨0, 0⟩, ⟨800, 500⟩⟩⟩ :=
  have h : scaledSide 1000 2000 500 = 250 := by decide
  ⟨by decide,
    (cropImageMinXMaxY_geometry 800 500 1000 2000 (by decide)).2.1.trans (by rw [h]; decide)⟩

theorem Rect_transpose (x y : Int) : (Rect 0 0 x y).transpose = Rect 0 0 y x := rfl

/-- C5: Min-Y/Max-X is the transpose of Min-X/Max-Y.  For every spec `(Mx, My)` and
source `(sx, sy)`, `calculateMinYMaxXDimensions((Mx, My), sx, sy) = (w, h, err)` iff
`calculateMinXMaxYDimensions((My, Mx), sy, sx) = (h, w, err)`, and the rectangles of
`cropImageMinYMaxX` are the x/y swap of those of `cropImageMinXMaxY`; when the spec is
not `(0, 0)`: `w = Mx`, `h = floor(sy / (sx / Mx))`, canvas height `max(h, My)`, origin
`(0, (max(h, My) - h)/2)`. -/
theorem minYMaxX_transpose (Mx My sx sy : Int) :
    (∀ w h err, calculateMinYMaxXDimensions (some ⟨Mx, My⟩) sx sy = (w, h, err)
        ↔ calculateMinXMaxYDimensions (some ⟨My, Mx⟩) sy sx = (h, w, err))
      ∧ cropImageMinYMaxXGeometry ⟨Mx, My⟩ sx sy
          = (cropImageMinXMaxYGeometry ⟨My, Mx⟩ sy sx).map Composite.transpose
      ∧ (¬ (Mx = 0 ∧ My = 0) →
          calculateMinYMaxXDimensions (some ⟨Mx, My⟩) sx sy = (Mx, scaledSide sy sx Mx, none)
          ∧ cropImageMinYMaxXGeometry ⟨Mx, My⟩ sx sy = .ok {
              shrunk := Rect 0 0 Mx (scaledSide sy sx Mx)
              container :=
                ⟨⟨0, (max (scaledSide sy sx Mx) My - scaledSide sy sx Mx).tdiv 2⟩,
                 ⟨Mx, max (scaledSide sy sx Mx) My
                    + (max (scaledSide sy sx Mx) My - scaledSide sy sx Mx).tdiv 2⟩⟩
              result := ⟨⟨0, 0⟩, ⟨Mx, max (scaledSide sy sx Mx) My⟩⟩ }) := by
  by_cases h0 : Mx = 0 ∧ My = 0
  · have h0' : My = 0 ∧ Mx = 0 := ⟨h0.2, h0.1⟩
    refine ⟨?_, ?_, fun h => absurd h0 h⟩
    · intro w h err
      simp only [calculateMinYMaxXDimensions, calculateMinXMaxYDimensions, h0, h0',
        and_self, if_true, Prod.mk.injEq]
      constructor <;> rintro ⟨a, b, c⟩ <;> exact ⟨b, a, c⟩
    · simp [cropImageMinYMaxXGeometry, cropImageMinXMaxYGeometry,
        calculateMinYMaxXDimensions, calculateMinXMaxYDimensions, h0, Except.map]
  · have h0' : ¬ (My = 0 ∧ Mx = 0) := fun h => h0 ⟨h.2, h.1⟩
    have hyx : calculateMinYMaxXDimensions (some ⟨Mx, My⟩) sx sy
        = (Mx, scaledSide sy sx Mx, none) := by
      simp [calculateMinYMaxXDimensions, h0, scaledSide, binary64Quot]
    have hxy : calculateMinXMaxYDimensions (some ⟨My, Mx⟩) sy sx
        = (scaledSide sy sx Mx, Mx, none) := by
      simp [calculateMinXMaxYDimensions, h0', scaledSide, binary64Quot]
    have hg : cropImageMinYMaxXGeometry ⟨Mx, My⟩ sx sy = .ok {
        shrunk := Rect 0 0 Mx (scaledSide sy sx Mx)
        container :=
          ⟨⟨0, (max (scaledSide sy sx Mx) My - scaledSide sy sx Mx).tdiv 2⟩,
           ⟨Mx, max (scaledSide sy sx Mx) My
              + (max (scaledSide sy sx Mx) My - scaledSide sy sx Mx).tdiv 2⟩⟩
        result := ⟨⟨0, 0⟩, ⟨Mx, max (scaledSide sy sx Mx) My⟩⟩ } := by
      simp only [cropImageMinYMaxXGeometry, hyx, max_eq_ite_lt]
    refine ⟨?_, ?_, fun _ => ⟨hyx, hg⟩⟩
    · intro w h err
      rw [hyx, hxy]
      simp only [Prod.mk.injEq]
      constructor <;> rintro ⟨a, b, c⟩ <;> exact ⟨b, a, c⟩
    · rw [hg]
      simp only [cropImageMinXMaxYGeometry, hxy, max_eq_ite_lt, Except.map,
        Composite.transpose, Rectangle.transpose, Point.transpose]
      rfl

/-- C5 at the source `(2000, 1000)` with the spec `(500, 800)`: the scaled image is
`500 x 250`, the canvas `500 x 800`, the origin `(0, 275)`. -/
theorem minYMaxX_transpose_witness :
    ¬ ((500 : Int) = 0 ∧ (800 : Int) = 0)
      ∧ cropImageMinYMaxXGeometry ⟨500, 800⟩ 2000 1000
        = .ok ⟨⟨⟨0, 0⟩, ⟨500, 250⟩⟩, ⟨⟨0, 275⟩, ⟨500, 1075⟩⟩, ⟨⟨0, 0⟩, ⟨500, 800⟩⟩⟩ :=
  have h : scaledSide 1000 2000 500 = 250 := by decide
  ⟨by decide,
    ((minYMaxX_transpose 500 800 2000 1000).2.2 (by decide)).2.trans (by rw [h]; decide)⟩

/-! ## Theorems: background colour -/

theorem mapIncrement_keys (m : List (rgbaStruct × Nat)) (k : rgbaStruct) :
    ∀ x, x ∈ (mapIncrement m k).map Prod.fst ↔ x = k ∨ x ∈ m.map Prod.fst := by
  induction m with
  | nil => intro x; simp [mapIncrement]
  | cons e rest ih =>
    obtain ⟨k', n⟩ := e
    intro x
    by_cases h : k' = k
    · subst h
      simp [mapIncrement]
    · simp only [mapIncrement, h, if_false, List.map_cons, List.mem_cons, ih]
      tauto

theorem mapIncrement_nodup (m : List (rgbaStruct × Nat)) (k : rgbaStruct)
    (h : (m.map Prod.fst).Nodup) : ((mapIncrement m k).map Prod.fst).Nodup := by
  induction m with
  | nil => simp [mapIncrement]
  | cons e rest ih =>
    obtain ⟨k', n⟩ := e
    simp only [List.map_cons, List.nodup_cons] at h
    by_cases hk : k' = k
    · subst hk
      simpa [mapIncrement] using h
    · simp only [mapIncrement, hk, if_false, List.map_cons, List.nodup_cons]
      refine ⟨?_, ih h.2⟩
      intro hmem
      rcases (mapIncrement_keys rest k k').mp hmem with h1 | h1
      · exact hk h1
      · exact h.1 h1

theorem lookupCount_mapIncrement (m : List (rgbaStruct × Nat)) (k x : rgbaStruct) :
    lookupCount (mapIncrement m k) x = lookupCount m x + (if x = k then 1 else 0) := by
  induction m with
  | nil =>
    by_cases h : k = x
    · subst h; simp [mapIncrement, lookupCount]
    · have h' : ¬ x = k := fun e => h e.symm
      simp [mapIncrement, lookupCount, h, h']
  | cons e rest ih =>
    obtain ⟨k', n⟩ := e
    by_cases hk : k' = k
    · subst hk
      by_cases hx : k' = x
      · subst hx; simp [mapIncrement, lookupCount]
      · have hx' : ¬ x = k' := fun e => hx e.symm
        simp [mapIncrement, lookupCount, hx, hx']
    · by_cases hx : k' = x
      · subst hx
        simp [mapIncrement, lookupCount, hk]
      · simp [mapIncrement, lookupCount, hk, hx, ih]

theorem foldl_mapIncrement (l : List rgbaStruct) :
    ∀ m : List (rgbaStruct × Nat), (m.map Prod.fst).Nodup →
      ((l.foldl mapIncrement m).map Prod.fst).Nodup
        ∧ ∀ x, lookupCount (l.foldl mapIncrement m) x = lookupCount m x + l.count x := by
  induction l with
  | nil => intro m h; exact ⟨h, by simp⟩
  | cons k rest ih =>
    intro m h
    obtain ⟨h1, h2⟩ := ih (mapIncrement m k) (mapIncrement_nodup m k h)
    refine ⟨h1, ?_⟩
    intro x
    rw [List.foldl_cons, h2 x, lookupCount_mapIncrement, List.count_cons]
    by_cases hx : x = k
    · subst hx; simp; omega
    · have hx' : ¬ k = x := fun e => hx e.symm
      simp [hx, hx']

theorem lookupCount_of_mem (m : List (rgbaStruct × Nat)) (h : (m.map Prod.fst).Nodup)
    (k : rgbaStruct) (n : Nat) (hmem : (k, n) ∈ m) : lookupCount m k = n := by
  induction m with
  | nil => simp at hmem
  | cons e rest ih =>
    obtain ⟨k', n'⟩ := e
    simp only [List.map_cons, List.nodup_cons] at h
    rcases List.mem_cons.mp hmem with heq | hmem
    · cases heq
      simp [lookupCount]
    · have hne : k' ≠ k := by
        intro e
        apply h.1
        rw [e]
        exact List.mem_map_of_mem Prod.fst hmem
      simp [lookupCount, hne, ih h.2 hmem]

theorem mem_of_lookupCount_pos (m : List (rgbaStruct × Nat)) (k : rgbaStruct)
    (h : 0 < lookupCount m k) : (k, lookupCount m k) ∈ m := by
  induction m with
  | nil => simp [lookupCount] at h
  | cons e rest ih =>
    obtain ⟨k', n'⟩ := e
    by_cases hk : k' = k
    · subst hk
      simp [lookupCount]
    · simp only [lookupCount, hk, if_false] at h ⊢
      exact List.mem_cons_of_mem _ (ih h)

theorem count_add_count_le (l : List rgbaStruct) (c d : rgbaStruct) (h : c ≠ d) :
    l.count c + l.count d ≤ l.length := by
  induction l with
  | nil => simp
  | cons x rest ih =>
    simp only [List.count_cons, List.length_cons]
    by_cases h1 : x = c
    · subst h1
      have h2 : ¬ x = d := h
      simp [h2]
      omega
    · by_cases h2 : x = d
      · subst h2
        simp [h1]
        omega
      · simp [h1, h2]
        omega

theorem firstOverTwo_eq (v : List (rgbaStruct × Nat)) (c : rgbaStruct)
    (hall : ∀ e ∈ v, e.2 > 2 → e.1 = c) (hex : ∃ e ∈ v, e.2 > 2) :
    firstOverTwo v
      = ⟨uint8Shift c.r, uint8Shift c.g, uint8Shift c.b, uint8Shift c.a⟩ := by
  induction v with
  | nil => simp at hex
  | cons e rest ih =>
    obtain ⟨k, n⟩ := e
    by_cases hn : n > 2
    · have := hall (k, n) (by simp) hn
      simp only at this
      subst this
      simp [firstOverTwo, hn]
    · simp only [firstOverTwo, hn, if_false]
      apply ih
      · intro e he
        exact hall e (List.mem_cons_of_mem _ he)
      · obtain ⟨e, he, h2⟩ := hex
        rcases List.mem_cons.mp he with rfl | he
        · exact absurd h2 hn
        · exact ⟨e, he, h2⟩

theorem firstOverTwo_white (v : List (rgbaStruct × Nat)) (hall : ∀ e ∈ v, ¬ e.2 > 2) :
    firstOverTwo v = ⟨255, 255, 255, 255⟩ := by
  induction v with
  | nil => rfl
  | cons e rest ih =>
    obtain ⟨k, n⟩ := e
    have hn : ¬ n > 2 := hall (k, n) (by simp)
    simp only [firstOverTwo, hn, if_false]
    exact ih (fun e he => hall e (List.mem_cons_of_mem _ he))

theorem uint8Shift_of_lt (v : Nat) (h : v < 65536) : uint8Shift v = v >>> 8 := by
  unfold uint8Shift
  apply Nat.mod_eq_of_lt
  rw [Nat.shiftRight_eq_div_pow]
  omega

theorem cornerColours_length (img : Image) : (cornerColours img).length = 4 := by
  simp [cornerColours, cornerPoints]

/-- C6: `calculateBackgroundColour` samples the corner pixels `(0,0)`, `(W-1,0)`,
`(0,H-1)`, `(W-1,H-1)`.  Whatever order the colour map is ranged over: if a 16-bit colour
occurs at three or more of them the result is that colour with each channel shifted right
by 8 bits, and if no colour does the result is opaque white.  Corners
(red, red, red, blue) give red, corners (red, red, blue, blue) give white. -/
theorem calculateBackgroundColour_spec (img : Image)
    (order : List (rgbaStruct × Nat) → List (rgbaStruct × Nat))
    (horder : ∀ m, (order m).Perm m) :
    cornerColours img
        = [img.At 0 0, img.At (img.maxX - 1) 0, img.At 0 (img.maxY - 1),
            img.At (img.maxX - 1) (img.maxY - 1)]
      ∧ (∀ c : rgbaStruct, c.is16 → 3 ≤ (cornerColours img).count c →
          calculateBackgroundColour order img = c.shift8)
      ∧ ((∀ c : rgbaStruct, (cornerColours img).count c < 3) →
          calculateBackgroundColour order img = ⟨255, 255, 255, 255⟩) := by
  obtain ⟨hnd, hcount⟩ := foldl_mapIncrement (cornerColours img) [] (by simp)
  have hcount' : ∀ x, lookupCount (cornerMap img) x = (cornerColours img).count x := by
    intro x
    have := hcount x
    simpa [lookupCount, cornerMap] using this
  have hentry : ∀ e ∈ order (cornerMap img), e.2 = (cornerColours img).count e.1 := by
    intro e he
    have hm : (e.1, e.2) ∈ cornerMap img := (horder _).mem_iff.mp he
    rw [← hcount' e.1]
    exact (lookupCount_of_mem _ hnd e.1 e.2 hm).symm
  refine ⟨rfl, ?_, ?_⟩
  · intro c h16 h3
    have hall : ∀ e ∈ order (cornerMap img), e.2 > 2 → e.1 = c := by
      intro e he h2
      by_contra hne
      have h4 := count_add_count_le (cornerColours img) c e.1 (fun h => hne h.symm)
      rw [cornerColours_length] at h4
      have := hentry e he
      omega
    have hex : ∃ e ∈ order (cornerMap img), e.2 > 2 := by
      have hpos : 0 < lookupCount (cornerMap img) c := by
        rw [hcount' c]
        omega
      refine ⟨(c, lookupCount (cornerMap img) c),
        (horder _).mem_iff.mpr (mem_of_lookupCount_pos _ c hpos), ?_⟩
      show lookupCount (cornerMap img) c > 2
      rw [hcount' c]
      omega
    unfold calculateBackgroundColour
    rw [firstOverTwo_eq _ c hall hex]
    obtain ⟨hr, hg, hb, ha⟩ := h16
    simp [rgbaStruct.shift8, uint8Shift_of_lt, hr, hg, hb, ha]
  · intro hlt
    unfold calculateBackgroundColour
    apply firstOverTwo_white
    intro e he
    have := hentry e he
    have := hlt e.1
    omega

/-- C6 on a `10 x 10` image with corners (red, red, red, blue), the map ranged over in
reverse insertion order: the background is red; with corners (red, red, blue, blue) it
is opaque white. -/
theorem calculateBackgroundColour_spec_witness :
    (∀ m : List (rgbaStruct × Nat), (List.reverse m).Perm m)
      ∧ calculateBackgroundColour List.reverse
          (cornerImage 10 10 ⟨65535, 0, 0, 65535⟩ ⟨65535, 0, 0, 65535⟩
            ⟨65535, 0, 0, 65535⟩ ⟨0, 0, 65535, 65535⟩) = ⟨255, 0, 0, 255⟩
      ∧ calculateBackgroundColour List.reverse
          (cornerImage 10 10 ⟨65535, 0, 0, 65535⟩ ⟨65535, 0, 0, 65535⟩
            ⟨0, 0, 65535, 65535⟩ ⟨0, 0, 65535, 65535⟩) = ⟨255, 255, 255, 255⟩ :=
  ⟨fun m => List.reverse_perm m,
    ((calculateBackgroundColour_spec
        (cornerImage 10 10 ⟨65535, 0, 0, 65535⟩ ⟨65535, 0, 0, 65535⟩
          ⟨65535, 0, 0, 65535⟩ ⟨0, 0, 65535, 65535⟩)
        List.reverse (fun m => List.reverse_perm m)).2.1
      ⟨65535, 0, 0, 65535⟩ ⟨by decide, by decide, by decide, by decide⟩
      (by decide)).trans (by decide),
    (calculateBackgroundColour_spec
        (cornerImage 10 10 ⟨65535, 0, 0, 65535⟩ ⟨65535, 0, 0, 65535⟩
          ⟨0, 0, 65535, 65535⟩ ⟨0, 0, 65535, 65535⟩)
        List.reverse (fun m => List.reverse_perm m)).2.2
      (by
        intro c
        have h : cornerColours (cornerImage 10 10 ⟨65535, 0, 0, 65535⟩ ⟨65535, 0, 0, 65535⟩
            ⟨0, 0, 65535, 65535⟩ ⟨0, 0, 65535, 65535⟩)
            = [⟨65535, 0, 0, 65535⟩, ⟨65535, 0, 0, 65535⟩, ⟨0, 0, 65535, 65535⟩,
                ⟨0, 0, 65535, 65535⟩] := by decide
        rw [h]
        by_cases h1 : (⟨65535, 0, 0, 65535⟩ : rgbaStruct) = c
        · subst h1
          decide
        · by_cases h2 : (⟨0, 0, 65535, 65535⟩ : rgbaStruct) = c
          · subst h2
            decide
          · simp [List.count_cons, h1, h2])⟩

/-! ## Theorems: `CdnStruct.Delete` -/

theorem deleteRequests_append (a b : List Event) :
    deleteRequests (a ++ b) = deleteRequests a ++ deleteRequests b := by
  induction a with
  | nil => rfl
  | cons e rest ih => cases e <;> simp [deleteRequests, ih]

theorem deleteFailures_append (a b : List Event) :
    deleteFailures (a ++ b) = deleteFailures a ++ deleteFailures b := by
  induction a with
  | nil => rfl
  | cons e rest ih =>
    cases e with
    | deleteObjects bk keys err => cases err <;> simp [deleteFailures, ih]
    | _ => simp [deleteFailures, ih]

theorem listFailures_append (a b : List Event) :
    listFailures (a ++ b) = listFailures a ++ listFailures b := by
  induction a with
  | nil => rfl
  | cons e rest ih =>
    cases e with
    | list bk p err => cases err <;> simp [listFailures, ih]
    | _ => simp [listFailures, ih]

/-- The first loop of `Delete` issues listings only. -/
theorem collectObjectIdentifiers_requests {σ : Type} (cdn : CdnStruct σ) (cfg : CDNConfig)
    (bucket : Str) (imagePaths : List Str) :
    ∀ (ids : List Str) (trace : List Event) (s : σ),
      deleteRequests (collectObjectIdentifiers cdn cfg bucket imagePaths ids trace s).2.1
        = deleteRequests trace
      ∧ deleteFailures (collectObjectIdentifiers cdn cfg bucket imagePaths ids trace s).2.1
        = deleteFailures trace := by
  induction imagePaths with
  | nil => intro ids trace s; exact ⟨rfl, rfl⟩
  | cons p rest ih =>
    intro ids trace s
    simp only [collectObjectIdentifiers]
    split
    · exact ⟨rfl, rfl⟩
    · split
      · simp [deleteRequests_append, deleteFailures_append, deleteRequests, deleteFailures]
      · rename_i files s' heq
        have := ih (ids ++ files) (trace ++ [.list bucket p none]) s'
        simpa [deleteRequests_append, deleteFailures_append, deleteRequests, deleteFailures]
          using this

/-- The chunk loop: what it adds to the trace and to `deleteErrors`. -/
theorem deleteChunks_spec {σ : Type} (cdn : CdnStruct σ) (bucket : Str) (ids : List Str) :
    ∀ (fuel i endIdx : Nat) (errs : List Str) (trace : List Event) (s : σ),
      ids.length ≤ i + fuel → (endIdx = i + 1000 ∨ ids.length ≤ i) →
      ∃ R : List (List Str),
        deleteRequests (deleteChunks cdn bucket ids fuel i endIdx errs trace s).2.1
            = deleteRequests trace ++ R
          ∧ R.flatten = ids.drop i
          ∧ R.length = (ids.length - i + 999) / 1000
          ∧ (∀ c ∈ R, 1 ≤ c.length ∧ c.length ≤ 1000)
          ∧ ∃ F : List Str,
              deleteFailures (deleteChunks cdn bucket ids fuel i endIdx errs trace s).2.1
                = deleteFailures trace ++ F
              ∧ (deleteChunks cdn bucket ids fuel i endIdx errs trace s).1 = errs ++ F := by
  intro fuel
  induction fuel with
  | zero =>
    intro i endIdx errs trace s hfuel _
    have hi : ids.length ≤ i := by omega
    refine ⟨[], by simp [deleteChunks], by simp [List.drop_eq_nil_of_le hi], ?_, by simp,
      [], by simp [deleteChunks], by simp [deleteChunks]⟩
    simp
    omega
  | succ fuel ih =>
    intro i endIdx errs trace s hfuel hend
    by_cases hi : i < ids.length
    · have hend' : endIdx = i + 1000 := by
        rcases hend with h | h
        · exact h
        · omega
      subst hend'
      -- the chunk of this round
      have hchunk : ∀ e : Nat, e = (if i + 1000 > ids.length then ids.length else i + 1000) →
          ((ids.drop i).take (e - i)).length = min 1000 (ids.length - i)
          ∧ (ids.drop i).take (e - i) ++ ids.drop (i + 1000) = ids.drop i
          ∧ (e + 1000 = i + 1000 + 1000 ∨ ids.length ≤ i + 1000) := by
        intro e he
        by_cases hc : i + 1000 > ids.length
        · rw [if_pos hc] at he
          subst he
          refine ⟨by simp; omega, ?_, Or.inr (by omega)⟩
          rw [List.drop_eq_nil_of_le (by omega : ids.length ≤ i + 1000), List.append_nil]
          apply List.take_of_length_le
          simp
        · rw [if_neg hc] at he
          subst he
          refine ⟨by simp, ?_, Or.inl rfl⟩
          have : i + 1000 - i = 1000 := by omega
          rw [this, ← List.drop_drop]
          exact List.take_append_drop 1000 (ids.drop i)
      obtain ⟨hlen, hjoin, hnext⟩ := hchunk _ rfl
      simp only [deleteChunks, hi, if_true]
      generalize (List.take ((if i + 1000 > ids.length then ids.length else i + 1000) - i)
        (List.drop i ids)) = chunk at hlen hjoin ⊢
      generalize ((if i + 1000 > ids.length then ids.length else i + 1000) + 1000) = e2
        at hnext ⊢
      split
      · rename_i err s' heq
        obtain ⟨R, h1, h2, h3, h4, F, h5, h6⟩ := ih (i + 1000) e2 (errs ++ [err.msg])
          (trace ++ [.deleteObjects bucket chunk (some err)]) s' (by omega) hnext
        refine ⟨chunk :: R, ?_, ?_, ?_, ?_, err.msg :: F, ?_, ?_⟩
        · rw [h1]; simp [deleteRequests_append, deleteRequests]
        · rw [List.flatten_cons, h2]; exact hjoin
        · rw [List.length_cons, h3]; omega
        · intro c hc
          rcases List.mem_cons.mp hc with rfl | hc
          · rw [hlen]; omega
          · exact h4 c hc
        · rw [h5]; simp [deleteFailures_append, deleteFailures]
        · rw [h6]; simp
      · rename_i s' heq
        obtain ⟨R, h1, h2, h3, h4, F, h5, h6⟩ := ih (i + 1000) e2 errs
          (trace ++ [.deleteObjects bucket chunk none]) s' (by omega) hnext
        refine ⟨chunk :: R, ?_, ?_, ?_, ?_, F, ?_, ?_⟩
        · rw [h1]; simp [deleteRequests_append, deleteRequests]
        · rw [List.flatten_cons, h2]; exact hjoin
        · rw [List.length_cons, h3]; omega
        · intro c hc
          rcases List.mem_cons.mp hc with rfl | hc
          · rw [hlen]; omega
          · exact h4 c hc
        · rw [h5]; simp [deleteFailures_append, deleteFailures]
        · rw [h6]
    · have hi' : ids.length ≤ i := by omega
      refine ⟨[], by simp [deleteChunks, hi], by simp [List.drop_eq_nil_of_le hi'], ?_,
        by simp, [], by simp [deleteChunks, hi], by simp [deleteChunks, hi]⟩
      simp
      omega

theorem TrimSuffix_nil : TrimSuffix [] ['/'] = [] := by decide

theorem TrimSuffix_append_slash (f : Str) : TrimSuffix (f ++ ['/']) ['/'] = f := by
  have h : (['/'] : Str).isSuffixOf (f ++ ['/']) = true := by
    rw [List.isSuffixOf_iff_suffix]
    exact List.suffix_append f ['/']
  simp [TrimSuffix, h]

theorem TrimSuffix_of_not_suffix (f : Str) (h : ¬ ['/'] <:+ f) : TrimSuffix f ['/'] = f := by
  have h' : (['/'] : Str).isSuffixOf f = false := by
    rw [← Bool.not_eq_true, List.isSuffixOf_iff_suffix]
    exact h
  simp [TrimSuffix, h']

/-- The root guard of the first loop of `Delete`, for an images folder that does not end
in `'/'`: when some path is empty, the folder, or the folder followed by `'/'`, the loop
ends in an error after issuing listings only, and the error wraps `ErrNotImplemented`
unless a listing failed. -/
theorem collectObjectIdentifiers_guard {σ : Type} (cdn : CdnStruct σ) (cfg : CDNConfig)
    (bucket : Str) (hF : ¬ ['/'] <:+ cfg.ImagesFolder) (imagePaths : List Str) :
    (∃ p ∈ imagePaths, p = [] ∨ p = cfg.ImagesFolder ∨ p = cfg.ImagesFolder ++ ['/']) →
    ∀ (ids : List Str) (trace : List Event) (s : σ),
      ∃ (err : GoError) (more : List Event) (s' : σ),
        collectObjectIdentifiers cdn cfg bucket imagePaths ids trace s
            = (.error err, trace ++ more, s')
          ∧ deleteRequests more = []
          ∧ (listFailures more = [] → err.Is .ErrNotImplemented = true) := by
  induction imagePaths with
  | nil => rintro ⟨p, hp, _⟩; simp at hp
  | cons q rest ih =>
    intro hbad ids trace s
    by_cases hq : TrimSuffix q ['/'] = cfg.ImagesFolder ∨ TrimSuffix q ['/'] = []
    · refine ⟨Errorf (Sentinel.ErrNotImplemented.text
          ++ ": you should not delete root path! ".toList ++ q)
        (.ofSentinel .ErrNotImplemented), [], s, ?_, rfl, fun _ => ?_⟩
      · rw [collectObjectIdentifiers, if_pos hq, List.append_nil]
      · simp [GoError.Is, Errorf, GoError.ofSentinel]
    · have hrest : ∃ p ∈ rest, p = [] ∨ p = cfg.ImagesFolder ∨ p = cfg.ImagesFolder ++ ['/'] := by
        obtain ⟨p, hp, hpp⟩ := hbad
        rcases List.mem_cons.mp hp with rfl | hp
        · exfalso
          apply hq
          rcases hpp with rfl | rfl | rfl
          · exact Or.inr TrimSuffix_nil
          · exact Or.inl (TrimSuffix_of_not_suffix _ hF)
          · exact Or.inl (TrimSuffix_append_slash _)
        · exact ⟨p, hp, hpp⟩
      simp only [collectObjectIdentifiers, hq, if_false]
      split
      · rename_i e s' heq
        refine ⟨e, [.list bucket q (some e)], s', rfl, rfl, ?_⟩
        intro h
        simp [listFailures] at h
      · rename_i files s' heq
        obtain ⟨err, more, s'', h1, h2, h3⟩ :=
          ih hrest (ids ++ files) (trace ++ [.list bucket q none]) s'
        refine ⟨err, .list bucket q none :: more, s'', by simp [h1], by simpa [deleteRequests]
          using h2, ?_⟩
        intro h
        exact h3 (by simpa [listFailures] using h)

/-- The root guard of `CdnStruct.Delete`, for an images folder that does not end in
`'/'`: when some path is empty, the folder, or the folder followed by `'/'`, `Delete`
issues no `DeleteObjects` request and returns an error, which wraps `ErrNotImplemented`
unless a listing failed. -/
theorem Delete_root_guard {σ : Type} (cdn : CdnStruct σ) (cfg : CDNConfig) (bucket : Str)
    (imagePaths : List Str) (s : σ) (hF : ¬ ['/'] <:+ cfg.ImagesFolder)
    (hbad : ∃ p ∈ imagePaths, p = [] ∨ p = cfg.ImagesFolder ∨ p = cfg.ImagesFolder ++ ['/']) :
    deleteRequests (Delete cdn cfg bucket imagePaths s).2.1 = []
      ∧ ∃ err, (Delete cdn cfg bucket imagePaths s).1 = some err
          ∧ (listFailures (Delete cdn cfg bucket imagePaths s).2.1 = []
              → err.Is .ErrNotImplemented = true) := by
  obtain ⟨err, more, s', h1, h2, h3⟩ :=
    collectObjectIdentifiers_guard cdn cfg (if bucket = [] then cdn.defaultBucket else bucket)
      hF imagePaths hbad [] [] s
  simp only [Delete, h1, List.nil_append]
  exact ⟨h2, err, rfl, h3⟩

/-- C7, at the failing input: with the images folder configured as `images/`, deleting
the path `images/` is not rejected.  `Delete` lists the whole folder, submits every key
of it in a `DeleteObjects` request and returns nil. -/
theorem Delete_root_trailing_slash :
    Delete ⟨memoryStore, "bucket".toList⟩ ⟨"bucket".toList, "images/".toList⟩ []
        ["images/".toList] ["images/1/p/a.jpg".toList, "images/2/q/b.jpg".toList]
      = (none,
          [.list "bucket".toList "images/".toList none,
            .deleteObjects "bucket".toList
              ["images/1/p/a.jpg".toList, "images/2/q/b.jpg".toList] none],
          []) := by
  decide

/-- With the folder configured as `images`, the same request is rejected. -/
theorem Delete_root_rejected :
    Delete ⟨memoryStore, "bucket".toList⟩ ⟨"bucket".toList, "images".toList⟩ []
        ["images/".toList] ["images/1/p/a.jpg".toList, "images/2/q/b.jpg".toList]
      = (some ⟨"NOT_IMPLEMENTED: you should not delete root path! images/".toList,
            [.ErrNotImplemented]⟩, [],
          ["images/1/p/a.jpg".toList, "images/2/q/b.jpg".toList]) := by
  decide

/-- C8: when the first loop of `Delete` has collected `n` identifiers, `Delete` issues
exactly `ceil(n / 1000)` `DeleteObjects` requests, each with between 1 and 1000
identifiers, and their identifier lists concatenated in issue order are the collected
list. -/
theorem Delete_chunks {σ : Type} (cdn : CdnStruct σ) (cfg : CDNConfig) (bucket : Str)
    (imagePaths : List Str) (s : σ) (ids : List Str) (trace : List Event) (s1 : σ)
    (hcollect : collectObjectIdentifiers cdn cfg
        (if bucket = [] then cdn.defaultBucket else bucket) imagePaths [] [] s
      = (.ok ids, trace, s1)) :
    (deleteRequests (Delete cdn cfg bucket imagePaths s).2.1).length = (ids.length + 999) / 1000
      ∧ (∀ c ∈ deleteRequests (Delete cdn cfg bucket imagePaths s).2.1,
          1 ≤ c.length ∧ c.length ≤ 1000)
      ∧ (deleteRequests (Delete cdn cfg bucket imagePaths s).2.1).flatten = ids := by
  have htr : deleteRequests trace = [] := by
    have := (collectObjectIdentifiers_requests cdn cfg
      (if bucket = [] then cdn.defaultBucket else bucket) imagePaths [] [] s).1
    rw [hcollect] at this
    simpa [deleteRequests] using this
  obtain ⟨R, h1, h2, h3, h4, _⟩ := deleteChunks_spec cdn
    (if bucket = [] then cdn.defaultBucket else bucket) ids ids.length 0 1000 [] trace s1
    (by omega) (Or.inl rfl)
  rw [htr, List.nil_append] at h1
  generalize hres : deleteChunks cdn (if bucket = [] then cdn.defaultBucket else bucket) ids
    ids.length 0 1000 [] trace s1 = res at h1
  obtain ⟨errs, tr, s2⟩ := res
  have hD : (Delete cdn cfg bucket imagePaths s).2.1 = tr := by
    simp only [Delete, hcollect, hres]
    split <;> rfl
  simp only at h1
  rw [hD, h1]
  exact ⟨by simpa using h3, h4, by simpa using h2⟩

/-- C9: when the first loop of `Delete` has collected `n` identifiers, all
`ceil(n / 1000)` chunks are submitted whichever of them fail; `Delete` returns nil iff no
chunk failed, and otherwise an error wrapping `ErrDeletingImages` whose message is
`could not delete images: ` followed by the failed chunks' messages in order, joined
with ` | `. -/
theorem Delete_aggregates {σ : Type} (cdn : CdnStruct σ) (cfg : CDNConfig) (bucket : Str)
    (imagePaths : List Str) (s : σ) (ids : List Str) (trace : List Event) (s1 : σ)
    (hcollect : collectObjectIdentifiers cdn cfg
        (if bucket = [] then cdn.defaultBucket else bucket) imagePaths [] [] s
      = (.ok ids, trace, s1)) :
    (deleteRequests (Delete cdn cfg bucket imagePaths s).2.1).length = (ids.length + 999) / 1000
      ∧ ((Delete cdn cfg bucket imagePaths s).1 = none
          ↔ deleteFailures (Delete cdn cfg bucket imagePaths s).2.1 = [])
      ∧ (deleteFailures (Delete cdn cfg bucket imagePaths s).2.1 ≠ [] →
          ∃ err, (Delete cdn cfg bucket imagePaths s).1 = some err
            ∧ err.Is .ErrDeletingImages = true
            ∧ err.msg = "could not delete images: ".toList
                ++ List.intercalate " | ".toList
                    (deleteFailures (Delete cdn cfg bucket imagePaths s).2.1)) := by
  have htr := collectObjectIdentifiers_requests cdn cfg
    (if bucket = [] then cdn.defaultBucket else bucket) imagePaths [] [] s
  rw [hcollect] at htr
  simp only [deleteRequests, deleteFailures] at htr
  obtain ⟨R, h1, h2, h3, h4, F, h5, h6⟩ := deleteChunks_spec cdn
    (if bucket = [] then cdn.defaultBucket else bucket) ids ids.length 0 1000 [] trace s1
    (by omega) (Or.inl rfl)
  rw [htr.1, List.nil_append] at h1
  rw [htr.2, List.nil_append] at h5
  rw [List.nil_append] at h6
  generalize hres : deleteChunks cdn (if bucket = [] then cdn.defaultBucket else bucket) ids
    ids.length 0 1000 [] trace s1 = res at h1 h5 h6
  obtain ⟨errs, tr, s2⟩ := res
  simp only at h1 h5 h6
  subst h6
  by_cases hF : errs = []
  · subst hF
    have hD : Delete cdn cfg bucket imagePaths s = (none, tr, s2) := by
      simp [Delete, hcollect, hres]
    rw [hD]
    simp only [h1, h5]
    exact ⟨by simpa using h3, by simp, fun h => absurd rfl h⟩
  · have hlen : errs.length > 0 := List.length_pos.mpr hF
    have hD : Delete cdn cfg bucket imagePaths s
        = (some (Errorf (Sentinel.ErrDeletingImages.text ++ ": ".toList
            ++ List.intercalate " | ".toList errs) (.ofSentinel .ErrDeletingImages)), tr, s2) := by
      simp [Delete, hcollect, hres, hlen]
    rw [hD]
    simp only [h1, h5]
    refine ⟨by simpa using h3, by simp [hF], fun _ => ⟨_, rfl,
      by simp [GoError.Is, Errorf, GoError.ofSentinel], ?_⟩⟩
    simp [Errorf, Sentinel.text]

/-- C8 on a store that lists 2500 keys: three requests are issued. -/
theorem Delete_chunks_witness :
    collectObjectIdentifiers ⟨flakyStore (List.replicate 2500 "k".toList) [0, 2], "b".toList⟩
        ⟨"b".toList, "images".toList⟩ (if ([] : Str) = [] then "b".toList else [])
        ["images/1".toList] [] [] 0
      = (.ok (List.replicate 2500 "k".toList), [.list "b".toList "images/1".toList none], 0)
    ∧ (deleteRequests (Delete ⟨flakyStore (List.replicate 2500 "k".toList) [0, 2], "b".toList⟩
        ⟨"b".toList, "images".toList⟩ [] ["images/1".toList] 0).2.1).length = 3 :=
  have h : collectObjectIdentifiers
      ⟨flakyStore (List.replicate 2500 "k".toList) [0, 2], "b".toList⟩
      ⟨"b".toList, "images".toList⟩ (if ([] : Str) = [] then "b".toList else [])
      ["images/1".toList] [] [] 0
      = (.ok (List.replicate 2500 "k".toList), [.list "b".toList "images/1".toList none], 0) :=
    rfl
  ⟨h, (Delete_chunks _ _ _ _ _ _ _ _ h).1.trans (by rw [List.length_replicate])⟩

/-- C9 on a store that lists 2500 keys and fails the first and the third request: all
three requests are issued and the error carries both messages. -/
theorem Delete_aggregates_witness :
    collectObjectIdentifiers ⟨flakyStore (List.replicate 2500 "k".toList) [0, 2], "b".toList⟩
        ⟨"b".toList, "images".toList⟩ (if ([] : Str) = [] then "b".toList else [])
        ["images/2".toList] [] [] 0
      = (.ok (List.replicate 2500 "k".toList), [.list "b".toList "images/2".toList none], 0)
    ∧ (deleteRequests (Delete ⟨flakyStore (List.replicate 2500 "k".toList) [0, 2], "b".toList⟩
        ⟨"b".toList, "images".toList⟩ [] ["images/2".toList] 0).2.1).length = 3
    ∧ (Delete ⟨flakyStore (List.replicate 2500 "k".toList) [0, 2], "b".toList⟩
        ⟨"b".toList, "images".toList⟩ [] ["images/2".toList] 0).1
      = some ⟨"could not delete images: chunk 0 | chunk 2".toList, [.ErrDeletingImages]⟩ :=
  have h : collectObjectIdentifiers
      ⟨flakyStore (List.replicate 2500 "k".toList) [0, 2], "b".toList⟩
      ⟨"b".toList, "images".toList⟩ (if ([] : Str) = [] then "b".toList else [])
      ["images/2".toList] [] [] 0
      = (.ok (List.replicate 2500 "k".toList), [.list "b".toList "images/2".toList none], 0) :=
    rfl
  ⟨h, (Delete_aggregates _ _ _ _ _ _ _ _ h).1.trans (by rw [List.length_replicate]), by decide!⟩

/-! ## Theorems: rendition handlers -/

theorem Quiet_nil : Quiet [] := by
  intro e he
  simp at he

theorem Quiet_append {a b : List Event} (ha : Quiet a) (hb : Quiet b) : Quiet (a ++ b) := by
  intro e he
  rcases List.mem_append.mp he with h | h
  · exact ha e h
  · exact hb e h

theorem decodeImage_quiet (codec : Codecs) (img : Bytes) (extension : Str) :
    Quiet (decodeImage codec img extension).2 := by
  unfold decodeImage
  split_ifs <;> intro e he <;> simp at he <;> subst_vars <;> exact ⟨rfl, rfl⟩

theorem encodeImage_quiet (codec : Codecs) (r : Raster) (extension : Str) :
    Quiet (encodeImage codec r extension).2 := by
  unfold encodeImage
  split_ifs <;> intro e he <;> simp at he <;> subst_vars <;> exact ⟨rfl, rfl⟩

theorem scaleImage_quiet (codec : Codecs) (img : Bytes) (d : Option Int) (ext : Str) :
    Quiet (scaleImage codec img d ext).2 := by
  unfold scaleImage
  simp only
  have hd := decodeImage_quiet codec img (TrimPrefix (codec.mimetypeExtension img) ['.'])
  split
  · rename_i h; rw [h] at hd; exact hd
  · rename_i src tr h
    rw [h] at hd
    split
    · exact hd
    · rename_i x y hc
      have he := encodeImage_quiet codec (.scaled src (Rect 0 0 x y))
        (if ext = [] then TrimPrefix (codec.mimetypeExtension img) ['.'] else ext)
      split
      · exact hd
      · split <;> rename_i h2 <;> rw [h2] at he <;> exact Quiet_append hd he

theorem cropImage_quiet (order : List (rgbaStruct × Nat) → List (rgbaStruct × Nat))
    (codec : Codecs) (img : Bytes) (d : Option Dimensions) (ext : Str) :
    Quiet (cropImage order codec img d ext).2 := by
  unfold cropImage
  simp only
  have hd := decodeImage_quiet codec img (TrimPrefix (codec.mimetypeExtension img) ['.'])
  split
  · rename_i h; rw [h] at hd; exact hd
  · rename_i src tr h
    rw [h] at hd
    split
    · exact hd
    · split
      · exact hd
      · rename_i c g hg
        have he := encodeImage_quiet codec
          (.padded src g
            (if (if ext = [] then TrimPrefix (codec.mimetypeExtension img) ['.'] else ext)
                ≠ "png".toList
              then some (calculateBackgroundColour order src) else none))
          (if ext = [] then TrimPrefix (codec.mimetypeExtension img) ['.'] else ext)
        split
        · exact hd
        · split
          · exact hd
          · split <;> rename_i h2 <;> rw [h2] at he <;> exact Quiet_append hd he

theorem cropImageMinXMaxY_quiet (order : List (rgbaStruct × Nat) → List (rgbaStruct × Nat))
    (codec : Codecs) (img : Bytes) (d : Option Dimensions) (ext : Str) :
    Quiet (cropImageMinXMaxY order codec img d ext).2 := by
  unfold cropImageMinXMaxY
  simp only
  have hd := decodeImage_quiet codec img (TrimPrefix (codec.mimetypeExtension img) ['.'])
  split
  · rename_i h; rw [h] at hd; exact hd
  · rename_i src tr h
    rw [h] at hd
    split
    · exact hd
    · split
      · exact hd
      · rename_i c g hg
        have he := encodeImage_quiet codec
          (.padded src g
            (if (if ext = [] then TrimPrefix (codec.mimetypeExtension img) ['.'] else ext)
                ≠ "png".toList
              then some (calculateBackgroundColour order src) else none))
          (if ext = [] then TrimPrefix (codec.mimetypeExtension img) ['.'] else ext)
        split
        · exact hd
        · split
          · exact hd
          · split <;> rename_i h2 <;> rw [h2] at he <;> exact Quiet_append hd he

theorem cropImageMinYMaxX_quiet (order : List (rgbaStruct × Nat) → List (rgbaStruct × Nat))
    (codec : Codecs) (img : Bytes) (d : Option Dimensions) (ext : Str) :
    Quiet (cropImageMinYMaxX order codec img d ext).2 := by
  unfold cropImageMinYMaxX
  simp only
  have hd := decodeImage_quiet codec img (TrimPrefix (codec.mimetypeExtension img) ['.'])
  split
  · rename_i h; rw [h] at hd; exact hd
  · rename_i src tr h
    rw [h] at hd
    split
    · exact hd
    · split
      · exact hd
      · rename_i c g hg
        have he := encodeImage_quiet codec
          (.padded src g
            (if (if ext = [] then TrimPrefix (codec.mimetypeExtension img) ['.'] else ext)
                ≠ "png".toList
              then some (calculateBackgroundColour order src) else none))
          (if ext = [] then TrimPrefix (codec.mimetypeExtension img) ['.'] else ext)
        split
        · exact hd
        · split
          · exact hd
          · split <;> rename_i h2 <;> rw [h2] at he <;> exact Quiet_append hd he

/-- The source of a handler: a download as the only request when no bytes are at hand,
no request otherwise. -/
theorem obtainSource_trace {σ : Type} (env : Env σ) (url : Str) (img : Bytes) (s : σ) :
    (img.length = 0 → ∃ err, (obtainSource env url img s).2.1 = [.download url err])
      ∧ (img.length ≠ 0 → (obtainSource env url img s).2.1 = []) := by
  unfold obtainSource downloadImage
  constructor
  · intro h
    rw [if_pos h]
    exact ⟨_, rfl⟩
  · intro h
    rw [if_neg h]

/-- The tail of a handler after the source is at hand, in the shape all four share: the
put is the last request and the only put, and no download is added. -/
theorem Proceeds_of_shape {σ : Type} (url key bucket : Str) (img : Bytes)
    (r : HandlerResult σ) (t1 : List Event)
    (h1 : (img.length = 0 → ∃ err, t1 = [.download url err]) ∧ (img.length ≠ 0 → t1 = []))
    (hr : (∃ t2, Quiet t2 ∧ r.2.1 = t1 ++ t2 ∧ ∀ b, r.1 ≠ .returned (b, none))
      ∨ (r.2.1 = t1 ∧ ∀ b, r.1 ≠ .returned (b, none))
      ∨ ∃ t2 body contentType err, Quiet t2
          ∧ r.2.1 = t1 ++ t2 ++ [.put bucket key body contentType err]
          ∧ ∀ b, r.1 = .returned (b, none) → err = none) :
    Proceeds url key bucket img r := by
  have hq1 : ∀ e ∈ t1, e.isPut = false := by
    intro e he
    by_cases h : img.length = 0
    · obtain ⟨err, ht⟩ := h1.1 h
      rw [ht] at he
      simp at he
      subst he
      rfl
    · rw [h1.2 h] at he
      simp at he
  have hd1 : img.length ≠ 0 → ∀ e ∈ t1, e.isDownload = false := by
    intro h e he
    rw [h1.2 h] at he
    simp at he
  rcases hr with ⟨t2, hq, ht, hne⟩ | ⟨ht, hne⟩ | ⟨t2, body, ct, err, hq, ht, herr⟩
  · refine ⟨?_, ?_, fun b hb => absurd hb (hne b)⟩
    · intro h
      obtain ⟨err, h'⟩ := h1.1 h
      exact ⟨err, t2, by rw [ht, h']; rfl⟩
    · intro h e he
      rw [ht] at he
      rcases List.mem_append.mp he with he | he
      · exact hd1 h e he
      · exact (hq e he).1
  · refine ⟨?_, ?_, fun b hb => absurd hb (hne b)⟩
    · intro h
      obtain ⟨err, h'⟩ := h1.1 h
      exact ⟨err, [], by rw [ht, h']⟩
    · intro h e he
      rw [ht] at he
      exact hd1 h e he
  · refine ⟨?_, ?_, ?_⟩
    · intro h
      obtain ⟨e0, h'⟩ := h1.1 h
      exact ⟨e0, t2 ++ [.put bucket key body ct err], by rw [ht, h']; rfl⟩
    · intro h e he
      rw [ht] at he
      rcases List.mem_append.mp he with he | he
      · rcases List.mem_append.mp he with he | he
        · exact hd1 h e he
        · exact (hq e he).1
      · simp at he
        subst he
        rfl
    · intro b hb
      have := herr b hb
      subst this
      refine ⟨t1 ++ t2, body, ct, ht, ?_⟩
      intro e he
      rcases List.mem_append.mp he with he | he
      · exact hq1 e he
      · exact (hq e he).2

theorem handleScaleImage_proceeds {σ : Type} (env : Env σ) (imageJob : ImageJob)
    (image : ImageStruct) (cdnConfig : CDNConfig) (scaleDimension : Option Int) (img : Bytes)
    (cdn : CdnStruct σ) (extension : Str) (s : σ) (hI : imageJob.ImageStruct = some image)
    (hm : ¬ inManifest imageJob.ImagesOnCdn (Join [cdnConfig.ImagesFolder,
      ImageSubPath [] (some imageJob.ShopID) image.ProductID scaleDimension none none none
        image.Name])) :
    Proceeds image.URL
      (Join [cdnConfig.ImagesFolder,
        ImageSubPath [] (some imageJob.ShopID) image.ProductID scaleDimension none none none
          image.Name])
      cdn.defaultBucket img
      (handleScaleImage env imageJob cdnConfig scaleDimension img cdn extension s) := by
  have hm' : ¬ ∃ m, imageJob.ImagesOnCdn = some m ∧ Join [cdnConfig.ImagesFolder,
      ImageSubPath [] (some imageJob.ShopID) image.ProductID scaleDimension none none none
        image.Name] ∈ m := hm
  have h1 := obtainSource_trace env image.URL img s
  apply Proceeds_of_shape _ _ _ _ _ (obtainSource env image.URL img s).2.1 h1
  simp only [handleScaleImage, hI, hm', if_false]
  split
  · rename_i err t1 s1 hsrc
    right; left
    simp [hsrc]
  · rename_i bytes t1 s1 hsrc
    simp only [hsrc]
    have hq := scaleImage_quiet env.codec bytes scaleDimension extension
    split
    · rename_i t2 hren
      rw [hren] at hq
      left
      exact ⟨t2, hq, rfl, by simp⟩
    · rename_i err t2 hren
      rw [hren] at hq
      left
      refine ⟨t2, hq, ?_⟩
      split <;> simp
    · rename_i output t2 hren
      rw [hren] at hq
      right; right
      simp only [StoreFile, if_true]
      split
      · rename_i err t3 s2 hst
        simp only [Prod.mk.injEq] at hst
        obtain ⟨he, ht3, _⟩ := hst
        exact ⟨t2, _, _, _, hq, by rw [← ht3], by simp⟩
      · rename_i t3 s2 hst
        simp only [Prod.mk.injEq] at hst
        obtain ⟨he, ht3, _⟩ := hst
        exact ⟨t2, _, _, _, hq, by rw [← ht3, he], by simp⟩

theorem handleCropImage_proceeds {σ : Type} (env : Env σ) (imageJob : ImageJob)
    (image : ImageStruct) (cdnConfig : CDNConfig) (cropDimension : Option Dimensions) (img : Bytes)
    (cdn : CdnStruct σ) (extension : Str) (s : σ) (hI : imageJob.ImageStruct = some image)
    (hm : ¬ inManifest imageJob.ImagesOnCdn (Join [cdnConfig.ImagesFolder,
      ImageSubPath [] (some imageJob.ShopID) image.ProductID none cropDimension none none
        image.Name])) :
    Proceeds image.URL
      (Join [cdnConfig.ImagesFolder,
        ImageSubPath [] (some imageJob.ShopID) image.ProductID none cropDimension none none
          image.Name])
      cdn.defaultBucket img
      (handleCropImage env imageJob cdnConfig cropDimension img cdn extension s) := by
  have hm' : ¬ ∃ m, imageJob.ImagesOnCdn = some m ∧ Join [cdnConfig.ImagesFolder,
      ImageSubPath [] (some imageJob.ShopID) image.ProductID none cropDimension none none
        image.Name] ∈ m := hm
  have h1 := obtainSource_trace env image.URL img s
  apply Proceeds_of_shape _ _ _ _ _ (obtainSource env image.URL img s).2.1 h1
  simp only [handleCropImage, hI, hm', if_false]
  split
  · rename_i err t1 s1 hsrc
    right; left
    simp [hsrc]
  · rename_i bytes t1 s1 hsrc
    simp only [hsrc]
    have hq := cropImage_quiet env.mapOrder env.codec bytes cropDimension extension
    split
    · rename_i t2 hren
      rw [hren] at hq
      left
      exact ⟨t2, hq, rfl, by simp⟩
    · rename_i err t2 hren
      rw [hren] at hq
      left
      refine ⟨t2, hq, ?_⟩
      split <;> simp
    · rename_i output t2 hren
      rw [hren] at hq
      right; right
      simp only [StoreFile, if_true]
      split
      · rename_i err t3 s2 hst
        simp only [Prod.mk.injEq] at hst
        obtain ⟨he, ht3, _⟩ := hst
        exact ⟨t2, _, _, _, hq, by rw [← ht3], by simp⟩
      · rename_i t3 s2 hst
        simp only [Prod.mk.injEq] at hst
        obtain ⟨he, ht3, _⟩ := hst
        exact ⟨t2, _, _, _, hq, by rw [← ht3, he], by simp⟩

theorem handleMinXMaxYImage_proceeds {σ : Type} (env : Env σ) (imageJob : ImageJob)
    (image : ImageStruct) (cdnConfig : CDNConfig) (minXMaxY : Option Dimensions) (img : Bytes)
    (cdn : CdnStruct σ) (extension : Str) (s : σ) (hI : imageJob.ImageStruct = some image)
    (hm : ¬ inManifest imageJob.ImagesOnCdn (Join [cdnConfig.ImagesFolder,
      ImageSubPath [] (some imageJob.ShopID) image.ProductID none none minXMaxY none
        image.Name])) :
    Proceeds image.URL
      (Join [cdnConfig.ImagesFolder,
        ImageSubPath [] (some imageJob.ShopID) image.ProductID none none minXMaxY none
          image.Name])
      cdn.defaultBucket img
      (handleMinXMaxYImage env imageJob cdnConfig minXMaxY img cdn extension s) := by
  have hm' : ¬ ∃ m, imageJob.ImagesOnCdn = some m ∧ Join [cdnConfig.ImagesFolder,
      ImageSubPath [] (some imageJob.ShopID) image.ProductID none none minXMaxY none
        image.Name] ∈ m := hm
  have h1 := obtainSource_trace env image.URL img s
  apply Proceeds_of_shape _ _ _ _ _ (obtainSource env image.URL img s).2.1 h1
  simp only [handleMinXMaxYImage, hI, hm', if_false]
  split
  · rename_i err t1 s1 hsrc
    right; left
    simp [hsrc]
  · rename_i bytes t1 s1 hsrc
    simp only [hsrc]
    have hq := cropImageMinXMaxY_quiet env.mapOrder env.codec bytes minXMaxY extension
    split
    · rename_i t2 hren
      rw [hren] at hq
      left
      exact ⟨t2, hq, rfl, by simp⟩
    · rename_i err t2 hren
      rw [hren] at hq
      left
      refine ⟨t2, hq, ?_⟩
      split <;> simp
    · rename_i output t2 hren
      rw [hren] at hq
      right; right
      simp only [StoreFile, if_true]
      split
      · rename_i err t3 s2 hst
        simp only [Prod.mk.injEq] at hst
        obtain ⟨he, ht3, _⟩ := hst
        exact ⟨t2, _, _, _, hq, by rw [← ht3], by simp⟩
      · rename_i t3 s2 hst
        simp only [Prod.mk.injEq] at hst
        obtain ⟨he, ht3, _⟩ := hst
        exact ⟨t2, _, _, _, hq, by rw [← ht3, he], by simp⟩

theorem handleMinYMaxXImage_proceeds {σ : Type} (env : Env σ) (imageJob : ImageJob)
    (image : ImageStruct) (cdnConfig : CDNConfig) (minYMaxX : Option Dimensions) (img : Bytes)
    (cdn : CdnStruct σ) (extension : Str) (s : σ) (hI : imageJob.ImageStruct = some image)
    (hm : ¬ inManifest imageJob.ImagesOnCdn (Join [cdnConfig.ImagesFolder,
      ImageSubPath [] (some imageJob.ShopID) image.ProductID none none none minYMaxX
        image.Name])) :
    Proceeds image.URL
      (Join [cdnConfig.ImagesFolder,
        ImageSubPath [] (some imageJob.ShopID) image.ProductID none none none minYMaxX
          image.Name])
      cdn.defaultBucket img
      (handleMinYMaxXImage env imageJob cdnConfig minYMaxX img cdn extension s) := by
  have hm' : ¬ ∃ m, imageJob.ImagesOnCdn = some m ∧ Join [cdnConfig.ImagesFolder,
      ImageSubPath [] (some imageJob.ShopID) image.ProductID none none none minYMaxX
        image.Name] ∈ m := hm
  have h1 := obtainSource_trace env image.URL img s
  apply Proceeds_of_shape _ _ _ _ _ (obtainSource env image.URL img s).2.1 h1
  simp only [handleMinYMaxXImage, hI, hm', if_false]
  split
  · rename_i err t1 s1 hsrc
    right; left
    simp [hsrc]
  · rename_i bytes t1 s1 hsrc
    simp only [hsrc]
    have hq := cropImageMinYMaxX_quiet env.mapOrder env.codec bytes minYMaxX extension
    split
    · rename_i t2 hren
      rw [hren] at hq
      left
      exact ⟨t2, hq, rfl, by simp⟩
    · rename_i err t2 hren
      rw [hren] at hq
      left
      refine ⟨t2, hq, ?_⟩
      split <;> simp
    · rename_i output t2 hren
      rw [hren] at hq
      right; right
      simp only [StoreFile, if_true]
      split
      · rename_i err t3 s2 hst
        simp only [Prod.mk.injEq] at hst
        obtain ⟨he, ht3, _⟩ := hst
        exact ⟨t2, _, _, _, hq, by rw [← ht3], by simp⟩
      · rename_i t3 s2 hst
        simp only [Prod.mk.injEq] at hst
        obtain ⟨he, ht3, _⟩ := hst
        exact ⟨t2, _, _, _, hq, by rw [← ht3, he], by simp⟩

theorem skipped_iff_of {σ : Type} (url key bucket : Str) (img : Bytes) (s : σ)
    (manifest : Option (List Str)) (r : HandlerResult σ)
    (hin : inManifest manifest key → r = (.returned (img, none), [], s))
    (hout : ¬ inManifest manifest key → Proceeds url key bucket img r) :
    (Skipped img r ↔ inManifest manifest key) := by
  constructor
  · intro hs
    by_contra hm
    obtain ⟨t, body, ct, ht, _⟩ := (hout hm).2.2 img hs.1
    have := (hs.2 (.put bucket key body ct none) (by rw [ht]; simp)).2.2
    simp [Event.isPut] at this
  · intro hm
    rw [hin hm]
    exact ⟨rfl, by simp⟩

/-- C10: each of the four rendition handlers skips the rendition (no download, no decode,
no put, the source bytes returned unchanged, nil error) exactly when the manifest is
non-nil and contains `path.Join(imagesFolder, key of the spec)`, and then it issues no
request at all; with a nil manifest or without the key it goes on to obtain the source
(a download exactly when no bytes are at hand) and returns a nil error only after the put
at the key. -/
theorem handlers_skip_iff {σ : Type} (env : Env σ) (imageJob : ImageJob) (image : ImageStruct)
    (cdnConfig : CDNConfig) (img : Bytes) (cdn : CdnStruct σ) (extension : Str) (s : σ)
    (scaleDimension : Option Int) (cropDimension minXMaxY minYMaxX : Option Dimensions)
    (hI : imageJob.ImageStruct = some image) :
    SkipContract imageJob.ImagesOnCdn
        (handlerKey cdnConfig imageJob image scaleDimension none none none)
        image.URL cdn.defaultBucket img s
        (handleScaleImage env imageJob cdnConfig scaleDimension img cdn extension s)
      ∧ SkipContract imageJob.ImagesOnCdn
        (handlerKey cdnConfig imageJob image none cropDimension none none)
        image.URL cdn.defaultBucket img s
        (handleCropImage env imageJob cdnConfig cropDimension img cdn extension s)
      ∧ SkipContract imageJob.ImagesOnCdn
        (handlerKey cdnConfig imageJob image none none minXMaxY none)
        image.URL cdn.defaultBucket img s
        (handleMinXMaxYImage env imageJob cdnConfig minXMaxY img cdn extension s)
      ∧ SkipContract imageJob.ImagesOnCdn
        (handlerKey cdnConfig imageJob image none none none minYMaxX)
        image.URL cdn.defaultBucket img s
        (handleMinYMaxXImage env imageJob cdnConfig minYMaxX img cdn extension s) := by
  have hS : ∀ _ : inManifest imageJob.ImagesOnCdn
      (handlerKey cdnConfig imageJob image scaleDimension none none none),
      handleScaleImage env imageJob cdnConfig scaleDimension img cdn extension s
        = (.returned (img, none), [], s) := by
    intro hm
    have hm' : ∃ m, imageJob.ImagesOnCdn = some m ∧ Join [cdnConfig.ImagesFolder,
      ImageSubPath [] (some imageJob.ShopID) image.ProductID scaleDimension none none
        none image.Name] ∈ m := hm
    simp only [handleScaleImage, hI, hm', if_true]
  have hC : ∀ _ : inManifest imageJob.ImagesOnCdn
      (handlerKey cdnConfig imageJob image none cropDimension none none),
      handleCropImage env imageJob cdnConfig cropDimension img cdn extension s
        = (.returned (img, none), [], s) := by
    intro hm
    have hm' : ∃ m, imageJob.ImagesOnCdn = some m ∧ Join [cdnConfig.ImagesFolder,
      ImageSubPath [] (some imageJob.ShopID) image.ProductID none cropDimension none
        none image.Name] ∈ m := hm
    simp only [handleCropImage, hI, hm', if_true]
  have hX : ∀ _ : inManifest imageJob.ImagesOnCdn
      (handlerKey cdnConfig imageJob image none none minXMaxY none),
      handleMinXMaxYImage env imageJob cdnConfig minXMaxY img cdn extension s
        = (.returned (img, none), [], s) := by
    intro hm
    have hm' : ∃ m, imageJob.ImagesOnCdn = some m ∧ Join [cdnConfig.ImagesFolder,
      ImageSubPath [] (some imageJob.ShopID) image.ProductID none none minXMaxY
        none image.Name] ∈ m := hm
    simp only [handleMinXMaxYImage, hI, hm', if_true]
  have hY : ∀ _ : inManifest imageJob.ImagesOnCdn
      (handlerKey cdnConfig imageJob image none none none minYMaxX),
      handleMinYMaxXImage env imageJob cdnConfig minYMaxX img cdn extension s
        = (.returned (img, none), [], s) := by
    intro hm
    have hm' : ∃ m, imageJob.ImagesOnCdn = some m ∧ Join [cdnConfig.ImagesFolder,
      ImageSubPath [] (some imageJob.ShopID) image.ProductID none none none
        minYMaxX image.Name] ∈ m := hm
    simp only [handleMinYMaxXImage, hI, hm', if_true]
  have pS := handleScaleImage_proceeds env imageJob image cdnConfig scaleDimension img cdn
    extension s hI
  have pC := handleCropImage_proceeds env imageJob image cdnConfig cropDimension img cdn
    extension s hI
  have pX := handleMinXMaxYImage_proceeds env imageJob image cdnConfig minXMaxY img cdn
    extension s hI
  have pY := handleMinYMaxXImage_proceeds env imageJob image cdnConfig minYMaxX img cdn
    extension s hI
  exact ⟨⟨skipped_iff_of _ _ _ _ _ _ _ hS pS, hS, pS⟩,
    ⟨skipped_iff_of _ _ _ _ _ _ _ hC pC, hC, pC⟩,
    ⟨skipped_iff_of _ _ _ _ _ _ _ hX pX, hX, pX⟩,
    ⟨skipped_iff_of _ _ _ _ _ _ _ hY pY, hY, pY⟩⟩

/-- C10 on a task whose manifest holds the key of the rendition 100 and not the one of
the rendition 600: the first is skipped without any request, the second is downloaded,
decoded, encoded and put. -/
theorem handlers_skip_iff_witness :
    demoJob.ImageStruct = some demoImage
      ∧ handleScaleImage pngEnv demoJob ⟨"bucket".toList, "images".toList⟩ (some 100) []
          ⟨memoryStore, "bucket".toList⟩ [] []
        = (.returned ([], none), [], [])
      ∧ handleScaleImage pngEnv demoJob ⟨"bucket".toList, "images".toList⟩ (some 600) []
          ⟨memoryStore, "bucket".toList⟩ [] []
        = (.returned ([137, 80, 78, 71], none),
            [.download "http://src/a.png".toList none, .decode "png".toList none,
              .encode "png".toList none,
              .put "bucket".toList "images/7/p1/600/a.png".toList [137, 80]
                "image/png".toList none],
            ["images/7/p1/600/a.png".toList]) :=
  ⟨rfl,
    (handlers_skip_iff pngEnv demoJob demoImage ⟨"bucket".toList, "images".toList⟩ []
        ⟨memoryStore, "bucket".toList⟩ [] [] (some 100) none none none rfl).1.2.1
      ⟨["images/7/p1/100/a.png".toList], rfl, by decide⟩,
    by decide!⟩

/-! ## Theorems: delete sanitisation -/

theorem indexIn_ge (f : Str) (p : Str) : -1 ≤ indexIn f p := by
  induction p with
  | nil => unfold indexIn; split <;> omega
  | cons c cs ih => unfold indexIn; split_ifs <;> omega

/-- `strings.Index` finds the first instance. -/
theorem indexIn_first (f : Str) (p : Str) :
    (0 ≤ indexIn f p → FirstOccurrence f p (indexIn f p).toNat)
      ∧ (indexIn f p < 0 → ∀ j ≤ p.length, ¬ f <+: p.drop j) := by
  induction p with
  | nil =>
    unfold indexIn
    by_cases h : f.isPrefixOf [] = true
    · rw [if_pos h]
      refine ⟨fun _ => ⟨by simp, by simpa [List.isPrefixOf_iff_prefix] using h, by simp⟩,
        fun h' => by omega⟩
    · rw [if_neg h]
      refine ⟨fun h' => by omega, fun _ j hj => ?_⟩
      have : j = 0 := by simpa using hj
      subst this
      simpa [List.isPrefixOf_iff_prefix] using h
  | cons c cs ih =>
    unfold indexIn
    by_cases h : f.isPrefixOf (c :: cs) = true
    · rw [if_pos h]
      refine ⟨fun _ => ⟨by simp, by simpa [List.isPrefixOf_iff_prefix] using h, by simp⟩,
        fun h' => by omega⟩
    · rw [if_neg h]
      have hnp : ¬ f <+: c :: cs := by
        rw [← List.isPrefixOf_iff_prefix]
        exact h
      by_cases hr : indexIn f cs < 0
      · rw [if_pos hr]
        refine ⟨fun h' => by omega, fun _ j hj => ?_⟩
        cases j with
        | zero => simpa using hnp
        | succ j =>
          simp only [List.drop_succ_cons]
          exact ih.2 hr j (by simpa using hj)
      · rw [if_neg hr]
        have h0 : 0 ≤ indexIn f cs := by omega
        obtain ⟨h1, h2, h3⟩ := ih.1 h0
        refine ⟨fun _ => ?_, fun h' => by omega⟩
        have ht : (indexIn f cs + 1).toNat = (indexIn f cs).toNat + 1 := by omega
        rw [ht]
        refine ⟨by simpa using h1, by simpa using h2, ?_⟩
        intro j hj
        cases j with
        | zero => simpa using hnp
        | succ j =>
          simp only [List.drop_succ_cons]
          exact h3 j (by omega)

theorem FirstOccurrence_unique (f p : Str) (i j : Nat) (hi : FirstOccurrence f p i)
    (hj : FirstOccurrence f p j) : i = j := by
  rcases Nat.lt_trichotomy i j with h | h | h
  · exact absurd hi.2.1 (hj.2.2 i h)
  · exact h
  · exact absurd hj.2.1 (hi.2.2 j h)

theorem indexIn_zero_of_prefix (f p : Str) (h : f <+: p) : indexIn f p = 0 := by
  have h' : f.isPrefixOf p = true := List.isPrefixOf_iff_prefix.mpr h
  cases p with
  | nil => simp [indexIn, h']
  | cons c cs => simp [indexIn, h']

/-- C20: delete sanitisation.  If the first instance of the images folder `f` in the path
`p` is at an index `i > 0`, the path is replaced by `p[i:]`, which begins with `f`; if
`f` does not occur in `p` or occurs at index 0, the path is left unchanged; the rewrite
applied twice is the rewrite applied once. -/
theorem sanitizeDeletePath_spec (f p : Str) :
    (∀ i, FirstOccurrence f p i → 0 < i →
        sanitizeDeletePath f p = p.drop i ∧ f <+: sanitizeDeletePath f p)
      ∧ ((FirstOccurrence f p 0 ∨ ∀ j ≤ p.length, ¬ f <+: p.drop j) →
          sanitizeDeletePath f p = p)
      ∧ sanitizeDeletePath f (sanitizeDeletePath f p) = sanitizeDeletePath f p := by
  have hfirst := indexIn_first f p
  refine ⟨?_, ?_, ?_⟩
  · intro i hi hpos
    have h0 : 0 ≤ indexIn f p := by
      by_contra hneg
      exact hfirst.2 (by omega) i hi.1 hi.2.1
    have heq := FirstOccurrence_unique f p _ _ (hfirst.1 h0) hi
    have hgt : Index p f > 0 := by
      unfold Index
      omega
    have hs : sanitizeDeletePath f p = p.drop i := by
      unfold sanitizeDeletePath
      rw [if_pos hgt]
      unfold Index
      rw [heq]
    exact ⟨hs, hs ▸ hi.2.1⟩
  · intro h
    have hle : ¬ Index p f > 0 := by
      unfold Index
      rcases h with h | h
      · by_cases h0 : 0 ≤ indexIn f p
        · have := FirstOccurrence_unique f p _ _ (hfirst.1 h0) h
          omega
        · omega
      · by_cases h0 : 0 ≤ indexIn f p
        · have h1 := hfirst.1 h0
          exact absurd h1.2.1 (h _ h1.1)
        · omega
    unfold sanitizeDeletePath
    rw [if_neg hle]
  · by_cases hgt : Index p f > 0
    · have h0 : 0 ≤ indexIn f p := by
        unfold Index at hgt
        omega
      have h1 := hfirst.1 h0
      have hs : sanitizeDeletePath f p = p.drop (indexIn f p).toNat := by
        unfold sanitizeDeletePath
        rw [if_pos hgt]
        rfl
      rw [hs]
      unfold sanitizeDeletePath
      have : Index (p.drop (indexIn f p).toNat) f = 0 := indexIn_zero_of_prefix _ _ h1.2.1
      rw [this]
      simp
    · have hs : sanitizeDeletePath f p = p := by
        unfold sanitizeDeletePath
        rw [if_neg hgt]
      rw [hs, hs]

/-- C20 on the path `host/images/7/a.png` with the folder `images`: the first instance
is at index 5 and the path becomes `images/7/a.png`. -/
theorem sanitizeDeletePath_spec_witness :
    FirstOccurrence "images".toList "host/images/7/a.png".toList 5
      ∧ sanitizeDeletePath "images".toList "host/images/7/a.png".toList
        = "images/7/a.png".toList :=
  have h : FirstOccurrence "images".toList "host/images/7/a.png".toList 5 := by
    refine ⟨by decide, by decide, ?_⟩
    intro j hj
    interval_cases j <;> decide
  ⟨h, ((sanitizeDeletePath_spec "images".toList "host/images/7/a.png".toList).1 5 h
    (by decide)).1.trans (by decide)⟩

/-! ## Theorems: the image task -/

theorem handleScaleImage_step {σ : Type} (env : Env σ) (imageJob : ImageJob)
    (image : ImageStruct) (cdnConfig : CDNConfig) (d : Option Int) (img : Bytes)
    (cdn : CdnStruct σ) (extension : Str) (s : σ) (hI : imageJob.ImageStruct = some image) :
    SourceStep env image.URL
      (inManifest imageJob.ImagesOnCdn (handlerKey cdnConfig imageJob image d none none none))
      img s (handleScaleImage env imageJob cdnConfig d img cdn extension s) := by
  constructor
  · intro hit
    have hit' : ∃ m, imageJob.ImagesOnCdn = some m ∧ Join [cdnConfig.ImagesFolder,
      ImageSubPath [] (some imageJob.ShopID) image.ProductID d none none none
        image.Name] ∈ m := hit
    simp only [handleScaleImage, hI, hit', if_true]
  · intro hm
    have hm' : ¬ ∃ m, imageJob.ImagesOnCdn = some m ∧ Join [cdnConfig.ImagesFolder,
      ImageSubPath [] (some imageJob.ShopID) image.ProductID d none none none
        image.Name] ∈ m := hm
    constructor
    · intro err t1 s1 hsrc
      simp only [handleScaleImage, hI, hm', if_false, hsrc, downloadFailure]
    · intro b t1 s1 hsrc
      simp only [handleScaleImage, hI, hm', if_false, hsrc]
      have hq := scaleImage_quiet env.codec b d extension
      split
      · rename_i t2 hren
        rw [hren] at hq
        exact ⟨t2, fun e he => (hq e he).1, rfl, Or.inl rfl⟩
      · rename_i err t2 hren
        rw [hren] at hq
        refine ⟨t2, fun e he => (hq e he).1, ?_⟩
        split
        · exact ⟨rfl, Or.inl rfl⟩
        · exact ⟨rfl, Or.inr ⟨_, rfl⟩⟩
      · rename_i output t2 hren
        rw [hren] at hq
        simp only [StoreFile, if_true]
        split
        · rename_i err t3 s2 hst
          simp only [Prod.mk.injEq] at hst
          obtain ⟨_, ht3, _⟩ := hst
          refine ⟨t2 ++ t3, ?_, by simp, Or.inr ⟨_, rfl⟩⟩
          intro e he
          rcases List.mem_append.mp he with he | he
          · exact (hq e he).1
          · rw [← ht3] at he
            simp at he
            subst he
            rfl
        · rename_i t3 s2 hst
          simp only [Prod.mk.injEq] at hst
          obtain ⟨_, ht3, _⟩ := hst
          refine ⟨t2 ++ t3, ?_, by simp, Or.inr ⟨_, rfl⟩⟩
          intro e he
          rcases List.mem_append.mp he with he | he
          · exact (hq e he).1
          · rw [← ht3] at he
            simp at he
            subst he
            rfl

theorem handleCropImage_step {σ : Type} (env : Env σ) (imageJob : ImageJob)
    (image : ImageStruct) (cdnConfig : CDNConfig) (d : Option Dimensions) (img : Bytes)
    (cdn : CdnStruct σ) (extension : Str) (s : σ) (hI : imageJob.ImageStruct = some image) :
    SourceStep env image.URL
      (inManifest imageJob.ImagesOnCdn (handlerKey cdnConfig imageJob image none d none none))
      img s (handleCropImage env imageJob cdnConfig d img cdn extension s) := by
  constructor
  · intro hit
    have hit' : ∃ m, imageJob.ImagesOnCdn = some m ∧ Join [cdnConfig.ImagesFolder,
      ImageSubPath [] (some imageJob.ShopID) image.ProductID none d none none
        image.Name] ∈ m := hit
    simp only [handleCropImage, hI, hit', if_true]
  · intro hm
    have hm' : ¬ ∃ m, imageJob.ImagesOnCdn = some m ∧ Join [cdnConfig.ImagesFolder,
      ImageSubPath [] (some imageJob.ShopID) image.ProductID none d none none
        image.Name] ∈ m := hm
    constructor
    · intro err t1 s1 hsrc
      simp only [handleCropImage, hI, hm', if_false, hsrc, downloadFailure]
    · intro b t1 s1 hsrc
      simp only [handleCropImage, hI, hm', if_false, hsrc]
      have hq := cropImage_quiet env.mapOrder env.codec b d extension
      split
      · rename_i t2 hren
        rw [hren] at hq
        exact ⟨t2, fun e he => (hq e he).1, rfl, Or.inl rfl⟩
      · rename_i err t2 hren
        rw [hren] at hq
        refine ⟨t2, fun e he => (hq e he).1, ?_⟩
        split
        · exact ⟨rfl, Or.inl rfl⟩
        · exact ⟨rfl, Or.inr ⟨_, rfl⟩⟩
      · rename_i output t2 hren
        rw [hren] at hq
        simp only [StoreFile, if_true]
        split
        · rename_i err t3 s2 hst
          simp only [Prod.mk.injEq] at hst
          obtain ⟨_, ht3, _⟩ := hst
          refine ⟨t2 ++ t3, ?_, by simp, Or.inr ⟨_, rfl⟩⟩
          intro e he
          rcases List.mem_append.mp he with he | he
          · exact (hq e he).1
          · rw [← ht3] at he
            simp at he
            subst he
            rfl
        · rename_i t3 s2 hst
          simp only [Prod.mk.injEq] at hst
          obtain ⟨_, ht3, _⟩ := hst
          refine ⟨t2 ++ t3, ?_, by simp, Or.inr ⟨_, rfl⟩⟩
          intro e he
          rcases List.mem_append.mp he with he | he
          · exact (hq e he).1
          · rw [← ht3] at he
            simp at he
            subst he
            rfl

theorem handleMinXMaxYImage_step {σ : Type} (env : Env σ) (imageJob : ImageJob)
    (image : ImageStruct) (cdnConfig : CDNConfig) (d : Option Dimensions) (img : Bytes)
    (cdn : CdnStruct σ) (extension : Str) (s : σ) (hI : imageJob.ImageStruct = some image) :
    SourceStep env image.URL
      (inManifest imageJob.ImagesOnCdn (handlerKey cdnConfig imageJob image none none d none))
      img s (handleMinXMaxYImage env imageJob cdnConfig d img cdn extension s) := by
  constructor
  · intro hit
    have hit' : ∃ m, imageJob.ImagesOnCdn = some m ∧ Join [cdnConfig.ImagesFolder,
      ImageSubPath [] (some imageJob.ShopID) image.ProductID none none d none
        image.Name] ∈ m := hit
    simp only [handleMinXMaxYImage, hI, hit', if_true]
  · intro hm
    have hm' : ¬ ∃ m, imageJob.ImagesOnCdn = some m ∧ Join [cdnConfig.ImagesFolder,
      ImageSubPath [] (some imageJob.ShopID) image.ProductID none none d none
        image.Name] ∈ m := hm
    constructor
    · intro err t1 s1 hsrc
      simp only [handleMinXMaxYImage, hI, hm', if_false, hsrc, downloadFailure]
    · intro b t1 s1 hsrc
      simp only [handleMinXMaxYImage, hI, hm', if_false, hsrc]
      have hq := cropImageMinXMaxY_quiet env.mapOrder env.codec b d extension
      split
      · rename_i t2 hren
        rw [hren] at hq
        exact ⟨t2, fun e he => (hq e he).1, rfl, Or.inl rfl⟩
      · rename_i err t2 hren
        rw [hren] at hq
        refine ⟨t2, fun e he => (hq e he).1, ?_⟩
        split
        · exact ⟨rfl, Or.inl rfl⟩
        · exact ⟨rfl, Or.inr ⟨_, rfl⟩⟩
      · rename_i output t2 hren
        rw [hren] at hq
        simp only [StoreFile, if_true]
        split
        · rename_i err t3 s2 hst
          simp only [Prod.mk.injEq] at hst
          obtain ⟨_, ht3, _⟩ := hst
          refine ⟨t2 ++ t3, ?_, by simp, Or.inr ⟨_, rfl⟩⟩
          intro e he
          rcases List.mem_append.mp he with he | he
          · exact (hq e he).1
          · rw [← ht3] at he
            simp at he
            subst he
            rfl
        · rename_i t3 s2 hst
          simp only [Prod.mk.injEq] at hst
          obtain ⟨_, ht3, _⟩ := hst
          refine ⟨t2 ++ t3, ?_, by simp, Or.inr ⟨_, rfl⟩⟩
          intro e he
          rcases List.mem_append.mp he with he | he
          · exact (hq e he).1
          · rw [← ht3] at he
            simp at he
            subst he
            rfl

theorem handleMinYMaxXImage_step {σ : Type} (env : Env σ) (imageJob : ImageJob)
    (image : ImageStruct) (cdnConfig : CDNConfig) (d : Option Dimensions) (img : Bytes)
    (cdn : CdnStruct σ) (extension : Str) (s : σ) (hI : imageJob.ImageStruct = some image) :
    SourceStep env image.URL
      (inManifest imageJob.ImagesOnCdn (handlerKey cdnConfig imageJob image none none none d))
      img s (handleMinYMaxXImage env imageJob cdnConfig d img cdn extension s) := by
  constructor
  · intro hit
    have hit' : ∃ m, imageJob.ImagesOnCdn = some m ∧ Join [cdnConfig.ImagesFolder,
      ImageSubPath [] (some imageJob.ShopID) image.ProductID none none none d
        image.Name] ∈ m := hit
    simp only [handleMinYMaxXImage, hI, hit', if_true]
  · intro hm
    have hm' : ¬ ∃ m, imageJob.ImagesOnCdn = some m ∧ Join [cdnConfig.ImagesFolder,
      ImageSubPath [] (some imageJob.ShopID) image.ProductID none none none d
        image.Name] ∈ m := hm
    constructor
    · intro err t1 s1 hsrc
      simp only [handleMinYMaxXImage, hI, hm', if_false, hsrc, downloadFailure]
    · intro b t1 s1 hsrc
      simp only [handleMinYMaxXImage, hI, hm', if_false, hsrc]
      have hq := cropImageMinYMaxX_quiet env.mapOrder env.codec b d extension
      split
      · rename_i t2 hren
        rw [hren] at hq
        exact ⟨t2, fun e he => (hq e he).1, rfl, Or.inl rfl⟩
      · rename_i err t2 hren
        rw [hren] at hq
        refine ⟨t2, fun e he => (hq e he).1, ?_⟩
        split
        · exact ⟨rfl, Or.inl rfl⟩
        · exact ⟨rfl, Or.inr ⟨_, rfl⟩⟩
      · rename_i output t2 hren
        rw [hren] at hq
        simp only [StoreFile, if_true]
        split
        · rename_i err t3 s2 hst
          simp only [Prod.mk.injEq] at hst
          obtain ⟨_, ht3, _⟩ := hst
          refine ⟨t2 ++ t3, ?_, by simp, Or.inr ⟨_, rfl⟩⟩
          intro e he
          rcases List.mem_append.mp he with he | he
          · exact (hq e he).1
          · rw [← ht3] at he
            simp at he
            subst he
            rfl
        · rename_i t3 s2 hst
          simp only [Prod.mk.injEq] at hst
          obtain ⟨_, ht3, _⟩ := hst
          refine ⟨t2 ++ t3, ?_, by simp, Or.inr ⟨_, rfl⟩⟩
          intro e he
          rcases List.mem_append.mp he with he | he
          · exact (hq e he).1
          · rw [← ht3] at he
            simp at he
            subst he
            rfl

theorem handleSpec_step {σ : Type} (env : Env σ) (imageJob : ImageJob) (image : ImageStruct)
    (cdnConfig : CDNConfig) (cdn : CdnStruct σ) (extension : Str) (sp : Spec) (img : Bytes)
    (s : σ) (hI : imageJob.ImageStruct = some image) :
    SourceStep env image.URL
      (inManifest imageJob.ImagesOnCdn (sp.key cdnConfig imageJob image)) img s
      (handleSpec env imageJob cdnConfig cdn extension sp img s) := by
  cases sp with
  | scale d => exact handleScaleImage_step env imageJob image cdnConfig d img cdn extension s hI
  | crop d => exact handleCropImage_step env imageJob image cdnConfig d img cdn extension s hI
  | minXMaxY d =>
    exact handleMinXMaxYImage_step env imageJob image cdnConfig d img cdn extension s hI
  | minYMaxX d =>
    exact handleMinYMaxXImage_step env imageJob image cdnConfig d img cdn extension s hI

/-- The upload of the main image uses the source bytes like a handler. -/
theorem UploadMainProductImageToCDN_step {σ : Type} (env : Env σ) (cdn : CdnStruct σ)
    (imageJob : ImageJob) (image : ImageStruct) (cdnConfig : CDNConfig) (s : σ) :
    SourceStep env image.URL
      (inManifest imageJob.ImagesOnCdn (mainKey cdnConfig imageJob image)) [] s
      (.returned (UploadMainProductImageToCDN env cdn (some imageJob.ShopID) image.ProductID
          image.Name cdnConfig.ImagesFolder image.URL [] imageJob.ImagesOnCdn s).1,
        (UploadMainProductImageToCDN env cdn (some imageJob.ShopID) image.ProductID
          image.Name cdnConfig.ImagesFolder image.URL [] imageJob.ImagesOnCdn s).2) := by
  constructor
  · intro hit
    have hit' : ∃ m, imageJob.ImagesOnCdn = some m ∧ Join [cdnConfig.ImagesFolder,
      ImageSubPath [] (some imageJob.ShopID) image.ProductID none none none none
        image.Name] ∈ m := hit
    simp only [UploadMainProductImageToCDN, hit', if_true]
  · intro hm
    have hm' : ¬ ∃ m, imageJob.ImagesOnCdn = some m ∧ Join [cdnConfig.ImagesFolder,
      ImageSubPath [] (some imageJob.ShopID) image.ProductID none none none none
        image.Name] ∈ m := hm
    constructor
    · intro err t1 s1 hsrc
      simp only [UploadMainProductImageToCDN, hm', if_false, hsrc, downloadFailure]
    · intro b t1 s1 hsrc
      simp only [UploadMainProductImageToCDN, hm', if_false, hsrc, StoreFile, if_true]
      split
      · rename_i err t3 s2 hst
        simp only [Prod.mk.injEq] at hst
        obtain ⟨_, ht3, _⟩ := hst
        refine ⟨t3, ?_, by simp, Or.inr ⟨_, rfl⟩⟩
        intro e he
        rw [← ht3] at he
        simp at he
        subst he
        rfl
      · rename_i t3 s2 hst
        simp only [Prod.mk.injEq] at hst
        obtain ⟨_, ht3, _⟩ := hst
        refine ⟨t3, ?_, by simp, Or.inr ⟨_, rfl⟩⟩
        intro e he
        rw [← ht3] at he
        simp at he
        subst he
        rfl

/-- A run of attempts in which no attempt panics covers every entry. -/
theorem attempts_covers {σ : Type} (H : Spec → Bytes → σ → HandlerResult σ) :
    ∀ (l : List Spec) (img : Bytes) (s : σ),
      (∀ a ∈ (attempts H l img s).1, a.2.1 ≠ .panicked) →
      (attempts H l img s).1.map Prod.fst = l := by
  intro l
  induction l with
  | nil => intro img s _; simp [attempts]
  | cons sp rest ih =>
    intro img s hnp
    rcases hr : H sp img s with ⟨o, t, s1⟩
    cases o with
    | panicked =>
      simp only [attempts, hr] at hnp
      exact absurd rfl (hnp _ (List.mem_singleton.mpr rfl))
    | returned v =>
      obtain ⟨img1, err⟩ := v
      simp only [attempts, hr] at hnp ⊢
      simp only [List.map_cons, List.cons.injEq, true_and]
      exact ih img1 s1 fun a ha => hnp a (List.mem_cons_of_mem _ ha)

/-- A run of attempts over `a ++ b` in which no attempt panics is the run over `a`
followed by the run over `b` from where the first ended. -/
theorem attempts_split {σ : Type} (H : Spec → Bytes → σ → HandlerResult σ) :
    ∀ (a b : List Spec) (img : Bytes) (s : σ),
      (∀ x ∈ (attempts H (a ++ b) img s).1, x.2.1 ≠ .panicked) →
      (∀ x ∈ (attempts H a img s).1, x.2.1 ≠ .panicked)
        ∧ attempts H (a ++ b) img s
          = ((attempts H a img s).1
              ++ (attempts H b (attempts H a img s).2.1 (attempts H a img s).2.2).1,
            (attempts H b (attempts H a img s).2.1 (attempts H a img s).2.2).2) := by
  intro a
  induction a with
  | nil => intro b img s _; simp [attempts]
  | cons sp rest ih =>
    intro b img s hnp
    rcases hr : H sp img s with ⟨o, t, s1⟩
    cases o with
    | panicked =>
      simp only [List.cons_append, attempts, hr] at hnp
      exact absurd rfl (hnp _ (List.mem_singleton.mpr rfl))
    | returned v =>
      obtain ⟨img1, err⟩ := v
      simp only [List.cons_append, attempts, hr, List.append_eq] at hnp ⊢
      obtain ⟨i1, i2⟩ := ih b img1 s1 fun x hx => hnp x (List.mem_cons_of_mem _ hx)
      constructor
      · intro x hx
        rcases List.mem_cons.mp hx with hx | hx
        · subst hx
          simp
        · exact i1 x hx
      · rw [i2]

/-- A rendition loop none of whose attempts panics attempts every entry. -/
theorem renditionLoop_attempts {σ α : Type} (H : Spec → Bytes → σ → HandlerResult σ)
    (tag : α → Spec) (url : Str) (kind : Sentinel) (hk : ∀ d, (tag d).kind = kind) :
    ∀ (l : List α) (img : Bytes) (errs : List ProcessImageError) (s : σ),
      (∀ d ∈ l, (tag d).dim ≠ none) →
      (∀ x ∈ (attempts H (l.map tag) img s).1, x.2.1 ≠ .panicked) →
      renditionLoop (fun d img s => H (tag d) img s) url kind (fun d => (tag d).dim) l img
          errs s
        = (.returned ((attempts H (l.map tag) img s).2.1,
              errs ++ (attempts H (l.map tag) img s).1.filterMap (failure url)),
            (attempts H (l.map tag) img s).1.flatMap (fun a => a.2.2.1),
            (attempts H (l.map tag) img s).2.2) := by
  intro l
  induction l with
  | nil => intro img errs s _ _; simp [renditionLoop, attempts]
  | cons d rest ih =>
    intro img errs s hd hnp
    have hd1 := hd d (List.mem_cons_self _ _)
    have hdrest : ∀ d ∈ rest, (tag d).dim ≠ none := fun x hx => hd x (List.mem_cons_of_mem _ hx)
    rcases hr : H (tag d) img s with ⟨o, t, s1⟩
    cases o with
    | panicked =>
      simp only [List.map_cons, attempts, hr] at hnp
      exact absurd rfl (hnp _ (List.mem_singleton.mpr rfl))
    | returned v =>
      obtain ⟨img1, err⟩ := v
      simp only [List.map_cons, attempts, hr] at hnp
      have hrest : ∀ x ∈ (attempts H (rest.map tag) img1 s1).1, x.2.1 ≠ .panicked :=
        fun x hx => hnp x (List.mem_cons_of_mem _ hx)
      simp only [renditionLoop, List.map_cons, attempts, hr]
      cases err with
      | none =>
        simp only []
        rw [ih img1 errs s1 hdrest hrest]
        simp [failure]
      | some e =>
        simp only []
        obtain ⟨dims, hdims⟩ := Option.ne_none_iff_exists'.mp hd1
        simp only [hdims]
        rw [ih img1 _ s1 hdrest hrest]
        simp [failure, hdims, hk]

/-- When no attempt panics, the four loops of `processScaleImageJob` are one run of
attempts over the entries of the four lists. -/
theorem processScaleImageJob_run {σ : Type} (env : Env σ) (cdn : CdnStruct σ)
    (imageJob : ImageJob) (image : ImageStruct) (cfg : Config)
    (collectedErrors : List ProcessImageError) (s : σ)
    (hI : imageJob.ImageStruct = some image) (hnn : ∀ sp ∈ allSpecs image, sp.dim ≠ none)
    (hnp : ∀ a ∈ (attemptLog env cdn imageJob image cfg s).1, a.2.1 ≠ .panicked) :
    (attemptLog env cdn imageJob image cfg s).1.map Prod.fst = allSpecs image
      ∧ processScaleImageJob env cdn imageJob cfg collectedErrors s
        = (.returned (collectedErrors
              ++ uploadFailure image.URL (uploadOf env cdn imageJob image cfg s).1.2
              ++ (attemptLog env cdn imageJob image cfg s).1.filterMap (failure image.URL)),
            (uploadOf env cdn imageJob image cfg s).2.1
              ++ (attemptLog env cdn imageJob image cfg s).1.flatMap (fun a => a.2.2.1),
            (attemptLog env cdn imageJob image cfg s).2.2) := by
  refine ⟨attempts_covers _ _ _ _ hnp, ?_⟩
  have m1 : ∀ d ∈ image.ScaleDimensionMax, Spec.scale d ∈ allSpecs image := by
    intro d hd; simp [allSpecs, hd]
  have m2 : ∀ d ∈ image.CropDimensions, Spec.crop d ∈ allSpecs image := by
    intro d hd; simp [allSpecs, hd]
  have m3 : ∀ d ∈ image.MinXMaxY, Spec.minXMaxY d ∈ allSpecs image := by
    intro d hd; simp [allSpecs, hd]
  have m4 : ∀ d ∈ image.MinYMaxX, Spec.minYMaxX d ∈ allSpecs image := by
    intro d hd; simp [allSpecs, hd]
  have hall : allSpecs image
      = image.ScaleDimensionMax.map Spec.scale ++ (image.CropDimensions.map Spec.crop
        ++ (image.MinXMaxY.map Spec.minXMaxY ++ image.MinYMaxX.map Spec.minYMaxX)) := by
    simp [allSpecs]
  simp only [attemptLog, uploadOf] at hnp ⊢
  simp only [processScaleImageJob, hI]
  rcases hu : UploadMainProductImageToCDN env cdn (some imageJob.ShopID) image.ProductID
    image.Name cfg.CDN.ImagesFolder image.URL [] imageJob.ImagesOnCdn s with ⟨⟨img0, err0⟩, t0, s0⟩
  rw [hu] at hnp
  simp only [hall] at hnp ⊢
  obtain ⟨np1, e1⟩ := attempts_split _ _ _ _ _ hnp
  rw [e1] at hnp
  rw [e1]
  have hr1 := fun x hx => hnp x (List.mem_append_right _ hx)
  obtain ⟨np2, e2⟩ := attempts_split _ _ _ _ _ hr1
  rw [e2] at hr1
  rw [e2]
  have hr2 := fun x hx => hr1 x (List.mem_append_right _ hx)
  obtain ⟨np3, e3⟩ := attempts_split _ _ _ _ _ hr2
  rw [e3] at hr2
  rw [e3]
  have np4 := fun x hx => hr2 x (List.mem_append_right _ hx)
  have L1 : ∀ errs,
      renditionLoop (fun d img s => handleScaleImage env imageJob cfg.CDN d img cdn
          imageJob.ImageExtension s) image.URL .errScalingImage (Option.map Itoa)
          image.ScaleDimensionMax img0 errs s0 = _ :=
    fun errs => renditionLoop_attempts
      (handleSpec env imageJob cfg.CDN cdn imageJob.ImageExtension) Spec.scale image.URL
      .errScalingImage (fun _ => rfl) image.ScaleDimensionMax img0 errs s0
      (fun d hd => hnn _ (m1 d hd)) np1
  simp only [L1]
  have L2 : ∀ errs,
      renditionLoop (fun d img s => handleCropImage env imageJob cfg.CDN d img cdn
          imageJob.ImageExtension s) image.URL .errCropImage (Option.map sprintfDims)
          image.CropDimensions _ errs _ = _ :=
    fun errs => renditionLoop_attempts
      (handleSpec env imageJob cfg.CDN cdn imageJob.ImageExtension) Spec.crop image.URL
      .errCropImage (fun _ => rfl) image.CropDimensions _ errs _
      (fun d hd => hnn _ (m2 d hd)) np2
  simp only [L2]
  have L3 : ∀ errs,
      renditionLoop (fun d img s => handleMinXMaxYImage env imageJob cfg.CDN d img cdn
          imageJob.ImageExtension s) image.URL .errMinXMaxY (Option.map sprintfDims)
          image.MinXMaxY _ errs _ = _ :=
    fun errs => renditionLoop_attempts
      (handleSpec env imageJob cfg.CDN cdn imageJob.ImageExtension) Spec.minXMaxY image.URL
      .errMinXMaxY (fun _ => rfl) image.MinXMaxY _ errs _
      (fun d hd => hnn _ (m3 d hd)) np3
  simp only [L3]
  have L4 : ∀ errs,
      renditionLoop (fun d img s => handleMinYMaxXImage env imageJob cfg.CDN d img cdn
          imageJob.ImageExtension s) image.URL .errMinYMaxX (Option.map sprintfDims)
          image.MinYMaxX _ errs _ = _ :=
    fun errs => renditionLoop_attempts
      (handleSpec env imageJob cfg.CDN cdn imageJob.ImageExtension) Spec.minYMaxX image.URL
      .errMinYMaxX (fun _ => rfl) image.MinYMaxX _ errs _
      (fun d hd => hnn _ (m4 d hd)) np4
  simp only [L4]
  cases err0 <;> simp [uploadFailure, List.filterMap_append, List.flatMap_append]

/-- C19, as the code has it: for a task with a non-nil image spec whose list entries are
all non-nil and none of whose handlers panics, `processScaleImageJob` attempts every
entry of the scale, crop, minXMaxY and minYMaxX lists, in that order and whatever the
outcome of the entries before it (the log of the attempts lists exactly the entries of
the four lists), and it returns: what it appends to `*collectedErrors` after the error
of the upload, if any, is one `ProcessImageError` per attempt that returned an error, in
attempt order, with the URL of the task, the error value of the list, the message of the
error and the dimensions string of the entry.  Its trace is the trace of the upload
followed by the traces of the attempts. -/
theorem processScaleImageJob_attempts {σ : Type} (env : Env σ) (cdn : CdnStruct σ)
    (imageJob : ImageJob) (image : ImageStruct) (cfg : Config)
    (collectedErrors : List ProcessImageError) (s : σ)
    (hI : imageJob.ImageStruct = some image) (hnn : ∀ sp ∈ allSpecs image, sp.dim ≠ none)
    (hnp : ∀ a ∈ (attemptLog env cdn imageJob image cfg s).1, a.2.1 ≠ .panicked) :
    (attemptLog env cdn imageJob image cfg s).1.map Prod.fst = allSpecs image
      ∧ processScaleImageJob env cdn imageJob cfg collectedErrors s
        = (.returned (collectedErrors
              ++ uploadFailure image.URL (uploadOf env cdn imageJob image cfg s).1.2
              ++ (attemptLog env cdn imageJob image cfg s).1.filterMap (failure image.URL)),
            (uploadOf env cdn imageJob image cfg s).2.1
              ++ (attemptLog env cdn imageJob image cfg s).1.flatMap (fun a => a.2.2.1),
            (attemptLog env cdn imageJob image cfg s).2.2) :=
  processScaleImageJob_run env cdn imageJob image cfg collectedErrors s hI hnn hnp

/-- C19 on a task with the renditions 100 and 600 against a store that refuses the key
of the rendition 100: the rendition 600 is still attempted and stored, and the one
error is the one of the rendition 100. -/
theorem processScaleImageJob_attempts_witness :
    coldJob.ImageStruct = some demoImage
      ∧ (∀ sp ∈ allSpecs demoImage, sp.dim ≠ none)
      ∧ (∀ a ∈ (attemptLog pngEnv ⟨pickyStore ["images/7/p1/100/a.png".toList],
          "bucket".toList⟩ coldJob demoImage demoConfig []).1, a.2.1 ≠ .panicked)
      ∧ processScaleImageJob pngEnv ⟨pickyStore ["images/7/p1/100/a.png".toList],
          "bucket".toList⟩ coldJob demoConfig [] []
        = (.returned [⟨"http://src/a.png".toList, "could not scale image".toList,
              "could not store image 7/p1/100/a.png to cdn: rejected".toList, "100".toList⟩],
            [.download "http://src/a.png".toList none,
              .put "bucket".toList "images/7/p1/a.png".toList [137, 80, 78, 71]
                "image/png".toList none,
              .decode "png".toList none, .encode "png".toList none,
              .put "bucket".toList "images/7/p1/100/a.png".toList [137, 80]
                "image/png".toList (some ⟨"rejected".toList, []⟩),
              .decode "png".toList none, .encode "png".toList none,
              .put "bucket".toList "images/7/p1/600/a.png".toList [137, 80]
                "image/png".toList none],
            ["images/7/p1/a.png".toList, "images/7/p1/600/a.png".toList]) :=
  ⟨rfl, by decide, by decide!,
    (processScaleImageJob_attempts pngEnv ⟨pickyStore ["images/7/p1/100/a.png".toList],
      "bucket".toList⟩ coldJob demoImage demoConfig [] [] rfl (by decide)
      (by decide!)).2.trans (by decide!)⟩

/-- C19 as stated fails.  A task whose crop list is `(-1, 5)`, `(100, 100)`: the first
crop panics where `cropImage` allocates its canvas, so the crop `(100, 100)` is never
attempted and no error list is returned.  A task whose scale list is `null`, 600 and
whose downloads fail: the handler of the nil entry returns the error of the download
and the task panics where it formats the dimensions of the entry, so the rendition 600
is never attempted. -/
theorem processScaleImageJob_attempts_aborted :
    allSpecs negativeCropImage = [.crop (some ⟨-1, 5⟩), .crop (some ⟨100, 100⟩)]
    ∧ processScaleImageJob pngEnv ⟨memoryStore, "bucket".toList⟩ (taskOf negativeCropImage)
        demoConfig [] []
      = (.panicked,
          [.download "http://src/a.png".toList none,
            .put "bucket".toList "images/7/p1/a.png".toList [137, 80, 78, 71]
              "image/png".toList none,
            .decode "png".toList none],
          ["images/7/p1/a.png".toList])
    ∧ (attemptLog pngEnv ⟨memoryStore, "bucket".toList⟩ (taskOf negativeCropImage)
        negativeCropImage demoConfig []).1.map Prod.fst = [.crop (some ⟨-1, 5⟩)]
    ∧ allSpecs nullThenScaleImage = [.scale none, .scale (some 600)]
    ∧ processScaleImageJob offlineEnv ⟨memoryStore, "bucket".toList⟩
        (taskOf nullThenScaleImage) demoConfig [] []
      = (.panicked,
          [.download "http://src/a.png".toList (some ⟨"connection refused".toList, []⟩),
            .download "http://src/a.png".toList (some ⟨"connection refused".toList, []⟩)],
          []) := by
  refine ⟨rfl, by decide!, by decide!, rfl, by decide!⟩

/-! ## Theorems: downloads of an image task -/

theorem track_append (url : Str) (a b : List Event) :
    ∀ h, track url h (a ++ b) = (track url h a).bind fun h1 => track url h1 b := by
  induction a with
  | nil => intro h; rfl
  | cons e rest ih =>
    intro h
    cases e with
    | download u err =>
      simp only [List.cons_append, track]
      split
      · exact ih _
      · rfl
    | _ => simp only [List.cons_append, track]; exact ih _

theorem track_quiet (url : Str) (t : List Event) (hq : ∀ e ∈ t, e.isDownload = false) :
    ∀ h, track url h t = some h := by
  induction t with
  | nil => intro h; rfl
  | cons e rest ih =>
    intro h
    have hrest : ∀ e ∈ rest, e.isDownload = false := fun x hx => hq x (List.mem_cons_of_mem _ hx)
    have he := hq e (List.mem_cons_self _ _)
    cases e with
    | download u err => simp [Event.isDownload] at he
    | _ => simp only [track]; exact ih hrest _

theorem track_seq (url : Str) (a b : List Event) (h h1 h2 : Bool)
    (ha : track url h a = some h1) (hb : track url h1 b = some h2) :
    track url h (a ++ b) = some h2 := by
  rw [track_append, ha]
  exact hb

/-- With source bytes at hand a disciplined trace has no download. -/
theorem track_true (url : Str) (t : List Event) :
    ∀ h, track url true t = some h → downloads t = [] ∧ h = true := by
  induction t with
  | nil => intro h hh; simp [track] at hh; exact ⟨rfl, hh⟩
  | cons e rest ih =>
    intro h hh
    cases e with
    | download u err => simp [track] at hh
    | _ =>
      simp only [track] at hh
      have := ih h hh
      exact ⟨by simpa [downloads, List.filter_cons, Event.isDownload] using this.1, this.2⟩

/-- Without source bytes at hand the downloads of a disciplined trace are failed
downloads of `url`, followed by a successful one when bytes are at hand at the end. -/
theorem track_false (url : Str) (t : List Event) :
    ∀ h, track url false t = some h →
      ∃ failed : List GoError,
        downloads t = failed.map (fun e => Event.download url (some e))
          ++ (if h then [Event.download url none] else []) := by
  induction t with
  | nil =>
    intro h hh
    simp [track] at hh
    subst hh
    exact ⟨[], rfl⟩
  | cons e rest ih =>
    intro h hh
    cases e with
    | download u err =>
      simp only [track] at hh
      split at hh
      · rename_i hu
        have hu2 : u = url := hu.2
        subst hu2
        cases err with
        | none =>
          have := track_true u rest h hh
          refine ⟨[], ?_⟩
          simp [downloads, List.filter_cons, Event.isDownload, this.2]
          simpa [downloads] using this.1
        | some e0 =>
          obtain ⟨failed, hf⟩ := ih h hh
          refine ⟨e0 :: failed, ?_⟩
          simp only [downloads] at hf
          simp [downloads, List.filter_cons, Event.isDownload, hf]
      · simp at hh
    | _ =>
      simp only [track] at hh
      obtain ⟨failed, hf⟩ := ih h hh
      exact ⟨failed, by simpa [downloads, List.filter_cons, Event.isDownload] using hf⟩

/-- Whether source bytes are at hand. -/
theorem atHand_nil : decide (([] : Bytes) ≠ []) = false := by decide

/-- A step that uses the source bytes like a handler keeps the download discipline, and
leaves bytes at hand exactly when it returns non-empty bytes. -/
theorem SourceStep_track {σ : Type} (env : Env σ) (url : Str) (hit : Prop) (img : Bytes)
    (s : σ) (r : HandlerResult σ)
    (hbody : ∀ u s b, (env.httpGet u s).1 = .ok b → b ≠ [])
    (hstep : SourceStep env url hit img s r) :
    ∃ h, track url (decide (img ≠ [])) r.2.1 = some h
      ∧ ∀ b e, r.1 = .returned (b, e) → h = decide (b ≠ []) := by
  by_cases hhit : hit
  · rw [hstep.1 hhit]
    exact ⟨_, rfl, fun b e hb => by simp at hb; rw [hb.1]⟩
  · obtain ⟨hfail, hok⟩ := hstep.2 hhit
    by_cases himg : img.length = 0
    · have himg' : img = [] := List.length_eq_zero.mp himg
      subst himg'
      rcases hget : env.httpGet url s with ⟨res, s1⟩
      have hsrc : obtainSource env url [] s = (res, [.download url (errorOf res)], s1) := by
        simp [obtainSource, downloadImage, hget]
      cases res with
      | error err =>
        rw [hfail err _ _ hsrc]
        refine ⟨false, by simp [track, errorOf], ?_⟩
        intro b e hb
        simp at hb
        simp [← hb.1]
      | ok b0 =>
        obtain ⟨t2, hq, ht, hres⟩ := hok b0 _ _ hsrc
        have hb0 : b0 ≠ [] := hbody url s b0 (by rw [hget])
        refine ⟨true, ?_, ?_⟩
        · rw [ht]
          simp only [List.singleton_append, track, errorOf]
          simp only [atHand_nil, true_and, if_true, Option.isNone_none]
          exact track_quiet url t2 hq true
        · intro b e hb
          rcases hres with hp | ⟨e1, hr⟩
          · rw [hp] at hb; simp at hb
          · rw [hr] at hb
            simp at hb
            simp [← hb.1, hb0]
    · have hsrc : obtainSource env url img s = (.ok img, [], s) := by
        simp [obtainSource, himg]
      obtain ⟨t2, hq, ht, hres⟩ := hok img _ _ hsrc
      have hne : img ≠ [] := fun h => himg (by rw [h]; rfl)
      refine ⟨true, ?_, ?_⟩
      · rw [ht]
        simp only [List.nil_append, hne, ne_eq, not_false_eq_true, decide_True]
        exact track_quiet url t2 hq true
      · intro b e hb
        rcases hres with hp | ⟨e1, hr⟩
        · rw [hp] at hb; simp at hb
        · rw [hr] at hb
          simp at hb
          simp [← hb.1, hne]

/-- A rendition loop whose handler keeps the download discipline keeps it. -/
theorem renditionLoop_track {σ α : Type} (handle : α → Bytes → σ → HandlerResult σ)
    (url : Str) (kind : Sentinel) (dim : α → Option Str)
    (hstep : ∀ d img s, ∃ h, track url (decide (img ≠ [])) (handle d img s).2.1 = some h
      ∧ ∀ b e, (handle d img s).1 = .returned (b, e) → h = decide (b ≠ [])) :
    ∀ (l : List α) (img : Bytes) (errs : List ProcessImageError) (s : σ),
      ∃ h, track url (decide (img ≠ [])) (renditionLoop handle url kind dim l img errs s).2.1
          = some h
        ∧ ∀ b errs1, (renditionLoop handle url kind dim l img errs s).1 = .returned (b, errs1) →
            h = decide (b ≠ []) := by
  intro l
  induction l with
  | nil =>
    intro img errs s
    refine ⟨_, rfl, ?_⟩
    intro b errs1 hb
    simp [renditionLoop] at hb
    rw [hb.1]
  | cons d rest ih =>
    intro img errs s
    obtain ⟨h, ht, hb⟩ := hstep d img s
    simp only [renditionLoop]
    rcases hr : handle d img s with ⟨o, t, s1⟩
    rw [hr] at ht hb
    cases o with
    | panicked =>
      exact ⟨h, ht, fun b errs1 hb => by simp at hb⟩
    | returned v =>
      obtain ⟨img1, err⟩ := v
      have hh := hb img1 err rfl
      subst hh
      cases err with
      | none =>
        simp only []
        obtain ⟨h2, ht2, hb2⟩ := ih img1 errs s1
        exact ⟨h2, track_seq _ _ _ _ _ _ ht ht2, hb2⟩
      | some e =>
        simp only []
        cases hd : dim d with
        | none =>
          exact ⟨_, ht, fun b errs1 hb => by simp at hb⟩
        | some dims =>
          simp only []
          obtain ⟨h2, ht2, hb2⟩ := ih img1 (errs ++ [⟨url, kind.text, e.msg, dims⟩]) s1
          exact ⟨h2, track_seq _ _ _ _ _ _ ht ht2, hb2⟩

theorem renditionLoop_track_of {σ α : Type} (handle : α → Bytes → σ → HandlerResult σ)
    (url : Str) (kind : Sentinel) (dim : α → Option Str) (l : List α) (img : Bytes)
    (errs : List ProcessImageError) (s : σ)
    (o : Outcome (Bytes × List ProcessImageError)) (t : List Event) (s1 : σ)
    (heq : renditionLoop handle url kind dim l img errs s = (o, t, s1))
    (hstep : ∀ d img s, ∃ h, track url (decide (img ≠ [])) (handle d img s).2.1 = some h
      ∧ ∀ b e, (handle d img s).1 = .returned (b, e) → h = decide (b ≠ [])) :
    ∃ h, track url (decide (img ≠ [])) t = some h
      ∧ ∀ b errs1, o = .returned (b, errs1) → h = decide (b ≠ []) := by
  have := renditionLoop_track handle url kind dim hstep l img errs s
  rw [heq] at this
  exact this

/-- The trace of `processScaleImageJob` keeps the download discipline. -/
theorem processScaleImageJob_track {σ : Type} (env : Env σ) (cdn : CdnStruct σ)
    (imageJob : ImageJob) (image : ImageStruct) (cfg : Config)
    (collectedErrors : List ProcessImageError) (s : σ)
    (hI : imageJob.ImageStruct = some image)
    (hbody : ∀ u s b, (env.httpGet u s).1 = .ok b → b ≠ []) :
    ∃ h, track image.URL false
      (processScaleImageJob env cdn imageJob cfg collectedErrors s).2.1 = some h := by
  have hsp : ∀ sp img s, ∃ h, track image.URL (decide (img ≠ []))
      (handleSpec env imageJob cfg.CDN cdn imageJob.ImageExtension sp img s).2.1 = some h
      ∧ ∀ b e, (handleSpec env imageJob cfg.CDN cdn imageJob.ImageExtension sp img s).1
          = .returned (b, e) → h = decide (b ≠ []) :=
    fun sp img s => SourceStep_track env image.URL _ img s _ hbody
      (handleSpec_step env imageJob image cfg.CDN cdn imageJob.ImageExtension sp img s hI)
  have hup := SourceStep_track env image.URL _ [] s _ hbody
    (UploadMainProductImageToCDN_step env cdn imageJob image cfg.CDN s)
  simp only [processScaleImageJob, hI]
  rcases hu : UploadMainProductImageToCDN env cdn (some imageJob.ShopID) image.ProductID
    image.Name cfg.CDN.ImagesFolder image.URL [] imageJob.ImagesOnCdn s with ⟨⟨img0, err0⟩, t0, s0⟩
  rw [hu] at hup
  obtain ⟨h0, ht0, hb0⟩ := hup
  have e0 := hb0 img0 err0 rfl
  subst e0
  simp only [atHand_nil] at ht0
  split
  · rename_i t1 s1 heq1
    obtain ⟨h1, ht1, _⟩ := renditionLoop_track_of _ _ _ _ _ _ _ _ _ _ _ heq1
      (fun d img s => hsp (.scale d) img s)
    exact ⟨h1, track_seq _ _ _ _ _ _ ht0 ht1⟩
  · rename_i img1 errs1 t1 s1 heq1
    obtain ⟨h1, ht1, hb1⟩ := renditionLoop_track_of _ _ _ _ _ _ _ _ _ _ _ heq1
      (fun d img s => hsp (.scale d) img s)
    have e1 := hb1 img1 errs1 rfl
    subst e1
    have c1 := track_seq _ _ _ _ _ _ ht0 ht1
    split
    · rename_i t2 s2 heq2
      obtain ⟨h2, ht2, _⟩ := renditionLoop_track_of _ _ _ _ _ _ _ _ _ _ _ heq2
        (fun d img s => hsp (.crop d) img s)
      exact ⟨h2, track_seq _ _ _ _ _ _ c1 ht2⟩
    · rename_i img2 errs2 t2 s2 heq2
      obtain ⟨h2, ht2, hb2⟩ := renditionLoop_track_of _ _ _ _ _ _ _ _ _ _ _ heq2
        (fun d img s => hsp (.crop d) img s)
      have e2 := hb2 img2 errs2 rfl
      subst e2
      have c2 := track_seq _ _ _ _ _ _ c1 ht2
      split
      · rename_i t3 s3 heq3
        obtain ⟨h3, ht3, _⟩ := renditionLoop_track_of _ _ _ _ _ _ _ _ _ _ _ heq3
          (fun d img s => hsp (.minXMaxY d) img s)
        exact ⟨h3, track_seq _ _ _ _ _ _ c2 ht3⟩
      · rename_i img3 errs3 t3 s3 heq3
        obtain ⟨h3, ht3, hb3⟩ := renditionLoop_track_of _ _ _ _ _ _ _ _ _ _ _ heq3
          (fun d img s => hsp (.minXMaxY d) img s)
        have e3 := hb3 img3 errs3 rfl
        subst e3
        have c3 := track_seq _ _ _ _ _ _ c2 ht3
        split
        · rename_i t4 s4 heq4
          obtain ⟨h4, ht4, _⟩ := renditionLoop_track_of _ _ _ _ _ _ _ _ _ _ _ heq4
            (fun d img s => hsp (.minYMaxX d) img s)
          exact ⟨h4, track_seq _ _ _ _ _ _ c3 ht4⟩
        · rename_i img4 errs4 t4 s4 heq4
          obtain ⟨h4, ht4, _⟩ := renditionLoop_track_of _ _ _ _ _ _ _ _ _ _ _ heq4
            (fun d img s => hsp (.minYMaxX d) img s)
          exact ⟨h4, track_seq _ _ _ _ _ _ c3 ht4⟩

/-- C11, as the code has it: when a download that succeeds delivers a non-empty body,
the downloads of `processScaleImageJob` are all of the URL of the task, and they are a
run of failed downloads followed by at most one download that succeeded.  So no download
follows one that succeeded, and a task none of whose downloads fails makes at most one.
(After a failed download every further rendition whose key the manifest does not hold
downloads again.) -/
theorem processScaleImageJob_downloads {σ : Type} (env : Env σ) (cdn : CdnStruct σ)
    (imageJob : ImageJob) (image : ImageStruct) (cfg : Config)
    (collectedErrors : List ProcessImageError) (s : σ)
    (hI : imageJob.ImageStruct = some image)
    (hbody : ∀ u s b, (env.httpGet u s).1 = .ok b → b ≠ []) :
    ∃ failed : List GoError,
      downloads (processScaleImageJob env cdn imageJob cfg collectedErrors s).2.1
          = failed.map (fun e => Event.download image.URL (some e))
        ∨ downloads (processScaleImageJob env cdn imageJob cfg collectedErrors s).2.1
          = failed.map (fun e => Event.download image.URL (some e))
            ++ [Event.download image.URL none] := by
  obtain ⟨h, ht⟩ := processScaleImageJob_track env cdn imageJob image cfg collectedErrors s
    hI hbody
  obtain ⟨failed, hf⟩ := track_false _ _ h ht
  refine ⟨failed, ?_⟩
  cases h with
  | false => left; simpa using hf
  | true => right; simpa using hf

/-- C11 as stated fails: with downloads that fail, a task with two scale renditions and
an empty manifest downloads three times: once for the main image and once for each
rendition. -/
theorem processScaleImageJob_downloads_thrice :
    downloads (processScaleImageJob offlineEnv ⟨memoryStore, "bucket".toList⟩ coldJob
        demoConfig [] []).2.1
      = [.download "http://src/a.png".toList (some ⟨"connection refused".toList, []⟩),
          .download "http://src/a.png".toList (some ⟨"connection refused".toList, []⟩),
          .download "http://src/a.png".toList (some ⟨"connection refused".toList, []⟩)] := by
  decide

/-- C11 on a task with two scale renditions and an empty manifest whose download
succeeds: one download. -/
theorem processScaleImageJob_downloads_witness :
    coldJob.ImageStruct = some demoImage
      ∧ (∀ u s b, (pngEnv.httpGet u s).1 = .ok b → b ≠ [])
      ∧ downloads (processScaleImageJob pngEnv ⟨memoryStore, "bucket".toList⟩ coldJob
          demoConfig [] []).2.1 = [.download "http://src/a.png".toList none]
      ∧ ∃ failed : List GoError,
        downloads (processScaleImageJob pngEnv ⟨memoryStore, "bucket".toList⟩ coldJob
            demoConfig [] []).2.1
            = failed.map (fun e => Event.download demoImage.URL (some e))
          ∨ downloads (processScaleImageJob pngEnv ⟨memoryStore, "bucket".toList⟩ coldJob
            demoConfig [] []).2.1
            = failed.map (fun e => Event.download demoImage.URL (some e))
              ++ [Event.download demoImage.URL none] :=
  have hb : ∀ u (s : List Str) b, (pngEnv.httpGet u s).1 = .ok b → b ≠ [] := by
    intro u s b h
    simp [pngEnv] at h
    simp [← h]
  ⟨rfl, hb, by decide!,
    processScaleImageJob_downloads pngEnv ⟨memoryStore, "bucket".toList⟩ coldJob demoImage
      demoConfig [] [] rfl hb⟩

/-! ## Theorems: an image task whose downloads fail -/

theorem held_iff (manifest : Option (List Str)) (key : Str) :
    held manifest key = true ↔ inManifest manifest key := by
  cases manifest with
  | none => simp [held, inManifest]
  | some m => simp [held, inManifest]

/-- With failing downloads and no source bytes at hand, a step that uses the source
bytes like a handler either finds the key in the manifest and does nothing, or makes
one failed download and returns its error. -/
theorem SourceStep_offline {σ : Type} (env : Env σ) (url : Str) (hit : Prop) (s : σ)
    (r : HandlerResult σ) (hfail : ∀ u s, ∃ e, (env.httpGet u s).1 = .error e)
    (hstep : SourceStep env url hit [] s r) :
    (hit ∧ r = (.returned ([], none), [], s))
      ∨ (¬ hit ∧ ∃ e s1,
          r = (.returned ([], some (downloadFailure url e)), [.download url (some e)], s1)) := by
  by_cases hhit : hit
  · exact Or.inl ⟨hhit, hstep.1 hhit⟩
  · right
    refine ⟨hhit, ?_⟩
    obtain ⟨e, he⟩ := hfail url s
    rcases hget : env.httpGet url s with ⟨res, s1⟩
    rw [hget] at he
    simp only at he
    subst he
    have hsrc : obtainSource env url [] s = (.error e, [.download url (some e)], s1) := by
      simp [obtainSource, downloadImage, hget, errorOf]
    exact ⟨e, s1, (hstep.2 hhit).1 e _ _ hsrc⟩

/-- With failing downloads a run of attempts that starts without source bytes makes one
failed download per entry whose key the manifest does not hold, and nothing else. -/
theorem attempts_offline {σ : Type} (env : Env σ) (imageJob : ImageJob) (image : ImageStruct)
    (cdnConfig : CDNConfig) (cdn : CdnStruct σ) (extension : Str)
    (hI : imageJob.ImageStruct = some image)
    (hfail : ∀ u s, ∃ e, (env.httpGet u s).1 = .error e) :
    ∀ (l : List Spec) (s : σ), (∀ sp ∈ l, sp.dim ≠ none) →
      ((attempts (handleSpec env imageJob cdnConfig cdn extension) l [] s).1.filterMap
          (failure image.URL)).map (fun e => (e.URL, e.Err, e.Dim))
        = (l.filter fun sp => !held imageJob.ImagesOnCdn (sp.key cdnConfig imageJob image)).map
            (fun sp => (image.URL, sp.kind.text, sp.dim.getD []))
      ∧ (∀ e ∈ (attempts (handleSpec env imageJob cdnConfig cdn extension) l [] s).1.flatMap
            (fun a => a.2.2.1), ∃ err, e = .download image.URL (some err))
      ∧ ((attempts (handleSpec env imageJob cdnConfig cdn extension) l [] s).1.flatMap
            (fun a => a.2.2.1)).length
          = ((attempts (handleSpec env imageJob cdnConfig cdn extension) l [] s).1.filterMap
              (failure image.URL)).length := by
  intro l
  induction l with
  | nil => intro s _; simp [attempts]
  | cons sp rest ih =>
    intro s hnn
    have hd := hnn sp (List.mem_cons_self _ _)
    have hrest : ∀ sp ∈ rest, sp.dim ≠ none := fun x hx => hnn x (List.mem_cons_of_mem _ hx)
    obtain ⟨dims, hdims⟩ := Option.ne_none_iff_exists'.mp hd
    rcases SourceStep_offline env image.URL _ s _ hfail
      (handleSpec_step env imageJob image cdnConfig cdn extension sp [] s hI)
      with ⟨hhit, hr⟩ | ⟨hhit, e, s1, hr⟩
    · have hh : held imageJob.ImagesOnCdn (sp.key cdnConfig imageJob image) = true :=
        (held_iff _ _).mpr hhit
      obtain ⟨i1, i2, i3⟩ := ih s hrest
      simp only [attempts, hr, List.filter_cons, hh, Bool.not_true]
      refine ⟨?_, ?_, ?_⟩
      · simpa [failure] using i1
      · intro ev hev
        simp only [List.flatMap_cons, List.nil_append] at hev
        exact i2 ev hev
      · simpa [failure] using i3
    · have hh : held imageJob.ImagesOnCdn (sp.key cdnConfig imageJob image) = false := by
        cases hc : held imageJob.ImagesOnCdn (sp.key cdnConfig imageJob image) with
        | false => rfl
        | true => exact absurd ((held_iff _ _).mp hc) hhit
      obtain ⟨i1, i2, i3⟩ := ih s1 hrest
      simp only [attempts, hr, List.filter_cons, hh, Bool.not_false]
      refine ⟨?_, ?_, ?_⟩
      · simpa [failure, hdims] using i1
      · intro ev hev
        simp only [List.flatMap_cons, List.mem_append, List.mem_singleton] at hev
        rcases hev with hev | hev
        · exact ⟨e, hev⟩
        · exact i2 ev hev
      · simp only [List.flatMap_cons, List.filterMap_cons, failure, hdims, Option.map_some',
          List.length_append, List.length_cons, List.length_nil, i3]
        omega

/-- With failing downloads no attempt of a run that starts without source bytes panics:
no attempt gets as far as rendering. -/
theorem attempts_offline_returns {σ : Type} (env : Env σ) (imageJob : ImageJob)
    (image : ImageStruct) (cdnConfig : CDNConfig) (cdn : CdnStruct σ) (extension : Str)
    (hI : imageJob.ImageStruct = some image)
    (hfail : ∀ u s, ∃ e, (env.httpGet u s).1 = .error e) :
    ∀ (l : List Spec) (s : σ),
      ∀ a ∈ (attempts (handleSpec env imageJob cdnConfig cdn extension) l [] s).1,
        a.2.1 ≠ .panicked := by
  intro l
  induction l with
  | nil => intro s a ha; simp [attempts] at ha
  | cons sp rest ih =>
    intro s a ha
    rcases SourceStep_offline env image.URL _ s _ hfail
      (handleSpec_step env imageJob image cdnConfig cdn extension sp [] s hI)
      with ⟨_, hr⟩ | ⟨_, e, s1, hr⟩
    · simp only [attempts, hr, List.mem_cons] at ha
      rcases ha with ha | ha
      · subst ha
        simp
      · exact ih s a ha
    · simp only [attempts, hr, List.mem_cons] at ha
      rcases ha with ha | ha
      · subst ha
        simp
      · exact ih s1 a ha

/-- With failing downloads the upload of the main image returns no source bytes. -/
theorem uploadOf_offline {σ : Type} (env : Env σ) (cdn : CdnStruct σ) (imageJob : ImageJob)
    (image : ImageStruct) (cfg : Config) (s : σ)
    (hfail : ∀ u s, ∃ e, (env.httpGet u s).1 = .error e) :
    (uploadOf env cdn imageJob image cfg s).1.1 = [] := by
  rcases SourceStep_offline env image.URL _ s _ hfail
    (UploadMainProductImageToCDN_step env cdn imageJob image cfg.CDN s)
    with ⟨_, hr⟩ | ⟨_, e, s1, hr⟩
  · simp only [Prod.mk.injEq, Outcome.returned.injEq] at hr
    simp only [uploadOf, hr.1]
  · simp only [Prod.mk.injEq, Outcome.returned.injEq] at hr
    simp only [uploadOf, hr.1]

/-- C12, as the code has it: for an image task all of whose downloads fail (image spec
and list entries non-nil), `processScaleImageJob` returns one error of kind Upload when
the manifest does not hold the key of the main image, followed by one error per
rendition whose key the manifest does not hold, in list order, with the error value of
its list and its dimensions string; every request it makes is a failed download of the
URL of the task, one per returned error, so nothing is decoded or put. -/
theorem processScaleImageJob_offline {σ : Type} (env : Env σ) (cdn : CdnStruct σ)
    (imageJob : ImageJob) (image : ImageStruct) (cfg : Config) (s : σ)
    (hI : imageJob.ImageStruct = some image) (hnn : ∀ sp ∈ allSpecs image, sp.dim ≠ none)
    (hfail : ∀ u s, ∃ e, (env.httpGet u s).1 = .error e) :
    ∃ errs, (processScaleImageJob env cdn imageJob cfg [] s).1 = .returned errs
      ∧ errs.map (fun e => (e.URL, e.Err, e.Dim))
        = (if held imageJob.ImagesOnCdn (mainKey cfg.CDN imageJob image) then []
            else [(image.URL, Sentinel.errUploadingImage.text, [])])
          ++ (pendingSpecs cfg.CDN imageJob image).map
            (fun sp => (image.URL, sp.kind.text, sp.dim.getD []))
      ∧ (∀ e ∈ (processScaleImageJob env cdn imageJob cfg [] s).2.1,
          ∃ err, e = .download image.URL (some err))
      ∧ (processScaleImageJob env cdn imageJob cfg [] s).2.1.length = errs.length := by
  have hnp : ∀ a ∈ (attemptLog env cdn imageJob image cfg s).1, a.2.1 ≠ .panicked := by
    simp only [attemptLog, uploadOf_offline env cdn imageJob image cfg s hfail]
    exact attempts_offline_returns env imageJob image cfg.CDN cdn imageJob.ImageExtension hI
      hfail (allSpecs image) _
  obtain ⟨_, hrun⟩ := processScaleImageJob_run env cdn imageJob image cfg [] s hI hnn hnp
  rw [hrun]
  refine ⟨_, rfl, ?_⟩
  simp only [attemptLog]
  rcases SourceStep_offline env image.URL _ s _ hfail
    (UploadMainProductImageToCDN_step env cdn imageJob image cfg.CDN s)
    with ⟨hhit, hr⟩ | ⟨hhit, e, s1, hr⟩
  · have hh : held imageJob.ImagesOnCdn (mainKey cfg.CDN imageJob image) = true :=
      (held_iff _ _).mpr hhit
    simp only [Prod.mk.injEq, Outcome.returned.injEq] at hr
    have hu : uploadOf env cdn imageJob image cfg s = (([], none), [], s) := by
      simp only [uploadOf]
      exact Prod.ext hr.1 hr.2
    rw [hu]
    obtain ⟨i1, i2, i3⟩ := attempts_offline env imageJob image cfg.CDN cdn
      imageJob.ImageExtension hI hfail (allSpecs image) s hnn
    simp only [hh, if_true, uploadFailure, List.append_nil, List.nil_append, pendingSpecs]
    exact ⟨i1, i2, i3⟩
  · have hh : held imageJob.ImagesOnCdn (mainKey cfg.CDN imageJob image) = false := by
      cases hc : held imageJob.ImagesOnCdn (mainKey cfg.CDN imageJob image) with
      | false => rfl
      | true => exact absurd ((held_iff _ _).mp hc) hhit
    simp only [Prod.mk.injEq, Outcome.returned.injEq] at hr
    have hu : uploadOf env cdn imageJob image cfg s
        = (([], some (downloadFailure image.URL e)), [.download image.URL (some e)], s1) := by
      simp only [uploadOf]
      exact Prod.ext hr.1 hr.2
    rw [hu]
    obtain ⟨i1, i2, i3⟩ := attempts_offline env imageJob image cfg.CDN cdn
      imageJob.ImageExtension hI hfail (allSpecs image) s1 hnn
    simp only [hh, uploadFailure, pendingSpecs]
    refine ⟨?_, ?_, ?_⟩
    · simpa using i1
    · intro ev hev
      simp only [List.mem_append, List.mem_singleton] at hev
      rcases hev with hev | hev
      · exact ⟨e, hev⟩
      · exact i2 ev hev
    · simp only [List.length_append, List.length_cons, List.length_nil, i3]

/-- C12 as stated fails: with downloads that fail, a task with two scale renditions and
an empty manifest returns three errors, the one of kind Upload and one of kind Scale for
each rendition, and each rendition makes a further download. -/
theorem processScaleImageJob_offline_renditions :
    processScaleImageJob offlineEnv ⟨memoryStore, "bucket".toList⟩ coldJob demoConfig [] []
      = (.returned [⟨"http://src/a.png".toList, "could not upload image to cdn".toList,
            "could not download image [http://src/a.png]: connection refused".toList, []⟩,
          ⟨"http://src/a.png".toList, "could not scale image".toList,
            "could not download image [http://src/a.png]: connection refused".toList,
            "100".toList⟩,
          ⟨"http://src/a.png".toList, "could not scale image".toList,
            "could not download image [http://src/a.png]: connection refused".toList,
            "600".toList⟩],
        [.download "http://src/a.png".toList (some ⟨"connection refused".toList, []⟩),
          .download "http://src/a.png".toList (some ⟨"connection refused".toList, []⟩),
          .download "http://src/a.png".toList (some ⟨"connection refused".toList, []⟩)],
        []) := by
  decide

/-- C12 on the task of `demoJob`, whose manifest holds the key of the rendition 100 and
not the keys of the main image and of the rendition 600: two errors and two failed
downloads. -/
theorem processScaleImageJob_offline_witness :
    demoJob.ImageStruct = some demoImage
      ∧ (∀ sp ∈ allSpecs demoImage, sp.dim ≠ none)
      ∧ (∀ u (s : List Str), ∃ e, (offlineEnv.httpGet u s).1 = .error e)
      ∧ ∃ errs, (processScaleImageJob offlineEnv ⟨memoryStore, "bucket".toList⟩ demoJob
            demoConfig [] []).1 = .returned errs
        ∧ errs.map (fun e => (e.URL, e.Err, e.Dim))
          = [("http://src/a.png".toList, "could not upload image to cdn".toList, []),
              ("http://src/a.png".toList, "could not scale image".toList, "600".toList)]
        ∧ (∀ e ∈ (processScaleImageJob offlineEnv ⟨memoryStore, "bucket".toList⟩ demoJob
              demoConfig [] []).2.1, ∃ err, e = .download demoImage.URL (some err))
        ∧ (processScaleImageJob offlineEnv ⟨memoryStore, "bucket".toList⟩ demoJob
              demoConfig [] []).2.1.length = errs.length :=
  have hf : ∀ u (s : List Str), ∃ e, (offlineEnv.httpGet u s).1 = .error e :=
    fun _ _ => ⟨_, rfl⟩
  ⟨rfl, by decide, hf,
    (processScaleImageJob_offline offlineEnv ⟨memoryStore, "bucket".toList⟩ demoJob demoImage
      demoConfig [] rfl (by decide) hf).imp fun _ h =>
        ⟨h.1, h.2.1.trans (by decide), h.2.2⟩⟩

/-! ## Theorems: `ProcessJobImage` on a delete-only task -/

/-- A delete-only task never returns an error: when `Delete` fails, building the
`ProcessImageError` panics. -/
theorem ProcessJobImage_delete_only {σ : Type} (env : Env σ) (cdn : CdnStruct σ)
    (cfg : Config) (imageJob : ImageJob) (s : σ) (hI : imageJob.ImageStruct = none) :
    ((Delete cdn cfg.CDN cfg.CDN.Bucket
        (imageJob.DeleteImages.map (sanitizeDeletePath cfg.CDN.ImagesFolder)) s).1 = none →
      (ProcessJobImage env cdn cfg imageJob s).1 = .returned [])
    ∧ ((Delete cdn cfg.CDN cfg.CDN.Bucket
        (imageJob.DeleteImages.map (sanitizeDeletePath cfg.CDN.ImagesFolder)) s).1 ≠ none →
      (ProcessJobImage env cdn cfg imageJob s).1 = .panicked) := by
  simp only [ProcessJobImage, hI]
  rcases Delete cdn cfg.CDN cfg.CDN.Bucket
    (imageJob.DeleteImages.map (sanitizeDeletePath cfg.CDN.ImagesFolder)) s with ⟨err, t, s1⟩
  cases err <;> simp

/-- C13: on a delete-only task whose delete list holds the images root, `Delete` rejects
the path without a `DeleteObjects` request, but `ProcessJobImage` does not return the
error of kind Delete: it panics, because it reads the URL of the nil image spec to build
the error. -/
theorem ProcessJobImage_delete_root :
    (Delete ⟨memoryStore, "bucket".toList⟩ demoConfig.CDN demoConfig.CDN.Bucket
        ["images".toList] ["images/7/p1/a.png".toList]).1
      = some ⟨"NOT_IMPLEMENTED: you should not delete root path! images".toList,
          [.ErrNotImplemented]⟩
    ∧ ProcessJobImage pngEnv ⟨memoryStore, "bucket".toList⟩ demoConfig
        (deleteTask ["images".toList]) ["images/7/p1/a.png".toList]
      = (.panicked, [], ["images/7/p1/a.png".toList]) := by
  decide

/-! ## Theorems: the dispatcher, the offload path and the HTTP intake -/

/-- C15: when a round of `listenForJobs` returns with the collected errors `errs`, the
calls `acts` it made on the delivery are: none when `QueueJob` equals `amqp.Delivery{}`;
otherwise exactly one, `Ack(false)` when no error was collected and
`Nack(false, !Redelivered)` when at least one was. -/
theorem listenForJobs_respond {σ : Type} (env : Env σ) (lam : Offload σ) (cdn : CdnStruct σ)
    (cfg : Config) (job : ImageProcessJob) (s : σ) (errs : List WorkerError)
    (acts : List QueueAction)
    (h : (listenForJobs env lam cdn cfg job s).1 = .returned (errs, acts)) :
    acts = if job.QueueJob = zeroDelivery then []
      else if errs = [] then [.ack job.QueueJob.DeliveryTag false]
      else [.nack job.QueueJob.DeliveryTag false (!job.QueueJob.Redelivered)] := by
  cases hd : job.Data with
  | none => simp [listenForJobs, hd] at h
  | some data =>
    simp only [listenForJobs, hd] at h
    split at h
    · exact absurd h (by simp)
    · simp only [Outcome.returned.injEq, Prod.mk.injEq] at h
      rw [← h.2, ← h.1]
      rename_i collected _ _ _ _
      simp only [respondToQueue]
      cases collected with
      | nil => simp
      | cons e rest => simp

/-- C15 on a redelivered delivery whose job fails: one nack without requeue. -/
theorem listenForJobs_respond_witness :
    (listenForJobs offlineEnv remote ⟨memoryStore, "bucket".toList⟩ demoConfig
        ⟨some demoData, ⟨some 1, 42, true, [123, 125]⟩⟩ []).1
      = .returned ([.process ⟨"http://src/a.png".toList,
            "could not upload image to cdn".toList,
            "could not download image [http://src/a.png]: connection refused".toList, []⟩,
          .process ⟨"http://src/a.png".toList, "could not scale image".toList,
            "could not download image [http://src/a.png]: connection refused".toList,
            "100".toList⟩,
          .process ⟨"http://src/a.png".toList, "could not scale image".toList,
            "could not download image [http://src/a.png]: connection refused".toList,
            "600".toList⟩],
        [.nack 42 false false])
    ∧ [QueueAction.nack 42 false false]
      = [.nack (⟨some 1, 42, true, [123, 125]⟩ : Delivery).DeliveryTag false
          (!(⟨some 1, 42, true, [123, 125]⟩ : Delivery).Redelivered)] :=
  have h : (listenForJobs offlineEnv remote ⟨memoryStore, "bucket".toList⟩ demoConfig
      ⟨some demoData, ⟨some 1, 42, true, [123, 125]⟩⟩ []).1
      = .returned ([.process ⟨"http://src/a.png".toList,
            "could not upload image to cdn".toList,
            "could not download image [http://src/a.png]: connection refused".toList, []⟩,
          .process ⟨"http://src/a.png".toList, "could not scale image".toList,
            "could not download image [http://src/a.png]: connection refused".toList,
            "100".toList⟩,
          .process ⟨"http://src/a.png".toList, "could not scale image".toList,
            "could not download image [http://src/a.png]: connection refused".toList,
            "600".toList⟩],
        [.nack 42 false false]) := by
    decide
  ⟨h, (listenForJobs_respond _ _ _ _ _ _ _ _ h).trans (by decide)⟩

/-- C16: a request with the configured user and a wrong password, and one with a wrong
user and the configured password, are both accepted: the response is 200 and the job is
dispatched. -/
theorem AddImageScaleJob_one_credential :
    AddImageScaleJob demoConfig (fun _ => none) "t1".toList
        ⟨"admin".toList, "wrong".toList, .ok ⟨some demoData, "urgent".toList⟩⟩
      = ⟨⟨200, none⟩, [⟨some demoData, zeroDelivery⟩], []⟩
    ∧ AddImageScaleJob demoConfig (fun _ => none) "t1".toList
        ⟨"intruder".toList, "secret".toList, .ok ⟨some demoData, "normal".toList⟩⟩
      = ⟨⟨200, none⟩, [], [some demoData]⟩
    ∧ AddImageScaleJob demoConfig (fun _ => none) "t1".toList
        ⟨"intruder".toList, "wrong".toList, .ok ⟨some demoData, "urgent".toList⟩⟩
      = ⟨⟨401, some ⟨"UNAUTHORISED".toList, "t1".toList⟩⟩, [], []⟩ := by
  decide

/-- C17: a task whose only remaining rendition is a minYMaxX entry returns ok without an
invocation, while the same task with the entry in the minXMaxY list is invoked: the test
for nothing to do reads the length of the pruned minXMaxY list twice and never the one
of the pruned minYMaxX list. -/
theorem callLambdaProcessJob_minYMaxX_only :
    callLambdaProcessJob remote offloadConfig.CDN (taskOf tallImage)
        offloadConfig.LambdaConfig []
      = (.returned none, [], taskOf tallImage, [])
    ∧ callLambdaProcessJob remote offloadConfig.CDN (taskOf wideImage)
        offloadConfig.LambdaConfig []
      = (.returned none, [("processimage".toList, [123, 125])], taskOf wideImage, []) := by
  constructor <;> rfl

/-- C18, as the code has it: a request that passes the credential check, whose body
decodes and whose priority is urgent is answered with 200 and no payload, and its job is
handed to the dispatcher with the zero delivery and not published.  The response does
not depend on what processing the job yields; the round of `listenForJobs` for the job
makes no call on a delivery, whatever errors it collects. -/
theorem AddImageScaleJob_urgent (cfg : Config)
    (ImagePublish : Option ImageProcessJobData → Option GoError) (transactionID : Str)
    (r : Request) (job : ImageScaleJobReq)
    (hauth : ¬ (r.user ≠ cfg.ImageConfig.ImageServerUser
      ∧ r.pass ≠ cfg.ImageConfig.ImageServerPass))
    (hbody : r.body = .ok job) (hprio : job.Priority = "urgent".toList) :
    AddImageScaleJob cfg ImagePublish transactionID r
        = ⟨⟨200, none⟩, [⟨job.Job, zeroDelivery⟩], []⟩
      ∧ ∀ (σ : Type) (env : Env σ) (lam : Offload σ) (cdn : CdnStruct σ) (s : σ) errs acts,
          (listenForJobs env lam cdn cfg ⟨job.Job, zeroDelivery⟩ s).1 = .returned (errs, acts) →
          acts = [] := by
  constructor
  · simp only [AddImageScaleJob, if_neg hauth, hbody, hprio, if_true]
  · intro σ env lam cdn s errs acts h
    cases hd : job.Job with
    | none => simp [listenForJobs, hd] at h
    | some data =>
      simp only [listenForJobs, hd] at h
      split at h
      · exact absurd h (by simp)
      · simp only [Outcome.returned.injEq, Prod.mk.injEq] at h
        rw [← h.2]
        simp [respondToQueue]

/-- C18 as stated fails: an urgent job whose downloads all fail is answered with 200 and
no payload, although the round of `listenForJobs` for the dispatched job collects three
errors. -/
theorem AddImageScaleJob_urgent_errors :
    AddImageScaleJob demoConfig (fun _ => none) "t1".toList
        ⟨"admin".toList, "secret".toList, .ok ⟨some demoData, "urgent".toList⟩⟩
      = ⟨⟨200, none⟩, [⟨some demoData, zeroDelivery⟩], []⟩
    ∧ (listenForJobs offlineEnv remote ⟨memoryStore, "bucket".toList⟩ demoConfig
        ⟨some demoData, zeroDelivery⟩ []).1
      = .returned ([.process ⟨"http://src/a.png".toList, "could not upload image to cdn".toList,
            "could not download image [http://src/a.png]: connection refused".toList, []⟩,
          .process ⟨"http://src/a.png".toList, "could not scale image".toList,
            "could not download image [http://src/a.png]: connection refused".toList,
            "100".toList⟩,
          .process ⟨"http://src/a.png".toList, "could not scale image".toList,
            "could not download image [http://src/a.png]: connection refused".toList,
            "600".toList⟩], []) := by
  constructor
  · decide
  · decide

/-- C18 on an urgent request with the configured credentials. -/
theorem AddImageScaleJob_urgent_witness :
    ¬ ("admin".toList ≠ demoConfig.ImageConfig.ImageServerUser
        ∧ "secret".toList ≠ demoConfig.ImageConfig.ImageServerPass)
      ∧ AddImageScaleJob demoConfig (fun _ => none) "t1".toList
          ⟨"admin".toList, "secret".toList, .ok ⟨some demoData, "urgent".toList⟩⟩
        = ⟨⟨200, none⟩, [⟨some demoData, zeroDelivery⟩], []⟩ :=
  ⟨by decide,
    (AddImageScaleJob_urgent demoConfig (fun _ => none) "t1".toList
      ⟨"admin".toList, "secret".toList, .ok ⟨some demoData, "urgent".toList⟩⟩
      ⟨some demoData, "urgent".toList⟩ (by decide) rfl rfl).1⟩

/-! ## Theorems: a job with one image and two scale renditions -/

theorem downloads_append (a b : List Event) :
    downloads (a ++ b) = downloads a ++ downloads b := by
  simp [downloads]

theorem putsAt_append (key : Str) (a b : List Event) :
    putsAt key (a ++ b) = putsAt key a ++ putsAt key b := by
  induction a with
  | nil => rfl
  | cons e rest ih =>
    cases e with
    | put bucket k body ct err =>
      simp only [List.cons_append, putsAt]
      split <;> simp [ih]
    | _ => simp [putsAt, ih]

theorem downloads_quiet (t : List Event) (h : Quiet t) : downloads t = [] := by
  simp only [downloads, List.filter_eq_nil_iff]
  intro e he
  simp [(h e he).1]

theorem putsAt_quiet (key : Str) (t : List Event) (h : Quiet t) : putsAt key t = [] := by
  induction t with
  | nil => rfl
  | cons e rest ih =>
    have he := (h e (List.mem_cons_self _ _)).2
    have hrest : Quiet rest := fun x hx => h x (List.mem_cons_of_mem _ hx)
    cases e with
    | put bucket k body ct err => simp [Event.isPut] at he
    | _ => simp [putsAt, ih hrest]

theorem Delete_nil {σ : Type} (cdn : CdnStruct σ) (cfg : CDNConfig) (bucket : Str) (s : σ) :
    Delete cdn cfg bucket [] s = (none, [], s) := by
  simp [Delete, collectObjectIdentifiers, deleteChunks]

/-- The delete task of a job with nothing to delete does nothing. -/
theorem ProcessJobImage_nothing {σ : Type} (env : Env σ) (cdn : CdnStruct σ) (cfg : Config)
    (s : σ) : ProcessJobImage env cdn cfg ⟨none, 0, [], none, []⟩ s = (.returned [], [], s) := by
  simp [ProcessJobImage, Delete_nil]

/-- The handler of a scale rendition whose key the manifest does not hold, when the
rendition renders and the put succeeds. -/
theorem handleScaleImage_success {σ : Type} (env : Env σ) (imageJob : ImageJob)
    (image : ImageStruct) (cdnConfig : CDNConfig) (d : Option Int) (img : Bytes)
    (cdn : CdnStruct σ) (extension : Str) (s : σ) (hI : imageJob.ImageStruct = some image)
    (hm : ¬ inManifest imageJob.ImagesOnCdn (handlerKey cdnConfig imageJob image d none none none))
    (b : Bytes) (t1 : List Event) (s1 : σ)
    (hsrc : obtainSource env image.URL img s = (.ok b, t1, s1)) (out : Bytes)
    (hren : (scaleImage env.codec b d extension).1 = .returned (.ok out))
    (hput : ∀ bk k body ct s, (cdn.s3.PutObject bk k body ct s).1 = none) :
    handleScaleImage env imageJob cdnConfig d img cdn extension s
      = (.returned (b, none),
          t1 ++ (scaleImage env.codec b d extension).2
            ++ [.put cdn.defaultBucket (handlerKey cdnConfig imageJob image d none none none)
                out (env.codec.DetectContentType b) none],
          (cdn.s3.PutObject cdn.defaultBucket
            (handlerKey cdnConfig imageJob image d none none none) out
            (env.codec.DetectContentType b) s1).2) := by
  have hm' : ¬ ∃ m, imageJob.ImagesOnCdn = some m ∧ Join [cdnConfig.ImagesFolder,
    ImageSubPath [] (some imageJob.ShopID) image.ProductID d none none none
      image.Name] ∈ m := hm
  simp only [handleScaleImage, hI, hm', if_false, hsrc, handlerKey]
  rcases hr : scaleImage env.codec b d extension with ⟨res, t2⟩
  rw [hr] at hren
  simp only at hren
  subst hren
  simp only [StoreFile, if_true]
  have hp := hput cdn.defaultBucket (Join [cdnConfig.ImagesFolder,
    ImageSubPath [] (some imageJob.ShopID) image.ProductID d none none none image.Name]) out
    (env.codec.DetectContentType b) s1
  split
  · rename_i err t3 s2 hst
    simp only [Prod.mk.injEq] at hst
    rw [hp] at hst
    exact absurd hst.1 (by simp)
  · rename_i t3 s2 hst
    simp only [Prod.mk.injEq] at hst
    obtain ⟨_, ht3, hs2⟩ := hst
    rw [hp] at ht3
    rw [← ht3, ← hs2]

/-- The upload of the main image when downloads and puts succeed: either the manifest
holds the key and nothing happens, or the source is downloaded and put. -/
theorem uploadOf_success {σ : Type} (env : Env σ) (cdn : CdnStruct σ) (imageJob : ImageJob)
    (image : ImageStruct) (cfg : Config) (s : σ)
    (hget : ∀ u s, ∃ b, (env.httpGet u s).1 = .ok b ∧ b ≠ [])
    (hput : ∀ bk k body ct s, (cdn.s3.PutObject bk k body ct s).1 = none) :
    (inManifest imageJob.ImagesOnCdn (mainKey cfg.CDN imageJob image)
        ∧ uploadOf env cdn imageJob image cfg s = (([], none), [], s))
      ∨ (¬ inManifest imageJob.ImagesOnCdn (mainKey cfg.CDN imageJob image)
        ∧ ∃ b ct s1, b ≠ []
          ∧ uploadOf env cdn imageJob image cfg s
            = ((b, none),
                [.download image.URL none,
                  .put cdn.defaultBucket (mainKey cfg.CDN imageJob image) b ct none], s1)) := by
  by_cases hit : inManifest imageJob.ImagesOnCdn (mainKey cfg.CDN imageJob image)
  · left
    refine ⟨hit, ?_⟩
    have hit' : ∃ m, imageJob.ImagesOnCdn = some m ∧ Join [cfg.CDN.ImagesFolder,
      ImageSubPath [] (some imageJob.ShopID) image.ProductID none none none none
        image.Name] ∈ m := hit
    simp only [uploadOf, UploadMainProductImageToCDN, hit', if_true]
  · right
    refine ⟨hit, ?_⟩
    have hit' : ¬ ∃ m, imageJob.ImagesOnCdn = some m ∧ Join [cfg.CDN.ImagesFolder,
      ImageSubPath [] (some imageJob.ShopID) image.ProductID none none none none
        image.Name] ∈ m := hit
    obtain ⟨b, hb, hne⟩ := hget image.URL s
    rcases hg : env.httpGet image.URL s with ⟨res, sA⟩
    rw [hg] at hb
    simp only at hb
    subst hb
    have hsrc : obtainSource env image.URL [] s = (.ok b, [.download image.URL none], sA) := by
      simp [obtainSource, downloadImage, hg, errorOf]
    have hp := hput cdn.defaultBucket (Join [cfg.CDN.ImagesFolder,
      ImageSubPath [] (some imageJob.ShopID) image.ProductID none none none none image.Name]) b
      (env.codec.DetectContentType b) sA
    refine ⟨b, env.codec.DetectContentType b,
      (cdn.s3.PutObject cdn.defaultBucket (Join [cfg.CDN.ImagesFolder,
        ImageSubPath [] (some imageJob.ShopID) image.ProductID none none none none image.Name])
        b (env.codec.DetectContentType b) sA).2, hne, ?_⟩
    simp only [uploadOf, UploadMainProductImageToCDN, hit', if_false, hsrc, StoreFile, if_true,
      mainKey, handlerKey]
    split
    · rename_i err t3 s2 hst
      simp only [Prod.mk.injEq] at hst
      rw [hp] at hst
      exact absurd hst.1 (by simp)
    · rename_i t3 s2 hst
      simp only [Prod.mk.injEq] at hst
      obtain ⟨_, ht3, hs2⟩ := hst
      rw [hp] at ht3
      rw [← ht3, ← hs2]
      rfl

/-- The image task of the scenario: renditions 100 and 600, the manifest holds the key
of the first and not the key of the second, downloads, puts and the rendering of the
rendition 600 succeed. -/
theorem processScaleImageJob_one_of_two {σ : Type} (env : Env σ) (cdn : CdnStruct σ)
    (imageJob : ImageJob) (image : ImageStruct) (cfg : Config) (s : σ) (m : List Str)
    (hI : imageJob.ImageStruct = some image) (hman : imageJob.ImagesOnCdn = some m)
    (hscale : image.ScaleDimensionMax = [some 100, some 600])
    (hcrop : image.CropDimensions = []) (hmm : image.MinXMaxY = [])
    (hmy : image.MinYMaxX = [])
    (h100 : handlerKey cfg.CDN imageJob image (some 100) none none none ∈ m)
    (h600 : handlerKey cfg.CDN imageJob image (some 600) none none none ∉ m)
    (hmain : mainKey cfg.CDN imageJob image
      ≠ handlerKey cfg.CDN imageJob image (some 600) none none none)
    (hget : ∀ u s, ∃ b, (env.httpGet u s).1 = .ok b ∧ b ≠ [])
    (hput : ∀ bk k body ct s, (cdn.s3.PutObject bk k body ct s).1 = none)
    (hrender : ∀ b, b ≠ [] →
      ∃ out, (scaleImage env.codec b (some 600) imageJob.ImageExtension).1 = .returned (.ok out)) :
    (processScaleImageJob env cdn imageJob cfg [] s).1 = .returned []
      ∧ downloads (processScaleImageJob env cdn imageJob cfg [] s).2.1
        = [.download image.URL none]
      ∧ (∃ body ct,
        putsAt (handlerKey cfg.CDN imageJob image (some 600) none none none)
            (processScaleImageJob env cdn imageJob cfg [] s).2.1
          = [.put cdn.defaultBucket (handlerKey cfg.CDN imageJob image (some 600) none none none)
              body ct none])
      ∧ putsAt (handlerKey cfg.CDN imageJob image (some 100) none none none)
          (processScaleImageJob env cdn imageJob cfg [] s).2.1 = [] := by
  have hit100 : inManifest imageJob.ImagesOnCdn
      (handlerKey cfg.CDN imageJob image (some 100) none none none) := ⟨m, hman, h100⟩
  have nhit600 : ¬ inManifest imageJob.ImagesOnCdn
      (handlerKey cfg.CDN imageJob image (some 600) none none none) := by
    rintro ⟨m1, hm1, hk⟩
    rw [hman] at hm1
    cases hm1
    exact h600 hk
  have hk : handlerKey cfg.CDN imageJob image (some 600) none none none
      ≠ handlerKey cfg.CDN imageJob image (some 100) none none none :=
    fun h => h600 (h ▸ h100)
  have H100 : ∀ img s, handleScaleImage env imageJob cfg.CDN (some 100) img cdn
      imageJob.ImageExtension s = (.returned (img, none), [], s) :=
    fun img s => (handleScaleImage_step env imageJob image cfg.CDN (some 100) img cdn
      imageJob.ImageExtension s hI).1 hit100
  rcases uploadOf_success env cdn imageJob image cfg s hget hput
    with ⟨_, hu⟩ | ⟨hmiss, b, ct, s1, hne, hu⟩
  · obtain ⟨b, hb, hne⟩ := hget image.URL s
    rcases hg : env.httpGet image.URL s with ⟨res, sA⟩
    rw [hg] at hb
    simp only at hb
    subst hb
    have hsrc : obtainSource env image.URL [] s = (.ok b, [.download image.URL none], sA) := by
      simp [obtainSource, downloadImage, hg, errorOf]
    obtain ⟨out, hren⟩ := hrender b hne
    have H600 := handleScaleImage_success env imageJob image cfg.CDN (some 600) [] cdn
      imageJob.ImageExtension s hI nhit600 b _ _ hsrc out hren hput
    have hq := scaleImage_quiet env.codec b (some 600) imageJob.ImageExtension
    generalize (scaleImage env.codec b (some 600) imageJob.ImageExtension).2 = t2 at H600 hq
    have hd2 : downloads t2 = [] := downloads_quiet _ hq
    have hp6 := putsAt_quiet (handlerKey cfg.CDN imageJob image (some 600) none none none) _ hq
    have hp1 := putsAt_quiet (handlerKey cfg.CDN imageJob image (some 100) none none none) _ hq
    simp only [uploadOf] at hu
    simp only [processScaleImageJob, hI, hu, hscale, hcrop, hmm, hmy, renditionLoop, H100, H600]
    refine ⟨trivial, ?_, ⟨out, env.codec.DetectContentType b, ?_⟩, ?_⟩
    · simp only [downloads_append, hd2, List.nil_append, List.append_nil]
      simp [downloads, Event.isDownload]
    · simp only [putsAt_append, hp6, List.nil_append, List.append_nil]
      simp [putsAt]
    · simp only [putsAt_append, hp1, List.nil_append, List.append_nil]
      simp [putsAt, hk]
  · have hsrc : obtainSource env image.URL b s1 = (.ok b, [], s1) := by
      have : b.length ≠ 0 := fun h => hne (List.length_eq_zero.mp h)
      simp [obtainSource, this]
    obtain ⟨out, hren⟩ := hrender b hne
    have H600 := handleScaleImage_success env imageJob image cfg.CDN (some 600) b cdn
      imageJob.ImageExtension s1 hI nhit600 b _ _ hsrc out hren hput
    have hq := scaleImage_quiet env.codec b (some 600) imageJob.ImageExtension
    generalize (scaleImage env.codec b (some 600) imageJob.ImageExtension).2 = t2 at H600 hq
    have hd2 : downloads t2 = [] := downloads_quiet _ hq
    have hp6 := putsAt_quiet (handlerKey cfg.CDN imageJob image (some 600) none none none) _ hq
    have hp1 := putsAt_quiet (handlerKey cfg.CDN imageJob image (some 100) none none none) _ hq
    have hk1 : mainKey cfg.CDN imageJob image
        ≠ handlerKey cfg.CDN imageJob image (some 100) none none none :=
      fun h => hmiss (h ▸ hit100)
    simp only [uploadOf] at hu
    simp only [processScaleImageJob, hI, hu, hscale, hcrop, hmm, hmy, renditionLoop, H100, H600]
    refine ⟨trivial, ?_, ⟨out, env.codec.DetectContentType b, ?_⟩, ?_⟩
    · simp only [downloads_append, hd2, List.nil_append, List.append_nil]
      simp [downloads, Event.isDownload]
    · simp only [putsAt_append, hp6, List.nil_append, List.append_nil]
      simp [putsAt, hmain]
    · simp only [putsAt_append, hp1, List.nil_append, List.append_nil]
      simp [putsAt, hk, hk1]

/-- An image task with nothing to delete is its `processScaleImageJob`. -/
theorem ProcessJobImage_image_task {σ : Type} (env : Env σ) (cdn : CdnStruct σ) (cfg : Config)
    (imageJob : ImageJob) (image : ImageStruct) (s : σ)
    (hI : imageJob.ImageStruct = some image) (hdel : imageJob.DeleteImages = []) :
    ProcessJobImage env cdn cfg imageJob s = processScaleImageJob env cdn imageJob cfg [] s := by
  obtain ⟨is, shop, ext, man, del⟩ := imageJob
  simp only at hI hdel
  subst hI hdel
  simp only [ProcessJobImage, List.map_nil, Delete_nil]
  rcases processScaleImageJob env cdn ⟨some image, shop, ext, man, []⟩ cfg [] s with ⟨o, t, s1⟩
  cases o <;> simp

/-- C14, as the code has it: in local mode, for a job of a tenant other than 0 with one
image whose only renditions are the scale renditions 100 and 600 and with nothing to
delete, when the listing succeeds with a manifest that holds the 100-key and not the
600-key, the key of the main image differs from the 600-key, every download delivers a
non-empty body, every put succeeds and the rendition 600 of the source renders (which
needs an output format the code can encode), the round of `listenForJobs` collects no
error, makes exactly one download, of the source, exactly one put at the 600-key,
which succeeds, no put at the 100-key and no invocation, and a queue-delivered job is
acked once. -/
theorem listenForJobs_one_of_two {σ : Type} (env : Env σ) (lam : Offload σ)
    (cdn : CdnStruct σ) (cfg : Config) (data : ImageProcessJobData) (image : ImageStruct)
    (d : Delivery) (s s0 : σ) (m : List Str)
    (hlocal : cfg.LambdaConfig.Function = [])
    (hshop : data.ShopID ≠ 0) (himages : data.Images = [some image])
    (hdel : data.DeleteImages = [])
    (hscale : image.ScaleDimensionMax = [some 100, some 600])
    (hcrop : image.CropDimensions = []) (hmm : image.MinXMaxY = [])
    (hmy : image.MinYMaxX = [])
    (hlist : cdn.s3.ListFiles cdn.defaultBucket (tenantFolder cfg data) s = ((m, none), s0))
    (h100 : handlerKey cfg.CDN (imageTask data image m) image (some 100) none none none ∈ m)
    (h600 : handlerKey cfg.CDN (imageTask data image m) image (some 600) none none none ∉ m)
    (hmain : mainKey cfg.CDN (imageTask data image m) image
      ≠ handlerKey cfg.CDN (imageTask data image m) image (some 600) none none none)
    (hget : ∀ u s, ∃ b, (env.httpGet u s).1 = .ok b ∧ b ≠ [])
    (hput : ∀ bk k body ct s, (cdn.s3.PutObject bk k body ct s).1 = none)
    (hrender : ∀ b, b ≠ [] →
      ∃ out, (scaleImage env.codec b (some 600) data.ImageExtension).1 = .returned (.ok out)) :
    (listenForJobs env lam cdn cfg ⟨some data, d⟩ s).1
        = .returned ([], if d = zeroDelivery then [] else [.ack d.DeliveryTag false])
      ∧ downloads (listenForJobs env lam cdn cfg ⟨some data, d⟩ s).2.1
        = [.download image.URL none]
      ∧ (∃ body ct,
        putsAt (handlerKey cfg.CDN (imageTask data image m) image (some 600) none none none)
            (listenForJobs env lam cdn cfg ⟨some data, d⟩ s).2.1
          = [.put cdn.defaultBucket
              (handlerKey cfg.CDN (imageTask data image m) image (some 600) none none none)
              body ct none])
      ∧ putsAt (handlerKey cfg.CDN (imageTask data image m) image (some 100) none none none)
          (listenForJobs env lam cdn cfg ⟨some data, d⟩ s).2.1 = []
      ∧ (listenForJobs env lam cdn cfg ⟨some data, d⟩ s).2.2.1 = [] := by
  obtain ⟨p1, p2, ⟨body, ct, p3⟩, p4⟩ := processScaleImageJob_one_of_two env cdn
    (imageTask data image m) image cfg s0 m rfl rfl hscale hcrop hmm hmy h100 h600 hmain
    hget hput hrender
  have hman : listOfFiles cdn cfg data s
      = (m, [.list cdn.defaultBucket (tenantFolder cfg data) none], s0) := by
    simp only [tenantFolder] at hlist
    simp only [listOfFiles, hshop, ne_eq, not_false_eq_true, if_true, hlist, tenantFolder]
  have htasks : tasksOf data m = [imageTask data image m, ⟨none, 0, [], none, []⟩] := by
    simp [tasksOf, himages, hdel, imageTask]
  have hw1 : spawnWorker env lam cdn cfg (imageTask data image m) s0
      = (match processScaleImageJob env cdn (imageTask data image m) cfg [] s0 with
        | (.panicked, t, s1) => (.panicked, t, [], s1)
        | (.returned errs, t, s1) => (.returned (errs.map .process), t, [], s1)) := by
    simp only [spawnWorker, hlocal, ne_eq, not_true_eq_false, if_false]
    rw [ProcessJobImage_image_task env cdn cfg (imageTask data image m) image s0 rfl rfl]
  have hw2 : ∀ s1, spawnWorker env lam cdn cfg ⟨none, 0, [], none, []⟩ s1
      = (.returned [], [], [], s1) := by
    intro s1
    simp only [spawnWorker, hlocal, ne_eq, not_true_eq_false, if_false, ProcessJobImage_nothing,
      List.map_nil]
  rcases hP : processScaleImageJob env cdn (imageTask data image m) cfg [] s0 with ⟨o, t, s1⟩
  rw [hP] at p1 p2 p3 p4 hw1
  simp only at p1 p2 p3 p4 hw1
  subst p1
  simp only [List.map_nil] at hw1
  simp only [listenForJobs, hman, htasks, runTasks, hw1, hw2, List.append_nil, List.nil_append,
    respondToQueue, List.length_nil, gt_iff_lt, lt_self_iff_false, if_false]
  refine ⟨trivial, ?_, ⟨body, ct, ?_⟩, ?_, trivial⟩
  · simp only [List.singleton_append]
    simpa [downloads, Event.isDownload] using p2
  · simp only [List.singleton_append, putsAt]
    exact p3
  · simp only [List.singleton_append, putsAt]
    exact p4

/-- C14 as stated fails: for a WebP source and a job without a default output format,
every network call succeeds and the source decodes, but the rendition 600 cannot be
encoded: the round collects an error, makes no put at the 600-key and nacks the
delivery. -/
theorem listenForJobs_webp_source :
    (listenForJobs webpEnv remote ⟨memoryStore, "bucket".toList⟩ demoConfig
        ⟨some webpData, demoDelivery⟩ ["images/7/p1/100/a.webp".toList]).1
      = .returned ([.process ⟨"http://src/a.webp".toList, "could not scale image".toList,
            "could not scale 7/p1/600/a.webp to 600: unsupported file type : webp".toList,
            "600".toList⟩],
          [.nack 42 false true])
    ∧ (listenForJobs webpEnv remote ⟨memoryStore, "bucket".toList⟩ demoConfig
        ⟨some webpData, demoDelivery⟩ ["images/7/p1/100/a.webp".toList]).2.1
      = [.list "bucket".toList "images/7".toList none,
          .download "http://src/a.webp".toList none,
          .put "bucket".toList "images/7/p1/a.webp".toList [82, 73, 70, 70]
            "image/webp".toList none,
          .decode "webp".toList none] := by
  constructor
  · decide!
  · decide!

/-- With the codecs `pngCodecs` a scale rendition whose target size can be allocated
renders. -/
theorem pngCodecs_scale (b : Bytes) (m x : Int)
    (hdim : calculateTargetDimensions (some m) none 10 10 = (x, m, none))
    (hal : allocates (Rect 0 0 x m) = true) :
    scaleImage pngCodecs b (some m) []
      = (.returned (.ok [137, 80]), [.decode "png".toList none, .encode "png".toList none]) := by
  have hext : TrimPrefix (pngCodecs.mimetypeExtension b) ['.'] = "png".toList := rfl
  have hdec : decodeImage pngCodecs b "png".toList
      = (.ok ⟨10, 10, fun _ _ => ⟨0, 0, 0, 65535⟩⟩, [.decode "png".toList none]) := rfl
  have henc : ∀ r, encodeImage pngCodecs r "png".toList
      = ((none, [137, 80]), [.encode "png".toList none]) := fun _ => rfl
  simp only [scaleImage, hext, if_true, hdec, hdim, hal, henc]
  rfl

/-- C14 on a PNG source, for a delivery from the queue and a store that holds the
100-key: one download, one put at the 600-key, no error, one ack. -/
theorem listenForJobs_one_of_two_witness :
    demoConfig.LambdaConfig.Function = [] ∧ demoData.ShopID ≠ 0
      ∧ memoryStore.ListFiles "bucket".toList (tenantFolder demoConfig demoData)
          ["images/7/p1/100/a.png".toList]
        = ((["images/7/p1/100/a.png".toList], none), ["images/7/p1/100/a.png".toList])
      ∧ (listenForJobs pngEnv remote ⟨memoryStore, "bucket".toList⟩ demoConfig
          ⟨some demoData, demoDelivery⟩ ["images/7/p1/100/a.png".toList]).1
        = .returned ([], [.ack 42 false])
      ∧ downloads (listenForJobs pngEnv remote ⟨memoryStore, "bucket".toList⟩ demoConfig
          ⟨some demoData, demoDelivery⟩ ["images/7/p1/100/a.png".toList]).2.1
        = [.download "http://src/a.png".toList none]
      ∧ putsAt "images/7/p1/600/a.png".toList
          (listenForJobs pngEnv remote ⟨memoryStore, "bucket".toList⟩ demoConfig
            ⟨some demoData, demoDelivery⟩ ["images/7/p1/100/a.png".toList]).2.1
        = [.put "bucket".toList "images/7/p1/600/a.png".toList [137, 80]
            "image/png".toList none] :=
  have hl : memoryStore.ListFiles "bucket".toList (tenantFolder demoConfig demoData)
      ["images/7/p1/100/a.png".toList]
      = ((["images/7/p1/100/a.png".toList], none), ["images/7/p1/100/a.png".toList]) := by
    decide
  have h := listenForJobs_one_of_two pngEnv remote ⟨memoryStore, "bucket".toList⟩ demoConfig
    demoData demoImage demoDelivery ["images/7/p1/100/a.png".toList]
    ["images/7/p1/100/a.png".toList] ["images/7/p1/100/a.png".toList] rfl (by decide) rfl rfl
    rfl rfl rfl rfl hl (by decide) (by decide) (by decide)
    (fun _ _ => ⟨[137, 80, 78, 71], rfl, by decide⟩) (fun _ _ _ _ _ => rfl)
    (fun b _ => ⟨[137, 80], congrArg Prod.fst (pngCodecs_scale b 600 600 (by decide!) rfl)⟩)
  ⟨rfl, by decide, hl, h.1.trans (by decide!), h.2.1, by decide!⟩

/-! ## Theorems: codec dispatch and the geometry errors -/

/-- The decoders of `pngCodecs` return no error at all. -/
theorem pngCodecs_library : pngCodecs.LibraryDecoders := by
  intro img e h
  simp [pngCodecs] at h
  rcases h with h | h <;> subst h <;> rfl

/-- C21: for a format token outside jpg, jpeg, png and webp `decodeImage` calls no decoder
and fails with an error that is the unsupported-file-type error; for jpg and jpeg it
returns what the JPEG decoder returns, for png what the PNG decoder returns, for webp what
the WebP decoder returns, and, the decoders being library code, an error it returns for a
token of the set is never the unsupported-file-type error. -/
theorem decodeImage_dispatch (codec : Codecs) (img : Bytes) (extension : Str)
    (hlib : codec.LibraryDecoders) :
    (extension ∉ decodableTokens →
      decodeImage codec img extension = (.error (unsupportedFileType extension), [])
        ∧ (unsupportedFileType extension).Is .errUnsupportedFileType = true)
    ∧ (extension = "jpg".toList ∨ extension = "jpeg".toList →
      decodeImage codec img extension
        = (codec.jpegDecode img, [.decode "jpeg".toList (errorOf (codec.jpegDecode img))]))
    ∧ (extension = "png".toList →
      decodeImage codec img extension
        = (codec.pngDecode img, [.decode "png".toList (errorOf (codec.pngDecode img))]))
    ∧ (extension = "webp".toList →
      decodeImage codec img extension
        = (codec.webpDecode img, [.decode "webp".toList (errorOf (codec.webpDecode img))]))
    ∧ (extension ∈ decodableTokens →
      ∀ e, (decodeImage codec img extension).1 = .error e →
        e.Is .errUnsupportedFileType = false) := by
  refine ⟨?_, ?_, ?_, ?_, ?_⟩
  · intro h
    simp only [decodableTokens, List.mem_cons, List.mem_singleton, List.not_mem_nil,
      or_false, not_or] at h
    refine ⟨?_, by simp [unsupportedFileType, Errorf, GoError.Is, GoError.ofSentinel]⟩
    simp only [decodeImage, h.1, h.2.1, h.2.2.1, h.2.2.2, or_self, if_false,
      unsupportedFileType]
  · intro h
    simp only [decodeImage, if_pos h]
  · intro h
    subst h
    rfl
  · intro h
    subst h
    rfl
  · intro h e he
    simp only [decodableTokens, List.mem_cons, List.mem_singleton, List.not_mem_nil,
      or_false] at h
    rcases h with h | h | h | h
    · simp only [decodeImage, if_pos (Or.inl h)] at he
      exact hlib img e (Or.inl he)
    · simp only [decodeImage, if_pos (Or.inr h)] at he
      exact hlib img e (Or.inl he)
    · subst h
      exact hlib img e (Or.inr (Or.inl he))
    · subst h
      exact hlib img e (Or.inr (Or.inr he))

/-- C21 at the codecs `pngCodecs`, the bytes `[1]` and the token `gif`. -/
theorem decodeImage_dispatch_witness :
    pngCodecs.LibraryDecoders
    ∧ decodeImage pngCodecs [1] "gif".toList
        = (.error (unsupportedFileType "gif".toList), []) :=
  ⟨pngCodecs_library,
    ((decodeImage_dispatch pngCodecs [1] "gif".toList pngCodecs_library).1 (by decide)).1⟩

/-- C22: for jpg and jpeg `encodeImage` returns what the JPEG encoder returns, for png
what the PNG encoder returns; for webp and for every other token it calls no encoder,
writes nothing and fails with an error that is the unsupported-file-type error. -/
theorem encodeImage_dispatch (codec : Codecs) (img : Raster) (extension : Str) :
    (extension = "jpg".toList ∨ extension = "jpeg".toList →
      encodeImage codec img extension
        = (((codec.jpegEncode img).2, (codec.jpegEncode img).1),
            [.encode "jpeg".toList (codec.jpegEncode img).2]))
    ∧ (extension = "png".toList →
      encodeImage codec img extension
        = (((codec.pngEncode img).2, (codec.pngEncode img).1),
            [.encode "png".toList (codec.pngEncode img).2]))
    ∧ (extension ∉ encodableTokens →
      encodeImage codec img extension = ((some (unsupportedFileType extension), []), [])
        ∧ (unsupportedFileType extension).Is .errUnsupportedFileType = true)
    ∧ "webp".toList ∉ encodableTokens := by
  refine ⟨?_, ?_, ?_, by decide⟩
  · intro h
    simp only [encodeImage, if_pos h]
  · intro h
    subst h
    rfl
  · intro h
    simp only [encodableTokens, List.mem_cons, List.mem_singleton, List.not_mem_nil,
      or_false, not_or] at h
    refine ⟨?_, by simp [unsupportedFileType, Errorf, GoError.Is, GoError.ofSentinel]⟩
    simp only [encodeImage, h.1, h.2.1, h.2.2, or_self, if_false, unsupportedFileType]

/-- C23: `calculateTargetDimensions` returns the no-dimensions error exactly when the
scale-max pointer and the crop dimensions are both nil, and no error otherwise. -/
theorem calculateTargetDimensions_error (scaleDimension : Option Int)
    (cropDimensions : Option Dimensions) (srcX srcY : Int) :
    ((calculateTargetDimensions scaleDimension cropDimensions srcX srcY).2.2
        = some (.ofSentinel .errNoDimensionsDefined)
      ↔ scaleDimension = none ∧ cropDimensions = none)
    ∧ ((calculateTargetDimensions scaleDimension cropDimensions srcX srcY).2.2 = none
      ↔ ¬ (scaleDimension = none ∧ cropDimensions = none)) := by
  cases cropDimensions with
  | some c =>
    by_cases hc : c.Y > c.X <;> by_cases hs : srcX > srcY <;>
      simp [calculateTargetDimensions, hc, hs]
  | none =>
    cases scaleDimension with
    | none => simp [calculateTargetDimensions]
    | some m => by_cases hs : srcX > srcY <;> simp [calculateTargetDimensions, hs]

/-- C24: `calculateMinXMaxYDimensions` and `calculateMinYMaxXDimensions` return the
dimensions `(0, 0)` with the no-dimensions error when the spec is nil or has both X and Y
zero, and no error for every other spec. -/
theorem calculateMinDimensions_error (spec : Option Dimensions) (srcX srcY : Int) :
    (if spec = none ∨ ∃ d, spec = some d ∧ d.X = 0 ∧ d.Y = 0 then
      calculateMinXMaxYDimensions spec srcX srcY
          = (0, 0, some (.ofSentinel .errNoDimensionsDefined))
        ∧ calculateMinYMaxXDimensions spec srcX srcY
          = (0, 0, some (.ofSentinel .errNoDimensionsDefined))
    else
      (calculateMinXMaxYDimensions spec srcX srcY).2.2 = none
        ∧ (calculateMinYMaxXDimensions spec srcX srcY).2.2 = none) := by
  cases spec with
  | none => simp [calculateMinXMaxYDimensions, calculateMinYMaxXDimensions]
  | some d =>
    by_cases hz : d.X = 0 ∧ d.Y = 0
    · have h : (some d = none ∨ ∃ d', some d = some d' ∧ d'.X = 0 ∧ d'.Y = 0) :=
        Or.inr ⟨d, rfl, hz⟩
      rw [if_pos h]
      simp only [calculateMinXMaxYDimensions, calculateMinYMaxXDimensions, if_pos hz,
        and_self]
    · have h : ¬ (some d = none ∨ ∃ d', some d = some d' ∧ d'.X = 0 ∧ d'.Y = 0) := by
        rintro (h | ⟨d', h, h0⟩)
        · exact absurd h (by simp)
        · cases h
          exact hz h0
      rw [if_neg h]
      simp only [calculateMinXMaxYDimensions, calculateMinYMaxXDimensions, if_neg hz,
        and_self]

/-! ## Theorems: the delete task in offload mode -/

/-- C28: the last task `listenForJobs` feeds for a job is the delete task, which has no
image spec and no manifest, and `callLambdaProcessJob` panics on it before it invokes
anything: it ranges over `job.ScaleDimensionMax`, a field of the nil image spec.  In
offload mode the round of a job with one path to delete and no image ends in that panic
and the path is not deleted. -/
theorem callLambdaProcessJob_delete_task {σ : Type} (lam : Offload σ) (cdnConfig : CDNConfig)
    (data : ImageProcessJobData) (manifest : List Str) (lambdaConfig : LambdaConfig) (s : σ) :
    (tasksOf data manifest).getLast? = some (deleteTask data.DeleteImages)
    ∧ callLambdaProcessJob lam cdnConfig (deleteTask data.DeleteImages) lambdaConfig s
      = (.panicked, [], deleteTask data.DeleteImages, s)
    ∧ listenForJobs pngEnv remote ⟨memoryStore, "bucket".toList⟩ offloadConfig
        ⟨some deleteOnlyData, demoDelivery⟩ ["images/7/p1/a.png".toList]
      = (.panicked, [.list "bucket".toList "images/7".toList none], [],
          ["images/7/p1/a.png".toList]) := by
  refine ⟨?_, rfl, ?_⟩
  · simp [tasksOf, deleteTask]
  · rfl

/-! ## Theorems: nil entries of a rendition list -/

/-- With a nil scale-max `scaleImage` never returns a rendition. -/
theorem scaleImage_nil (codec : Codecs) (img : Bytes) (extension : Str) :
    ∃ err t, scaleImage codec img none extension = (.returned (.error err), t) := by
  simp only [scaleImage]
  split
  · exact ⟨_, _, rfl⟩
  · simp [calculateTargetDimensions]

/-- With a nil spec `cropImage` returns an error. -/
theorem cropImage_nil (order : List (rgbaStruct × Nat) → List (rgbaStruct × Nat))
    (codec : Codecs) (img : Bytes) (extension : Str) :
    ∃ err t, cropImage order codec img none extension = (.returned (.error err), t) := by
  simp only [cropImage]
  split
  · exact ⟨_, _, rfl⟩
  · exact ⟨_, _, rfl⟩

/-- With a nil spec `cropImageMinXMaxY` returns an error. -/
theorem cropImageMinXMaxY_nil (order : List (rgbaStruct × Nat) → List (rgbaStruct × Nat))
    (codec : Codecs) (img : Bytes) (extension : Str) :
    ∃ err t, cropImageMinXMaxY order codec img none extension
      = (.returned (.error err), t) := by
  simp only [cropImageMinXMaxY]
  split
  · exact ⟨_, _, rfl⟩
  · exact ⟨_, _, rfl⟩

/-- With a nil spec `cropImageMinYMaxX` returns an error. -/
theorem cropImageMinYMaxX_nil (order : List (rgbaStruct × Nat) → List (rgbaStruct × Nat))
    (codec : Codecs) (img : Bytes) (extension : Str) :
    ∃ err t, cropImageMinYMaxX order codec img none extension
      = (.returned (.error err), t) := by
  simp only [cropImageMinYMaxX]
  split
  · exact ⟨_, _, rfl⟩
  · exact ⟨_, _, rfl⟩

/-- A handler called with a nil entry whose key, the key of the main image, the manifest
does not hold: it returns the error of a failed download, or it panics while it formats
the error of the renderer. -/
theorem handleSpec_nil {σ : Type} (env : Env σ) (imageJob : ImageJob) (image : ImageStruct)
    (cdnConfig : CDNConfig) (cdn : CdnStruct σ) (extension : Str) (sp : Spec) (img : Bytes)
    (s : σ) (hI : imageJob.ImageStruct = some image) (hnil : sp.dim = none)
    (hmiss : held imageJob.ImagesOnCdn (mainKey cdnConfig imageJob image) = false) :
    (handleSpec env imageJob cdnConfig cdn extension sp img s).1 = .panicked
      ∨ ∃ b e, (handleSpec env imageJob cdnConfig cdn extension sp img s).1
          = .returned (b, some e) := by
  have hm : ¬ ∃ m, imageJob.ImagesOnCdn = some m
      ∧ Join [cdnConfig.ImagesFolder,
          ImageSubPath [] (some imageJob.ShopID) image.ProductID none none none none
            image.Name] ∈ m := by
    intro h
    have := (held_iff imageJob.ImagesOnCdn (mainKey cdnConfig imageJob image)).2 h
    rw [hmiss] at this
    exact absurd this (by decide)
  cases sp with
  | scale d =>
    cases d with
    | some m => simp [Spec.dim] at hnil
    | none =>
      simp only [handleSpec, handleScaleImage, hI, if_neg hm]
      rcases obtainSource env image.URL img s with ⟨_ | b, t1, s1⟩
      · exact Or.inr ⟨_, _, rfl⟩
      · obtain ⟨err, t, h⟩ := scaleImage_nil env.codec b extension
        simp only [h]
        exact Or.inl trivial
  | crop d =>
    cases d with
    | some m => simp [Spec.dim] at hnil
    | none =>
      simp only [handleSpec, handleCropImage, hI, if_neg hm]
      rcases obtainSource env image.URL img s with ⟨_ | b, t1, s1⟩
      · exact Or.inr ⟨_, _, rfl⟩
      · obtain ⟨err, t, h⟩ := cropImage_nil env.mapOrder env.codec b extension
        simp only [h]
        exact Or.inl trivial
  | minXMaxY d =>
    cases d with
    | some m => simp [Spec.dim] at hnil
    | none =>
      simp only [handleSpec, handleMinXMaxYImage, hI, if_neg hm]
      rcases obtainSource env image.URL img s with ⟨_ | b, t1, s1⟩
      · exact Or.inr ⟨_, _, rfl⟩
      · obtain ⟨err, t, h⟩ := cropImageMinXMaxY_nil env.mapOrder env.codec b extension
        simp only [h]
        exact Or.inl trivial
  | minYMaxX d =>
    cases d with
    | some m => simp [Spec.dim] at hnil
    | none =>
      simp only [handleSpec, handleMinYMaxXImage, hI, if_neg hm]
      rcases obtainSource env image.URL img s with ⟨_ | b, t1, s1⟩
      · exact Or.inr ⟨_, _, rfl⟩
      · obtain ⟨err, t, h⟩ := cropImageMinYMaxX_nil env.mapOrder env.codec b extension
        simp only [h]
        exact Or.inl trivial

/-- A rendition loop whose first entry is nil and is not answered with a nil error
panics at that entry. -/
theorem renditionLoop_nil_head {σ α : Type} (handle : α → Bytes → σ → HandlerResult σ)
    (url : Str) (kind : Sentinel) (dim : α → Option Str) (d : α) (rest : List α)
    (img : Bytes) (errs : List ProcessImageError) (s : σ) (hd : dim d = none)
    (hr : (handle d img s).1 = .panicked ∨ ∃ b e, (handle d img s).1 = .returned (b, some e)) :
    (renditionLoop handle url kind dim (d :: rest) img errs s).1 = .panicked := by
  rcases hh : handle d img s with ⟨r, t, s1⟩
  rw [hh] at hr
  rcases hr with hr | ⟨b, e, hr⟩
  · simp only at hr
    subst hr
    simp only [renditionLoop, hh]
  · simp only at hr
    subst hr
    simp only [renditionLoop, hh, hd]

/-- C29: an image task whose first list entry is nil (a JSON `null`) panics whenever the
manifest does not hold the key of the main image, which is the key of a nil entry: the
handler panics while it formats the error of the renderer, or it returns the error of a
failed download and `processScaleImageJob` panics while it formats the dimensions of the
entry. -/
theorem processScaleImageJob_nil_entry {σ : Type} (env : Env σ) (cdn : CdnStruct σ)
    (imageJob : ImageJob) (image : ImageStruct) (cfg : Config)
    (collectedErrors : List ProcessImageError) (s : σ) (sp : Spec) (rest : List Spec)
    (hI : imageJob.ImageStruct = some image) (hsp : allSpecs image = sp :: rest)
    (hnil : sp.dim = none)
    (hmiss : held imageJob.ImagesOnCdn (mainKey cfg.CDN imageJob image) = false) :
    (processScaleImageJob env cdn imageJob cfg collectedErrors s).1 = .panicked := by
  have key : ∀ (sp1 : Spec) (img : Bytes) (s1 : σ), sp1 = sp →
      (handleSpec env imageJob cfg.CDN cdn imageJob.ImageExtension sp1 img s1).1 = .panicked
        ∨ ∃ b e, (handleSpec env imageJob cfg.CDN cdn imageJob.ImageExtension sp1 img s1).1
            = .returned (b, some e) := by
    intro sp1 img s1 h
    subst h
    exact handleSpec_nil env imageJob image cfg.CDN cdn imageJob.ImageExtension sp1 img s1 hI
      hnil hmiss
  simp only [processScaleImageJob, hI]
  rcases UploadMainProductImageToCDN env cdn (some imageJob.ShopID) image.ProductID
    image.Name cfg.CDN.ImagesFolder image.URL [] imageJob.ImagesOnCdn s with ⟨⟨img, err⟩, t0, s0⟩
  simp only
  cases h1 : image.ScaleDimensionMax with
  | cons d r =>
    have hsp1 : Spec.scale d = sp := by
      simp only [allSpecs, h1, List.map_cons, List.cons_append] at hsp
      exact (List.cons.inj hsp).1
    have hp := fun errs0 => renditionLoop_nil_head
      (fun d img s => handleScaleImage env imageJob cfg.CDN d img cdn imageJob.ImageExtension s)
      image.URL .errScalingImage (Option.map Itoa) d r img errs0 s0
      (by rw [← hsp1] at hnil; exact hnil) (key (.scale d) img s0 hsp1)
    split
    · rfl
    · rename_i heq
      exact absurd ((hp _).symm.trans (congrArg Prod.fst heq)) (by simp)
  | nil =>
    simp only [renditionLoop]
    cases h2 : image.CropDimensions with
    | cons d r =>
      have hsp1 : Spec.crop d = sp := by
        simp only [allSpecs, h1, h2, List.map_nil, List.nil_append, List.map_cons,
          List.cons_append] at hsp
        exact (List.cons.inj hsp).1
      have hp := fun errs0 => renditionLoop_nil_head
        (fun d img s => handleCropImage env imageJob cfg.CDN d img cdn imageJob.ImageExtension s)
        image.URL .errCropImage (Option.map sprintfDims) d r img errs0 s0
        (by rw [← hsp1] at hnil; exact hnil) (key (.crop d) img s0 hsp1)
      split
      · rfl
      · rename_i heq
        exact absurd ((hp _).symm.trans (congrArg Prod.fst heq)) (by simp)
    | nil =>
      simp only [renditionLoop]
      cases h3 : image.MinXMaxY with
      | cons d r =>
        have hsp1 : Spec.minXMaxY d = sp := by
          simp only [allSpecs, h1, h2, h3, List.map_nil, List.nil_append, List.map_cons,
            List.cons_append] at hsp
          exact (List.cons.inj hsp).1
        have hp := fun errs0 => renditionLoop_nil_head
          (fun d img s =>
            handleMinXMaxYImage env imageJob cfg.CDN d img cdn imageJob.ImageExtension s)
          image.URL .errMinXMaxY (Option.map sprintfDims) d r img errs0 s0
          (by rw [← hsp1] at hnil; exact hnil) (key (.minXMaxY d) img s0 hsp1)
        split
        · rfl
        · rename_i heq
          exact absurd ((hp _).symm.trans (congrArg Prod.fst heq)) (by simp)
      | nil =>
        simp only [renditionLoop]
        cases h4 : image.MinYMaxX with
        | cons d r =>
          have hsp1 : Spec.minYMaxX d = sp := by
            simp only [allSpecs, h1, h2, h3, h4, List.map_nil, List.nil_append, List.map_cons,
              List.cons_append] at hsp
            exact (List.cons.inj hsp).1
          have hp := fun errs0 => renditionLoop_nil_head
            (fun d img s =>
              handleMinYMaxXImage env imageJob cfg.CDN d img cdn imageJob.ImageExtension s)
            image.URL .errMinYMaxX (Option.map sprintfDims) d r img errs0 s0
            (by rw [← hsp1] at hnil; exact hnil) (key (.minYMaxX d) img s0 hsp1)
          split
          · rfl
          · rename_i heq
            exact absurd ((hp _).symm.trans (congrArg Prod.fst heq)) (by simp)
        | nil =>
          simp [allSpecs, h1, h2, h3, h4] at hsp

/-- C29 at the task of tenant 7 with an empty manifest whose scale list is `[null]`: the
main image is stored, then the task panics. -/
theorem processScaleImageJob_nil_entry_witness :
    (taskOf nullScaleImage).ImageStruct = some nullScaleImage
    ∧ allSpecs nullScaleImage = [.scale none]
    ∧ (Spec.scale none).dim = none
    ∧ held (taskOf nullScaleImage).ImagesOnCdn
        (mainKey demoConfig.CDN (taskOf nullScaleImage) nullScaleImage) = false
    ∧ (processScaleImageJob pngEnv ⟨memoryStore, "bucket".toList⟩ (taskOf nullScaleImage)
        demoConfig [] []).1 = .panicked :=
  ⟨rfl, rfl, rfl, by decide,
    processScaleImageJob_nil_entry pngEnv ⟨memoryStore, "bucket".toList⟩
      (taskOf nullScaleImage) nullScaleImage demoConfig [] [] (.scale none) [] rfl rfl rfl
      (by decide)⟩

/-! ## Theorems: a WebP source without a default output format -/

theorem encodeImage_webp (codec : Codecs) (img : Raster) :
    encodeImage codec img "webp".toList
      = ((some (unsupportedFileType "webp".toList), []), []) := rfl

theorem decodeImage_webp (codec : Codecs) (img : Bytes) :
    decodeImage codec img "webp".toList
      = (codec.webpDecode img, [.decode "webp".toList (errorOf (codec.webpDecode img))]) := rfl

/-- For a source detected as WebP and an empty output format, `scaleImage` returns no
rendition. -/
theorem scaleImage_webp (codec : Codecs) (img : Bytes) (d : Option Int)
    (hwebp : detectedWebp codec img) :
    ∀ out, (scaleImage codec img d []).1 ≠ .returned (.ok out) := by
  intro out
  unfold detectedWebp at hwebp
  simp only [scaleImage, hwebp, if_true, decodeImage_webp, encodeImage_webp]
  split
  · simp
  · split
    · simp
    · split <;> simp

/-- For a source detected as WebP and an empty output format, `cropImage` returns no
rendition. -/
theorem cropImage_webp (order : List (rgbaStruct × Nat) → List (rgbaStruct × Nat))
    (codec : Codecs) (img : Bytes) (d : Option Dimensions) (hwebp : detectedWebp codec img) :
    ∀ out, (cropImage order codec img d []).1 ≠ .returned (.ok out) := by
  intro out
  unfold detectedWebp at hwebp
  simp only [cropImage, hwebp, if_true, decodeImage_webp, encodeImage_webp]
  split
  · simp
  · split
    · simp
    · split
      · simp
      · split
        · simp
        · split <;> simp

/-- For a source detected as WebP and an empty output format, `cropImageMinXMaxY`
returns no rendition. -/
theorem cropImageMinXMaxY_webp (order : List (rgbaStruct × Nat) → List (rgbaStruct × Nat))
    (codec : Codecs) (img : Bytes) (d : Option Dimensions) (hwebp : detectedWebp codec img) :
    ∀ out, (cropImageMinXMaxY order codec img d []).1 ≠ .returned (.ok out) := by
  intro out
  unfold detectedWebp at hwebp
  simp only [cropImageMinXMaxY, hwebp, if_true, decodeImage_webp, encodeImage_webp]
  split
  · simp
  · split
    · simp
    · split
      · simp
      · split
        · simp
        · split <;> simp

/-- For a source detected as WebP and an empty output format, `cropImageMinYMaxX`
returns no rendition. -/
theorem cropImageMinYMaxX_webp (order : List (rgbaStruct × Nat) → List (rgbaStruct × Nat))
    (codec : Codecs) (img : Bytes) (d : Option Dimensions) (hwebp : detectedWebp codec img) :
    ∀ out, (cropImageMinYMaxX order codec img d []).1 ≠ .returned (.ok out) := by
  intro out
  unfold detectedWebp at hwebp
  simp only [cropImageMinYMaxX, hwebp, if_true, decodeImage_webp, encodeImage_webp]
  split
  · simp
  · split
    · simp
    · split
      · simp
      · split
        · simp
        · split <;> simp

theorem obtainSource_no_put {σ : Type} (env : Env σ) (url : Str) (img : Bytes) (s : σ) :
    ∀ e ∈ (obtainSource env url img s).2.1, e.isPut = false := by
  intro e he
  by_cases h : img.length = 0
  · obtain ⟨err, ht⟩ := (obtainSource_trace env url img s).1 h
    rw [ht] at he
    simp at he
    subst he
    rfl
  · rw [(obtainSource_trace env url img s).2 h] at he
    simp at he

theorem no_put_append (t1 t2 : List Event) (h1 : ∀ e ∈ t1, e.isPut = false) (h2 : Quiet t2) :
    ∀ e ∈ t1 ++ t2, e.isPut = false := by
  intro e he
  rcases List.mem_append.mp he with he | he
  · exact h1 e he
  · exact (h2 e he).2

/-- A handler called without a default output format whose source is detected as WebP
makes no put. -/
theorem handleSpec_webp_no_put {σ : Type} (env : Env σ) (imageJob : ImageJob)
    (image : ImageStruct) (cdnConfig : CDNConfig) (cdn : CdnStruct σ) (sp : Spec)
    (img0 : Bytes) (s : σ) (hI : imageJob.ImageStruct = some image)
    (hsrc : ∀ b t1 s1, obtainSource env image.URL img0 s = (.ok b, t1, s1) →
      detectedWebp env.codec b) :
    ∀ e ∈ (handleSpec env imageJob cdnConfig cdn [] sp img0 s).2.1, e.isPut = false := by
  have hos := obtainSource_no_put env image.URL img0 s
  cases sp with
  | scale d =>
    simp only [handleSpec, handleScaleImage, hI]
    split_ifs
    · simp
    · rcases hob : obtainSource env image.URL img0 s with ⟨_ | b, t1, s1⟩
      · rw [hob] at hos
        exact hos
      · rw [hob] at hos
        have hw := scaleImage_webp env.codec b d (hsrc b t1 s1 hob)
        have hq := scaleImage_quiet env.codec b d []
        simp only
        rcases hr : scaleImage env.codec b d [] with ⟨(err | out) | _, t2⟩
        · rw [hr] at hq
          simp only
          split <;> exact no_put_append t1 t2 hos hq
        · rw [hr] at hw
          exact absurd rfl (hw out)
        · rw [hr] at hq
          exact no_put_append t1 t2 hos hq
  | crop d =>
    simp only [handleSpec, handleCropImage, hI]
    split_ifs
    · simp
    · rcases hob : obtainSource env image.URL img0 s with ⟨_ | b, t1, s1⟩
      · rw [hob] at hos
        exact hos
      · rw [hob] at hos
        have hw := cropImage_webp env.mapOrder env.codec b d (hsrc b t1 s1 hob)
        have hq := cropImage_quiet env.mapOrder env.codec b d []
        simp only
        rcases hr : cropImage env.mapOrder env.codec b d [] with ⟨(err | out) | _, t2⟩
        · rw [hr] at hq
          simp only
          split <;> exact no_put_append t1 t2 hos hq
        · rw [hr] at hw
          exact absurd rfl (hw out)
        · rw [hr] at hq
          exact no_put_append t1 t2 hos hq
  | minXMaxY d =>
    simp only [handleSpec, handleMinXMaxYImage, hI]
    split_ifs
    · simp
    · rcases hob : obtainSource env image.URL img0 s with ⟨_ | b, t1, s1⟩
      · rw [hob] at hos
        exact hos
      · rw [hob] at hos
        have hw := cropImageMinXMaxY_webp env.mapOrder env.codec b d (hsrc b t1 s1 hob)
        have hq := cropImageMinXMaxY_quiet env.mapOrder env.codec b d []
        simp only
        rcases hr : cropImageMinXMaxY env.mapOrder env.codec b d [] with ⟨(err | out) | _, t2⟩
        · rw [hr] at hq
          simp only
          split <;> exact no_put_append t1 t2 hos hq
        · rw [hr] at hw
          exact absurd rfl (hw out)
        · rw [hr] at hq
          exact no_put_append t1 t2 hos hq
  | minYMaxX d =>
    simp only [handleSpec, handleMinYMaxXImage, hI]
    split_ifs
    · simp
    · rcases hob : obtainSource env image.URL img0 s with ⟨_ | b, t1, s1⟩
      · rw [hob] at hos
        exact hos
      · rw [hob] at hos
        have hw := cropImageMinYMaxX_webp env.mapOrder env.codec b d (hsrc b t1 s1 hob)
        have hq := cropImageMinYMaxX_quiet env.mapOrder env.codec b d []
        simp only
        rcases hr : cropImageMinYMaxX env.mapOrder env.codec b d [] with ⟨(err | out) | _, t2⟩
        · rw [hr] at hq
          simp only
          split <;> exact no_put_append t1 t2 hos hq
        · rw [hr] at hw
          exact absurd rfl (hw out)
        · rw [hr] at hq
          exact no_put_append t1 t2 hos hq

/-- The renderers on a source detected as WebP that the decoder cannot read. -/
theorem renderers_webp_undecoded (order : List (rgbaStruct × Nat) → List (rgbaStruct × Nat))
    (codec : Codecs) (img : Bytes) (e : GoError) (hwebp : detectedWebp codec img)
    (hdec : codec.webpDecode img = .error e) :
    (∀ d, scaleImage codec img d []
        = (.returned (.error e), [.decode "webp".toList (some e)]))
    ∧ (∀ d, cropImage order codec img d []
        = (.returned (.error e), [.decode "webp".toList (some e)]))
    ∧ (∀ d, cropImageMinXMaxY order codec img d []
        = (.returned (.error e), [.decode "webp".toList (some e)]))
    ∧ (∀ d, cropImageMinYMaxX order codec img d []
        = (.returned (.error e), [.decode "webp".toList (some e)])) := by
  unfold detectedWebp at hwebp
  refine ⟨?_, ?_, ?_, ?_⟩ <;> intro d
  · simp only [scaleImage, hwebp, decodeImage_webp, hdec, errorOf]
  · simp only [cropImage, hwebp, decodeImage_webp, hdec, errorOf]
  · simp only [cropImageMinXMaxY, hwebp, decodeImage_webp, hdec, errorOf]
  · simp only [cropImageMinYMaxX, hwebp, decodeImage_webp, hdec, errorOf]

/-- The renderers on a decoded source detected as WebP, for a spec without dimensions. -/
theorem renderers_webp_no_dimensions
    (order : List (rgbaStruct × Nat) → List (rgbaStruct × Nat))
    (codec : Codecs) (img : Bytes) (src : Image) (hwebp : detectedWebp codec img)
    (hdec : codec.webpDecode img = .ok src) :
    scaleImage codec img none []
        = (.returned (.error (.ofSentinel .errNoDimensionsDefined)),
            [.decode "webp".toList none])
    ∧ cropImage order codec img none []
        = (.returned (.error (.ofSentinel .errNoDimensionsDefined)),
            [.decode "webp".toList none])
    ∧ (∀ d : Option Dimensions, (d = none ∨ ∃ m, d = some m ∧ m.X = 0 ∧ m.Y = 0) →
        cropImageMinXMaxY order codec img d []
            = (.returned (.error (.ofSentinel .errNoDimensionsDefined)),
                [.decode "webp".toList none])
          ∧ cropImageMinYMaxX order codec img d []
            = (.returned (.error (.ofSentinel .errNoDimensionsDefined)),
                [.decode "webp".toList none])) := by
  unfold detectedWebp at hwebp
  refine ⟨?_, ?_, ?_⟩
  · simp only [scaleImage, hwebp, decodeImage_webp, hdec, errorOf, calculateTargetDimensions]
  · simp only [cropImage, hwebp, decodeImage_webp, hdec, errorOf]
  · rintro d (rfl | ⟨m, rfl, hz⟩)
    · constructor
      · simp only [cropImageMinXMaxY, hwebp, decodeImage_webp, hdec, errorOf]
      · simp only [cropImageMinYMaxX, hwebp, decodeImage_webp, hdec, errorOf]
    · constructor
      · simp only [cropImageMinXMaxY, hwebp, decodeImage_webp, hdec, errorOf,
          cropImageMinXMaxYGeometry, calculateMinXMaxYDimensions, if_pos hz]
      · simp only [cropImageMinYMaxX, hwebp, decodeImage_webp, hdec, errorOf,
          cropImageMinYMaxXGeometry, calculateMinYMaxXDimensions, if_pos hz]

/-- The renderers on a decoded source detected as WebP, for a spec with dimensions and
no output format: a panic where the scaled image or the canvas is allocated, else the
error of `encodeImage` for the token webp. -/
theorem renderers_webp_encode (order : List (rgbaStruct × Nat) → List (rgbaStruct × Nat))
    (codec : Codecs) (img : Bytes) (src : Image) (hwebp : detectedWebp codec img)
    (hdec : codec.webpDecode img = .ok src) :
    (∀ m x y, calculateTargetDimensions (some m) none src.maxX src.maxY = (x, y, none) →
      scaleImage codec img (some m) []
        = (if allocates (Rect 0 0 x y) = true
            then .returned (.error (unsupportedFileType "webp".toList)) else .panicked,
          [.decode "webp".toList none]))
    ∧ (∀ c g, cropImageGeometry c src.maxX src.maxY = .ok g →
      cropImage order codec img (some c) []
        = (if allocates g.shrunk = true ∧ allocates g.result = true
            then .returned (.error (unsupportedFileType "webp".toList)) else .panicked,
          [.decode "webp".toList none]))
    ∧ (∀ d g, cropImageMinXMaxYGeometry d src.maxX src.maxY = .ok g →
      cropImageMinXMaxY order codec img (some d) []
        = (if allocates g.shrunk = true ∧ allocates g.result = true
            then .returned (.error (unsupportedFileType "webp".toList)) else .panicked,
          [.decode "webp".toList none]))
    ∧ (∀ d g, cropImageMinYMaxXGeometry d src.maxX src.maxY = .ok g →
      cropImageMinYMaxX order codec img (some d) []
        = (if allocates g.shrunk = true ∧ allocates g.result = true
            then .returned (.error (unsupportedFileType "webp".toList)) else .panicked,
          [.decode "webp".toList none])) := by
  unfold detectedWebp at hwebp
  refine ⟨?_, ?_, ?_, ?_⟩
  · intro m x y hdim
    simp only [scaleImage, hwebp, if_true, decodeImage_webp, encodeImage_webp, hdec, hdim,
      errorOf, List.append_nil]
    cases allocates (Rect 0 0 x y) <;> simp
  · intro c g hg
    simp only [cropImage, hwebp, if_true, decodeImage_webp, encodeImage_webp, hdec, hg,
      errorOf, List.append_nil]
    cases allocates g.shrunk <;> cases allocates g.result <;> simp
  · intro d g hg
    simp only [cropImageMinXMaxY, hwebp, if_true, decodeImage_webp, encodeImage_webp, hdec,
      hg, errorOf, List.append_nil]
    cases allocates g.shrunk <;> cases allocates g.result <;> simp
  · intro d g hg
    simp only [cropImageMinYMaxX, hwebp, if_true, decodeImage_webp, encodeImage_webp, hdec,
      hg, errorOf, List.append_nil]
    cases allocates g.shrunk <;> cases allocates g.result <;> simp

theorem calculateTargetDimensions_crop (c : Dimensions) (sx sy : Int) :
    (calculateTargetDimensions none (some c) sx sy).2.2 = none := by
  by_cases hc : c.Y > c.X <;> by_cases hs : sx > sy <;>
    simp [calculateTargetDimensions, hc, hs]

theorem calculateTargetDimensions_some (m : Int) (sx sy : Int) :
    (calculateTargetDimensions (some m) none sx sy).2.2 = none := by
  by_cases hs : sx > sy <;> simp [calculateTargetDimensions, hs]

/-- The specs that have dimensions: every non-nil scale-max and crop, and every non-nil
minXMaxY and minYMaxX other than `(0, 0)`. -/
theorem renderers_have_dimensions (sx sy : Int) :
    (∀ m, ∃ x y, calculateTargetDimensions (some m) none sx sy = (x, y, none))
    ∧ (∀ c, ∃ g, cropImageGeometry c sx sy = .ok g)
    ∧ (∀ d : Dimensions, ¬ (d.X = 0 ∧ d.Y = 0) →
      (∃ g, cropImageMinXMaxYGeometry d sx sy = .ok g)
        ∧ ∃ g, cropImageMinYMaxXGeometry d sx sy = .ok g) := by
  refine ⟨?_, ?_, ?_⟩
  · intro m
    have h := calculateTargetDimensions_some m sx sy
    rcases hd : calculateTargetDimensions (some m) none sx sy with ⟨x, y, e⟩
    rw [hd] at h
    simp only at h
    subst h
    exact ⟨x, y, rfl⟩
  · intro c
    have h := calculateTargetDimensions_crop c sx sy
    rcases hd : calculateTargetDimensions none (some c) sx sy with ⟨x, y, e⟩
    rw [hd] at h
    simp only at h
    subst h
    rcases hg : cropImageGeometry c sx sy with e | g
    · simp [cropImageGeometry, hd] at hg
    · exact ⟨g, rfl⟩
  · intro d hz
    constructor
    · rcases hg : cropImageMinXMaxYGeometry d sx sy with e | g
      · simp [cropImageMinXMaxYGeometry, calculateMinXMaxYDimensions, hz] at hg
      · exact ⟨g, rfl⟩
    · rcases hg : cropImageMinYMaxXGeometry d sx sy with e | g
      · simp [cropImageMinYMaxXGeometry, calculateMinYMaxXDimensions, hz] at hg
      · exact ⟨g, rfl⟩

/-- C30, as the code has it: for a source whose detected format is webp and an empty
default output format, none of `scaleImage`, `cropImage`, `cropImageMinXMaxY` and
`cropImageMinYMaxX` returns a rendition, whatever the spec, and a handler that obtains
that source makes no put.  A renderer that reaches `encodeImage` fails with the
unsupported-file-type error of the token webp; it reaches it when the WebP decoder
decodes the source, the spec has dimensions (every non-nil scale-max and crop has, and
every non-nil minXMaxY and minYMaxX other than `(0, 0)`), and `image.NewRGBA` and
`image.NewNRGBA` allocate the scaled image and the canvas.  Otherwise it ends before: with the error of
the decoder when the source does not decode; else with the no-dimensions error when the
spec is nil or, for minXMaxY and minYMaxX, `(0, 0)`; else with the panic of the
allocation. -/
theorem renderers_webp_source (order : List (rgbaStruct × Nat) → List (rgbaStruct × Nat))
    (codec : Codecs) (img : Bytes) (hwebp : detectedWebp codec img) :
    ((∀ d out, (scaleImage codec img d []).1 ≠ .returned (.ok out))
      ∧ (∀ d out, (cropImage order codec img d []).1 ≠ .returned (.ok out))
      ∧ (∀ d out, (cropImageMinXMaxY order codec img d []).1 ≠ .returned (.ok out))
      ∧ (∀ d out, (cropImageMinYMaxX order codec img d []).1 ≠ .returned (.ok out)))
    ∧ (∀ (σ : Type) (env : Env σ) (imageJob : ImageJob) (image : ImageStruct)
        (cdnConfig : CDNConfig) (cdn : CdnStruct σ) (sp : Spec) (img0 : Bytes) (s : σ)
        (t1 : List Event) (s1 : σ),
        env.codec = codec → imageJob.ImageStruct = some image →
        obtainSource env image.URL img0 s = (.ok img, t1, s1) →
        ∀ e ∈ (handleSpec env imageJob cdnConfig cdn [] sp img0 s).2.1, e.isPut = false)
    ∧ (∀ e, codec.webpDecode img = .error e →
        (∀ d, scaleImage codec img d []
            = (.returned (.error e), [.decode "webp".toList (some e)]))
        ∧ (∀ d, cropImage order codec img d []
            = (.returned (.error e), [.decode "webp".toList (some e)]))
        ∧ (∀ d, cropImageMinXMaxY order codec img d []
            = (.returned (.error e), [.decode "webp".toList (some e)]))
        ∧ (∀ d, cropImageMinYMaxX order codec img d []
            = (.returned (.error e), [.decode "webp".toList (some e)])))
    ∧ (∀ src, codec.webpDecode img = .ok src →
        (scaleImage codec img none []
            = (.returned (.error (.ofSentinel .errNoDimensionsDefined)),
                [.decode "webp".toList none])
          ∧ cropImage order codec img none []
            = (.returned (.error (.ofSentinel .errNoDimensionsDefined)),
                [.decode "webp".toList none])
          ∧ (∀ d : Option Dimensions, (d = none ∨ ∃ m, d = some m ∧ m.X = 0 ∧ m.Y = 0) →
            cropImageMinXMaxY order codec img d []
                = (.returned (.error (.ofSentinel .errNoDimensionsDefined)),
                    [.decode "webp".toList none])
              ∧ cropImageMinYMaxX order codec img d []
                = (.returned (.error (.ofSentinel .errNoDimensionsDefined)),
                    [.decode "webp".toList none])))
        ∧ ((∀ m, ∃ x y,
              calculateTargetDimensions (some m) none src.maxX src.maxY = (x, y, none))
          ∧ (∀ c, ∃ g, cropImageGeometry c src.maxX src.maxY = .ok g)
          ∧ (∀ d : Dimensions, ¬ (d.X = 0 ∧ d.Y = 0) →
            (∃ g, cropImageMinXMaxYGeometry d src.maxX src.maxY = .ok g)
              ∧ ∃ g, cropImageMinYMaxXGeometry d src.maxX src.maxY = .ok g))
        ∧ (∀ m x y, calculateTargetDimensions (some m) none src.maxX src.maxY = (x, y, none) →
          scaleImage codec img (some m) []
            = (if allocates (Rect 0 0 x y) = true
                then .returned (.error (unsupportedFileType "webp".toList)) else .panicked,
              [.decode "webp".toList none]))
        ∧ (∀ c g, cropImageGeometry c src.maxX src.maxY = .ok g →
          cropImage order codec img (some c) []
            = (if allocates g.shrunk = true ∧ allocates g.result = true
                then .returned (.error (unsupportedFileType "webp".toList)) else .panicked,
              [.decode "webp".toList none]))
        ∧ (∀ d g, cropImageMinXMaxYGeometry d src.maxX src.maxY = .ok g →
          cropImageMinXMaxY order codec img (some d) []
            = (if allocates g.shrunk = true ∧ allocates g.result = true
                then .returned (.error (unsupportedFileType "webp".toList)) else .panicked,
              [.decode "webp".toList none]))
        ∧ (∀ d g, cropImageMinYMaxXGeometry d src.maxX src.maxY = .ok g →
          cropImageMinYMaxX order codec img (some d) []
            = (if allocates g.shrunk = true ∧ allocates g.result = true
                then .returned (.error (unsupportedFileType "webp".toList)) else .panicked,
              [.decode "webp".toList none])))
    ∧ (unsupportedFileType "webp".toList).Is .errUnsupportedFileType = true := by
  refine ⟨⟨fun d => scaleImage_webp codec img d hwebp,
      fun d => cropImage_webp order codec img d hwebp,
      fun d => cropImageMinXMaxY_webp order codec img d hwebp,
      fun d => cropImageMinYMaxX_webp order codec img d hwebp⟩, ?_, ?_, ?_, by decide⟩
  · intro σ env imageJob image cdnConfig cdn sp img0 s t1 s1 hc hI hob
    apply handleSpec_webp_no_put env imageJob image cdnConfig cdn sp img0 s hI
    intro b t1' s1' hob'
    rw [hob] at hob'
    simp only [Prod.mk.injEq, Except.ok.injEq] at hob'
    rw [← hob'.1, hc]
    exact hwebp
  · intro e hdec
    exact renderers_webp_undecoded order codec img e hwebp hdec
  · intro src hdec
    obtain ⟨e1, e2, e3, e4⟩ := renderers_webp_encode order codec img src hwebp hdec
    exact ⟨renderers_webp_no_dimensions order codec img src hwebp hdec,
      renderers_have_dimensions src.maxX src.maxY, e1, e2, e3, e4⟩

/-- C30 at the codecs `webpCodecs` and a source of four bytes: the scale rendition 100
of the `10 x 10` source, of size `(100, 100)`, fails in `encodeImage`. -/
theorem renderers_webp_source_witness :
    detectedWebp webpCodecs [82, 73, 70, 70]
    ∧ scaleImage webpCodecs [82, 73, 70, 70] (some 100) []
      = (.returned (.error (unsupportedFileType "webp".toList)),
          [.decode "webp".toList none]) :=
  ⟨rfl,
    ((renderers_webp_source id webpCodecs [82, 73, 70, 70] rfl).2.2.2.1 _ rfl).2.2.1 100 100
      100 (by decide!)⟩

/-- C30 fails as stated: a source detected as WebP that the WebP decoder cannot read makes
`scaleImage` and `cropImage` fail with the error of the decoder; on a source it can read
a nil scale-max makes `scaleImage` fail with the no-dimensions error, and the scale-max
2000000000 makes it panic where it allocates the scaled image; none of these is the
unsupported-file-type error. -/
theorem scaleImage_truncated_webp :
    detectedWebp truncatedWebpCodecs [82, 73, 70, 70]
    ∧ scaleImage truncatedWebpCodecs [82, 73, 70, 70] (some 100) []
      = (.returned (.error ⟨"unexpected EOF".toList, []⟩),
          [.decode "webp".toList (some ⟨"unexpected EOF".toList, []⟩)])
    ∧ cropImage id truncatedWebpCodecs [82, 73, 70, 70] (some ⟨100, 100⟩) []
      = (.returned (.error ⟨"unexpected EOF".toList, []⟩),
          [.decode "webp".toList (some ⟨"unexpected EOF".toList, []⟩)])
    ∧ GoError.Is ⟨"unexpected EOF".toList, []⟩ .errUnsupportedFileType = false
    ∧ detectedWebp webpCodecs [82, 73, 70, 70]
    ∧ scaleImage webpCodecs [82, 73, 70, 70] none []
      = (.returned (.error (.ofSentinel .errNoDimensionsDefined)),
          [.decode "webp".toList none])
    ∧ (GoError.ofSentinel .errNoDimensionsDefined).Is .errUnsupportedFileType = false
    ∧ scaleImage webpCodecs [82, 73, 70, 70] (some 2000000000) []
      = (.panicked, [.decode "webp".toList none]) := by
  refine ⟨rfl, rfl, rfl, by decide, rfl, rfl, by decide, by decide!⟩

/-! ## Theorems: the composited pixels of a crop -/

theorem Point.In_iff (p : Point) (r : Rectangle) :
    p.In r = true ↔ r.Min.X ≤ p.X ∧ p.X < r.Max.X ∧ r.Min.Y ≤ p.Y ∧ p.Y < r.Max.Y := by
  simp [Point.In]

/-- A point is in the intersection of two rectangles exactly when it is in both. -/
theorem Point.In_Intersect (p : Point) (r s : Rectangle) :
    p.In (r.Intersect s) = true ↔ p.In r = true ∧ p.In s = true := by
  simp only [Rectangle.Intersect, Rectangle.Empty]
  split_ifs with h1 h2 h3 h4 h5 <;>
    simp only [Point.In_iff, ZR, decide_eq_true_eq, ge_iff_le] at * <;> omega

/-- The pixels `draw.Draw` composites onto are those of the destination, of the rectangle
it is handed and of the source moved to the corner of that rectangle. -/
theorem Composite.drawn_iff (g : Composite) (p : Point) :
    p.In g.drawn = true
      ↔ p.In g.result = true ∧ p.In g.container = true
        ∧ p.In (g.shrunk.Add g.container.Min) = true := by
  have h : g.drawn
      = (g.container.Intersect g.result).Intersect (g.shrunk.Add g.container.Min) := by
    simp only [Composite.drawn, clip, Point.Sub, sub_zero]
    split_ifs <;> rfl
  rw [h, Point.In_Intersect, Point.In_Intersect]
  tauto

/-- C25, as the code has it: for every source and every crop `(Cx, Cy)`, with `(w, h)` the
size of the scaled image and `(ox, oy) = ((Cx-w)/2, (Cy-h)/2)`, the canvas pixels onto
which `cropImage` composites the scaled image are exactly those of the `Cx` by `Cy` canvas
that lie in the placement rectangle `[ox, ox+Cx) x [oy, oy+Cy)` handed to `draw.Draw` and
in the bounds of the scaled image moved to `(ox, oy)`.  When the scaled image is no larger
than the canvas, `0 ≤ w ≤ Cx` and `0 ≤ h ≤ Cy`, these are the pixels of the canvas in the
centred rectangle `[ox, ox+w) x [oy, oy+h)`.  A `(2000, 1000)` source cropped to
`(500, 500)` is composited exactly at `(0,125)-(500,375)`. -/
theorem cropImage_composited (c : Dimensions) (srcX srcY w h : Int)
    (hdim : calculateTargetDimensions none (some c) srcX srcY = (w, h, none)) :
    (∃ g, cropImageGeometry c srcX srcY = .ok g
      ∧ (∀ p : Point, p.In g.drawn = true ↔
          p.In ⟨⟨0, 0⟩, ⟨c.X, c.Y⟩⟩ = true
          ∧ p.In ⟨⟨(c.X - w).tdiv 2, (c.Y - h).tdiv 2⟩,
              ⟨c.X + (c.X - w).tdiv 2, c.Y + (c.Y - h).tdiv 2⟩⟩ = true
          ∧ p.In ((Rect 0 0 w h).Add ⟨(c.X - w).tdiv 2, (c.Y - h).tdiv 2⟩) = true)
      ∧ (0 ≤ w ∧ w ≤ c.X ∧ 0 ≤ h ∧ h ≤ c.Y →
          ∀ p : Point, p.In g.drawn = true ↔
            p.In ⟨⟨0, 0⟩, ⟨c.X, c.Y⟩⟩ = true
            ∧ p.In ⟨⟨(c.X - w).tdiv 2, (c.Y - h).tdiv 2⟩,
                ⟨(c.X - w).tdiv 2 + w, (c.Y - h).tdiv 2 + h⟩⟩ = true))
    ∧ (cropImageGeometry ⟨500, 500⟩ 2000 1000).map Composite.drawn
        = .ok ⟨⟨0, 125⟩, ⟨500, 375⟩⟩ := by
  have hg : cropImageGeometry c srcX srcY = .ok {
      shrunk := Rect 0 0 w h
      container := ⟨⟨(c.X - w).tdiv 2, (c.Y - h).tdiv 2⟩,
        ⟨c.X + (c.X - w).tdiv 2, c.Y + (c.Y - h).tdiv 2⟩⟩
      result := ⟨⟨0, 0⟩, ⟨c.X, c.Y⟩⟩ } := by
    simp only [cropImageGeometry, hdim]
  have h3 : calculateTargetDimensions none (some ⟨500, 500⟩) 2000 1000 = (500, 250, none) := by
    decide
  refine ⟨⟨_, hg, ?_, ?_⟩, by rw [cropImageGeometry, h3]; decide⟩
  · intro p
    rw [Composite.drawn_iff]
  · rintro ⟨hw0, hw, hh0, hh⟩ p
    rw [Composite.drawn_iff]
    have hr : Rect 0 0 w h = ⟨⟨0, 0⟩, ⟨w, h⟩⟩ := by
      simp only [Rect, gt_iff_lt, if_neg (not_lt.mpr hw0), if_neg (not_lt.mpr hh0)]
    simp only [hr, Point.In_iff, Rectangle.Add]
    omega

/-- C25 at the source `(2000, 1000)` and the crop `(500, 500)`. -/
theorem cropImage_composited_witness :
    calculateTargetDimensions none (some ⟨500, 500⟩) 2000 1000 = (500, 250, none)
    ∧ ∃ g, cropImageGeometry ⟨500, 500⟩ 2000 1000 = .ok g
      ∧ ∀ p : Point, p.In g.drawn = true ↔
          p.In ⟨⟨0, 0⟩, ⟨500, 500⟩⟩ = true
          ∧ p.In ⟨⟨((500 : Int) - 500).tdiv 2, ((500 : Int) - 250).tdiv 2⟩,
              ⟨500 + ((500 : Int) - 500).tdiv 2, 500 + ((500 : Int) - 250).tdiv 2⟩⟩ = true
          ∧ p.In ((Rect 0 0 500 250).Add
              ⟨((500 : Int) - 500).tdiv 2, ((500 : Int) - 250).tdiv 2⟩) = true :=
  ⟨by decide,
    let ⟨g, hg, hp, _⟩ := (cropImage_composited ⟨500, 500⟩ 2000 1000 500 250 (by decide)).1
    ⟨g, hg, hp⟩⟩

/-- C25 fails as stated: a `(2000, 1000)` source cropped to `(100, 500)` is scaled to
`(500, 250)`, the centred rectangle is `(-200,125)-(300,375)`, and the pixel `(0, 125)`
lies in it and in the `100` by `500` canvas, yet `draw.Draw` composites onto no pixel:
the placement rectangle `(-200,125)-(-100,625)` does not meet the canvas. -/
theorem cropImage_composited_tall_crop :
    calculateTargetDimensions none (some ⟨100, 500⟩) 2000 1000 = (500, 250, none)
    ∧ cropImageGeometry ⟨100, 500⟩ 2000 1000
        = .ok ⟨⟨⟨0, 0⟩, ⟨500, 250⟩⟩, ⟨⟨-200, 125⟩, ⟨-100, 625⟩⟩, ⟨⟨0, 0⟩, ⟨100, 500⟩⟩⟩
    ∧ (cropImageGeometry ⟨100, 500⟩ 2000 1000).map Composite.drawn = .ok ZR
    ∧ (∀ p : Point, p.In ZR = false)
    ∧ Point.In ⟨0, 125⟩ ⟨⟨0, 0⟩, ⟨100, 500⟩⟩ = true
    ∧ Point.In ⟨0, 125⟩ ⟨⟨-200, 125⟩, ⟨-200 + 500, 125 + 250⟩⟩ = true := by
  have h3 : calculateTargetDimensions none (some ⟨100, 500⟩) 2000 1000 = (500, 250, none) := by
    decide
  refine ⟨h3, by rw [cropImageGeometry, h3]; decide, by rw [cropImageGeometry, h3]; decide,
    ?_, by decide, by decide⟩
  intro p
  simp [Point.In, ZR]

/-! ## Theorems: keys stay under the tenant -/

theorem splitSlash_ne_nil (s : Str) : splitSlash s ≠ [] := by
  cases s with
  | nil => simp [splitSlash]
  | cons c cs =>
    simp only [splitSlash]
    split_ifs
    · simp
    · split <;> simp

theorem slashTail_splitSlash (s : Str) : slashTail (splitSlash s) = '/' :: s := by
  induction s with
  | nil => simp [splitSlash, slashTail]
  | cons c cs ih =>
    simp only [splitSlash]
    split_ifs with hc
    · rw [slashTail, ih, hc]
      simp
    · cases hs : splitSlash cs with
      | nil => exact absurd hs (splitSlash_ne_nil cs)
      | cons x xs =>
        rw [hs] at ih
        simp only [slashTail, List.cons.injEq, true_and, List.cons_append] at ih ⊢
        exact ih

theorem splitSlash_no_slash (s : Str) : ∀ x ∈ splitSlash s, '/' ∉ x := by
  induction s with
  | nil => simp [splitSlash]
  | cons c cs ih =>
    simp only [splitSlash]
    split_ifs with hc
    · intro x hx
      rcases List.mem_cons.mp hx with rfl | hx
      · simp
      · exact ih x hx
    · cases hs : splitSlash cs with
      | nil => exact absurd hs (splitSlash_ne_nil cs)
      | cons y ys =>
        rw [hs] at ih
        intro x hx
        rcases List.mem_cons.mp hx with rfl | hx
        · intro hm
          rcases List.mem_cons.mp hm with h | h
          · exact hc h.symm
          · exact ih y (by simp) h
        · exact ih x (by simp [hx])

/-- The path elements of a string without a `..` element are empty, `.`, or clean
segments. -/
theorem splitSlash_elements (s : Str) (h : NoDotDot s) :
    ∀ x ∈ splitSlash s, x = [] ∨ x = ['.'] ∨ CleanSegment x := by
  intro x hx
  by_cases h1 : x = []
  · exact Or.inl h1
  · by_cases h2 : x = ['.']
    · exact Or.inr (Or.inl h2)
    · refine Or.inr (Or.inr ⟨h1, splitSlash_no_slash s x hx, h2, ?_⟩)
      rintro rfl
      exact h hx

theorem cleanLoop_elements (items : List Str) :
    ∀ (fuel : Nat) (out : Str), (∀ s ∈ items, s = [] ∨ s = ['.'] ∨ CleanSegment s) →
      out ≠ [] → (slashTail items).length ≤ fuel →
      cleanLoop false fuel (slashTail items) out 0
        = out ++ slashTail (items.filter keptElement) := by
  induction items with
  | nil =>
    intro fuel out _ _ _
    cases fuel <;> simp [slashTail, cleanLoop]
  | cons s ss ih =>
    intro fuel out hall hout hfuel
    have hss : ∀ t ∈ ss, t = [] ∨ t = ['.'] ∨ CleanSegment t :=
      fun t ht => hall t (by simp [ht])
    have hrest : slashTail ss = [] ∨ (slashTail ss).head? = some '/' := by
      cases ss <;> simp [slashTail]
    simp only [slashTail, List.length_cons, List.length_append] at hfuel
    cases fuel with
    | zero => omega
    | succ fuel =>
      rcases hall s (by simp) with rfl | rfl | hs
      · show cleanLoop false (fuel + 1) ('/' :: slashTail ss) out 0 = _
        rw [cleanLoop, if_pos rfl, ih fuel out hss hout (by simp at hfuel; omega)]
        simp [keptElement]
      · cases fuel with
        | zero => simp at hfuel; omega
        | succ fuel =>
          show cleanLoop false (fuel + 1 + 1) ('/' :: '.' :: slashTail ss) out 0 = _
          rw [cleanLoop, if_pos rfl, cleanLoop, if_neg (by decide), if_pos ⟨rfl, hrest⟩,
            ih fuel out hss hout (by simp at hfuel; omega)]
          simp [keptElement]
      · have hlen : 0 < s.length := List.length_pos.mpr hs.1
        cases fuel with
        | zero => omega
        | succ fuel =>
          show cleanLoop false (fuel + 1 + 1) ('/' :: (s ++ slashTail ss)) out 0 = _
          rw [cleanLoop, if_pos rfl, cleanLoop_segment fuel s (slashTail ss) out hs hrest]
          have hol : out.length ≠ 0 := by
            intro h
            exact hout (List.length_eq_zero.mp h)
          rw [if_pos hol, ih fuel _ hss (by simp) (by omega)]
          have : (s :: ss).filter keptElement = s :: ss.filter keptElement := by
            simp [List.filter, keptElement, hs.1, hs.2.2.1]
          rw [this]
          simp [slashTail]

/-- `path.Clean` of a clean segment followed by path elements none of which is `..`:
the empty and the `.` elements are dropped. -/
theorem Clean_elements (g : Str) (items : List Str) (hg : CleanSegment g)
    (hall : ∀ s ∈ items, s = [] ∨ s = ['.'] ∨ CleanSegment s) :
    Clean (g ++ slashTail items) = g ++ slashTail (items.filter keptElement) := by
  have hrest : slashTail items = [] ∨ (slashTail items).head? = some '/' := by
    cases items <;> simp [slashTail]
  obtain ⟨c, cs, rfl⟩ : ∃ c cs, g = c :: cs := by
    cases g with
    | nil => exact absurd rfl hg.1
    | cons c cs => exact ⟨c, cs, rfl⟩
  have hc : c ≠ '/' := fun h => hg.2.1 (by simp [h])
  unfold Clean
  simp only [List.cons_append, List.length_cons, List.head?_cons, Option.some.injEq, hc,
    decide_False, Bool.false_eq_true, if_false, reduceCtorEq]
  rw [← List.cons_append, cleanLoop_segment _ (c :: cs) (slashTail items) [] hg hrest]
  simp only [List.length_nil, ne_eq, not_true_eq_false, if_false, List.nil_append]
  rw [cleanLoop_elements items _ _ hall (by simp) (by simp)]
  simp

theorem joinBuf_slashTail (es : List Str) :
    ∀ buf : Str, buf ≠ [] → joinBuf es buf = buf ++ slashTail es := by
  induction es with
  | nil => intro buf _; simp [joinBuf, slashTail]
  | cons e es ih =>
    intro buf hb
    have hpos : 0 < buf.length := List.length_pos.mpr hb
    simp only [joinBuf, hpos, true_or, if_true]
    rw [ih _ (by simp)]
    simp [slashTail]

theorem keptElement_clean (l : List Str) (h : ∀ x ∈ l, CleanSegment x) :
    l.filter keptElement = l := by
  apply List.filter_eq_self.mpr
  intro x hx
  simp [keptElement, (h x hx).1, (h x hx).2.2.1]

theorem kept_elements_clean (s : Str) (h : NoDotDot s) :
    ∀ x ∈ (splitSlash s).filter keptElement, CleanSegment x := by
  intro x hx
  obtain ⟨hx1, hx2⟩ := List.mem_filter.mp hx
  simp only [keptElement, decide_eq_true_eq] at hx2
  rcases splitSlash_elements s h x hx1 with h1 | h1 | h1
  · exact absurd h1 hx2.1
  · exact absurd h1 hx2.2
  · exact h1

/-- `path.Join` of a clean relative path, clean segments and a last element without a
`..` element: the `'/'`-join of the segments and of the kept path elements of the last
one. -/
theorem Join_raw (g : Str) (rest mids : List Str) (s : Str) (hg : CleanSegment g)
    (hrest : ∀ x ∈ rest, CleanSegment x) (hmids : ∀ x ∈ mids, CleanSegment x)
    (hs : NoDotDot s) :
    Join (List.intercalate ['/'] (g :: rest) :: (mids ++ [s]))
      = List.intercalate ['/']
          (g :: (rest ++ mids ++ (splitSlash s).filter keptElement)) := by
  have hne : List.intercalate ['/'] (g :: rest) ≠ [] := by
    rw [intercalate_cons_eq]
    simp [hg.1]
  have hsum : ((List.intercalate ['/'] (g :: rest) :: (mids ++ [s])).map List.length).sum
      ≠ 0 := by
    have := List.length_pos.mpr hne
    simp only [List.map_cons, List.sum_cons]
    omega
  have hbuf : joinBuf (List.intercalate ['/'] (g :: rest) :: (mids ++ [s])) []
      = g ++ slashTail (rest ++ mids ++ splitSlash s) := by
    simp only [joinBuf, List.length_nil, lt_self_iff_false, false_or, hne, ne_eq,
      not_false_eq_true, if_true, if_false, List.nil_append]
    rw [joinBuf_slashTail _ _ hne, intercalate_cons_eq]
    simp only [slashTail_append, slashTail_splitSlash, slashTail, List.append_assoc,
      List.append_nil]
  have hall : ∀ x ∈ rest ++ mids ++ splitSlash s, x = [] ∨ x = ['.'] ∨ CleanSegment x := by
    intro x hx
    rcases List.mem_append.mp hx with hx | hx
    · rcases List.mem_append.mp hx with hx | hx
      · exact Or.inr (Or.inr (hrest x hx))
      · exact Or.inr (Or.inr (hmids x hx))
    · exact splitSlash_elements s hs x hx
  rw [Join, if_neg hsum, hbuf, Clean_elements g _ hg hall, intercalate_cons_eq,
    List.filter_append, List.filter_append, keptElement_clean _ hrest,
    keptElement_clean _ hmids]

/-- The key of a rendition under a tenant, for a prefix of clean segments and a product
id and file name without `..` elements: the prefix, the tenant id, and further segments. -/
theorem ImageSubPath_elements (g : Str) (rest : List Str) (shopID : Int)
    (productID fileName : Str) (scaleDimension : Option Int)
    (cropDimensions minXMaxY minYMaxX : Option Dimensions)
    (hg : CleanSegment g) (hrest : ∀ x ∈ rest, CleanSegment x)
    (hd : NoDotDot productID) (hf : NoDotDot fileName) :
    ∃ X : List Str,
      ImageSubPath (List.intercalate ['/'] (g :: rest)) (some shopID) productID
          scaleDimension cropDimensions minXMaxY minYMaxX fileName
        = List.intercalate ['/'] (g :: rest) ++ '/' :: Itoa shopID ++ slashTail X := by
  have hT : ∀ x ∈ [Itoa shopID], CleanSegment x := by
    intro x hx
    rw [List.mem_singleton.mp hx]
    exact Itoa_cleanSegment shopID
  have hkp := kept_elements_clean productID hd
  have h0 : Join [List.intercalate ['/'] (g :: rest), Itoa shopID, productID]
      = List.intercalate ['/']
          (g :: (rest ++ [Itoa shopID] ++ (splitSlash productID).filter keptElement)) :=
    Join_raw g rest [Itoa shopID] productID hg hrest hT hd
  have hL0 : ∀ Y : List Str, (∀ x ∈ Y, CleanSegment x) →
      ∀ x ∈ g :: (rest ++ [Itoa shopID] ++ Y), CleanSegment x := by
    intro Y hY x hx
    rcases List.mem_cons.mp hx with rfl | hx
    · exact hg
    · exact mem_append_clean (mem_append_clean hrest hT) hY x hx
  have hclose : ∀ Y : List Str, (∀ x ∈ Y, CleanSegment x) →
      Join [List.intercalate ['/'] (g :: (rest ++ [Itoa shopID] ++ Y)), fileName]
        = List.intercalate ['/'] (g :: rest) ++ '/' :: Itoa shopID
            ++ slashTail (Y ++ (splitSlash fileName).filter keptElement) := by
    intro Y hY
    have := Join_raw g (rest ++ [Itoa shopID] ++ Y) [] fileName hg
      (fun x hx => hL0 Y hY x (List.mem_cons_of_mem _ hx)) (by simp) hf
    simp only [List.nil_append, List.append_nil] at this
    rw [this, intercalate_cons_eq, intercalate_cons_eq]
    simp only [slashTail_append, slashTail, List.append_assoc, List.append_nil,
      List.cons_append, List.nil_append]
  have hone : ∀ k : Str, List.intercalate ['/'] [k] = k := by
    intro k
    simp [List.intercalate]
  have hmid : ∀ (Y K : List Str), (∀ x ∈ Y, CleanSegment x) → (∀ x ∈ K, CleanSegment x) →
      Join [List.intercalate ['/'] (g :: (rest ++ [Itoa shopID] ++ Y)),
          List.intercalate ['/'] K]
        = List.intercalate ['/'] (g :: (rest ++ [Itoa shopID] ++ (Y ++ K))) := by
    intro Y K hY hK
    rw [Join_two _ K (hL0 Y hY) hK]
    simp
  cases scaleDimension with
  | some m =>
    have hk : ∀ x ∈ [Itoa m], CleanSegment x := by
      intro x hx
      rw [List.mem_singleton.mp hx]
      exact Itoa_cleanSegment m
    have h1 := hmid _ [Itoa m] hkp hk
    rw [hone] at h1
    refine ⟨((splitSlash productID).filter keptElement ++ [Itoa m])
      ++ (splitSlash fileName).filter keptElement, ?_⟩
    simp only [ImageSubPath, h0, h1]
    exact hclose _ (mem_append_clean hkp hk)
  | none =>
    cases cropDimensions with
    | some c =>
      have hk : ∀ x ∈ [sprintfDims c], CleanSegment x := by
        intro x hx
        rw [List.mem_singleton.mp hx]
        exact sprintfDims_cleanSegment c
      have h1 := hmid _ [sprintfDims c] hkp hk
      rw [hone] at h1
      refine ⟨((splitSlash productID).filter keptElement ++ [sprintfDims c])
        ++ (splitSlash fileName).filter keptElement, ?_⟩
      simp only [ImageSubPath, h0, h1]
      exact hclose _ (mem_append_clean hkp hk)
    | none =>
      cases minXMaxY with
      | some d =>
        have hk : ∀ x ∈ ["minxmaxy".toList, sprintfDims d], CleanSegment x := by
          intro x hx
          simp only [List.mem_cons, List.mem_singleton] at hx
          rcases hx with rfl | rfl | hx
          · exact literal_minxmaxy_clean
          · exact sprintfDims_cleanSegment d
          · simp at hx
        have h1 := Join_three (g :: (rest ++ [Itoa shopID]
            ++ (splitSlash productID).filter keptElement)) ["minxmaxy".toList] [sprintfDims d]
          (hL0 _ hkp) (by simpa using literal_minxmaxy_clean)
          (by simpa using sprintfDims_cleanSegment d)
        rw [hone, hone] at h1
        refine ⟨((splitSlash productID).filter keptElement ++ ["minxmaxy".toList, sprintfDims d])
          ++ (splitSlash fileName).filter keptElement, ?_⟩
        simp only [ImageSubPath, h0, h1]
        have := hclose _ (mem_append_clean hkp hk)
        simpa using this
      | none =>
        cases minYMaxX with
        | some d =>
          have hk : ∀ x ∈ ["minymaxx".toList, sprintfDims d], CleanSegment x := by
            intro x hx
            simp only [List.mem_cons, List.mem_singleton] at hx
            rcases hx with rfl | rfl | hx
            · exact literal_minymaxx_clean
            · exact sprintfDims_cleanSegment d
            · simp at hx
          have h1 := Join_three (g :: (rest ++ [Itoa shopID]
              ++ (splitSlash productID).filter keptElement)) ["minymaxx".toList]
            [sprintfDims d] (hL0 _ hkp) (by simpa using literal_minymaxx_clean)
            (by simpa using sprintfDims_cleanSegment d)
          rw [hone, hone] at h1
          refine ⟨((splitSlash productID).filter keptElement ++ ["minymaxx".toList, sprintfDims d])
            ++ (splitSlash fileName).filter keptElement, ?_⟩
          simp only [ImageSubPath, h0, h1]
          have := hclose _ (mem_append_clean hkp hk)
          simpa using this
        | none =>
          refine ⟨(splitSlash productID).filter keptElement
            ++ (splitSlash fileName).filter keptElement, ?_⟩
          simp only [ImageSubPath, h0]
          exact hclose _ hkp

/-- C26, as the code has it: for a prefix that is a non-empty `'/'`-join of clean path
segments, every tenant id, every product id and file name none of whose path elements is
`..`, and every rendition spec, the key `ImageSubPath` returns is `<prefix>/<tenant>` or
starts with `<prefix>/<tenant>/`. -/
theorem ImageSubPath_under_tenant (segments : List Str) (shopID : Int)
    (productID fileName : Str) (scaleDimension : Option Int)
    (cropDimensions minXMaxY minYMaxX : Option Dimensions)
    (hne : segments ≠ []) (hseg : ∀ x ∈ segments, CleanSegment x)
    (hd : NoDotDot productID) (hf : NoDotDot fileName) :
    ImageSubPath (List.intercalate ['/'] segments) (some shopID) productID
        scaleDimension cropDimensions minXMaxY minYMaxX fileName
      = List.intercalate ['/'] segments ++ '/' :: Itoa shopID
    ∨ (List.intercalate ['/'] segments ++ '/' :: Itoa shopID ++ ['/'])
      <+: ImageSubPath (List.intercalate ['/'] segments) (some shopID) productID
        scaleDimension cropDimensions minXMaxY minYMaxX fileName := by
  cases segments with
  | nil => exact absurd rfl hne
  | cons g rest =>
    obtain ⟨X, hX⟩ := ImageSubPath_elements g rest shopID productID fileName scaleDimension
      cropDimensions minXMaxY minYMaxX (hseg g (by simp))
      (fun x hx => hseg x (List.mem_cons_of_mem _ hx)) hd hf
    rw [hX]
    cases X with
    | nil =>
      left
      simp [slashTail]
    | cons x xs =>
      right
      refine ⟨x ++ slashTail xs, ?_⟩
      simp [slashTail]

/-- C26 at the key of the scale rendition 100 of the image `a.png` of product `p1` of
tenant 7. -/
theorem ImageSubPath_under_tenant_witness :
    ["images".toList] ≠ [] ∧ (∀ x ∈ ["images".toList], CleanSegment x)
    ∧ NoDotDot "p1".toList ∧ NoDotDot "a.png".toList
    ∧ ImageSubPath "images".toList (some 7) "p1".toList (some 100) none none none
        "a.png".toList = "images/7/p1/100/a.png".toList
    ∧ (ImageSubPath (List.intercalate ['/'] ["images".toList]) (some 7) "p1".toList
          (some 100) none none none "a.png".toList
        = List.intercalate ['/'] ["images".toList] ++ '/' :: Itoa 7
      ∨ (List.intercalate ['/'] ["images".toList] ++ '/' :: Itoa 7 ++ ['/'])
        <+: ImageSubPath (List.intercalate ['/'] ["images".toList]) (some 7) "p1".toList
          (some 100) none none none "a.png".toList) :=
  have hseg : ∀ x ∈ ["images".toList], CleanSegment x := fun x hx =>
    List.mem_singleton.mp hx ▸ ⟨by decide, by decide, by decide, by decide⟩
  ⟨by decide, hseg, by decide, by decide, by decide,
    ImageSubPath_under_tenant ["images".toList] 7 "p1".toList "a.png".toList (some 100)
      none none none (by decide) hseg (by decide) (by decide)⟩

/-- C26 fails as stated: with the product id `..` and the file name `8/a.png` the key of
the main image of tenant 7 is `images/8/a.png`, a key under the namespace of tenant 8;
it neither is `images/7` nor starts with `images/7/`. -/
theorem ImageSubPath_escapes_tenant :
    ImageSubPath "images".toList (some 7) "..".toList none none none none "8/a.png".toList
        = "images/8/a.png".toList
    ∧ "images/8/a.png".toList ≠ "images".toList ++ '/' :: Itoa 7
    ∧ ¬ (("images".toList ++ '/' :: Itoa 7 ++ ['/']) <+: "images/8/a.png".toList) := by
  refine ⟨by decide, by decide, by decide⟩

/-! ## Theorems: distinct renditions have distinct keys -/

theorem toDigitsCore_append (fuel : Nat) :
    ∀ (n : Nat) (ds : List Char),
      Nat.toDigitsCore 10 fuel n ds = Nat.toDigitsCore 10 fuel n [] ++ ds := by
  induction fuel with
  | zero => intro n ds; simp [Nat.toDigitsCore]
  | succ fuel ih =>
    intro n ds
    simp only [Nat.toDigitsCore]
    split
    · simp
    · rw [ih _ ((n % 10).digitChar :: ds), ih _ [(n % 10).digitChar]]
      simp

theorem digitValue_digitChar (k : Nat) (hk : k < 10) : digitValue k.digitChar = k := by
  interval_cases k <;> rfl

theorem digitChar_decimal (k : Nat) (hk : k < 10) : k.digitChar ∈ decimalDigits := by
  interval_cases k <;> decide

theorem decimalValue_snoc (xs : Str) (d : Char) :
    decimalValue (xs ++ [d]) = 10 * decimalValue xs + digitValue d := by
  simp [decimalValue, List.foldl_append]

theorem decimalValue_toDigitsCore (fuel : Nat) :
    ∀ n : Nat, n < fuel → decimalValue (Nat.toDigitsCore 10 fuel n []) = n := by
  induction fuel with
  | zero => intro n h; omega
  | succ fuel ih =>
    intro n h
    have hm : n % 10 < 10 := Nat.mod_lt _ (by decide)
    simp only [Nat.toDigitsCore]
    split
    · rename_i h0
      have : decimalValue [(n % 10).digitChar] = digitValue (n % 10).digitChar := by
        simp [decimalValue]
      rw [this, digitValue_digitChar _ hm]
      omega
    · rename_i h0
      rw [toDigitsCore_append, decimalValue_snoc, ih (n / 10) (by omega),
        digitValue_digitChar _ hm]
      omega

theorem toDigits_injective (a b : Nat) (h : Nat.toDigits 10 a = Nat.toDigits 10 b) : a = b := by
  have ha := decimalValue_toDigitsCore (a + 1) a (by omega)
  have hb := decimalValue_toDigitsCore (b + 1) b (by omega)
  unfold Nat.toDigits at h
  rw [h] at ha
  omega

theorem toDigitsCore_decimal (fuel : Nat) :
    ∀ (n : Nat) (ds : List Char), (∀ c ∈ ds, c ∈ decimalDigits) →
      ∀ c ∈ Nat.toDigitsCore 10 fuel n ds, c ∈ decimalDigits := by
  induction fuel with
  | zero => intro n ds h; simpa [Nat.toDigitsCore] using h
  | succ fuel ih =>
    intro n ds h
    have hd := digitChar_decimal (n % 10) (Nat.mod_lt _ (by decide))
    have hcons : ∀ c ∈ (n % 10).digitChar :: ds, c ∈ decimalDigits := by
      intro c hc
      rcases List.mem_cons.mp hc with rfl | hc
      · exact hd
      · exact h c hc
    simp only [Nat.toDigitsCore]
    split
    · exact hcons
    · exact ih _ _ hcons

theorem toDigits_decimal (n : Nat) : ∀ c ∈ Nat.toDigits 10 n, c ∈ decimalDigits :=
  toDigitsCore_decimal (n + 1) n [] (by simp)

/-- The characters of `strconv.Itoa` are decimal digits and the sign. -/
theorem Itoa_chars (i : Int) : ∀ c ∈ Itoa i, c = '-' ∨ c ∈ decimalDigits := by
  intro c hc
  unfold Itoa at hc
  split at hc
  · rcases List.mem_cons.mp hc with rfl | hc
    · exact Or.inl rfl
    · exact Or.inr (toDigits_decimal _ c hc)
  · exact Or.inr (toDigits_decimal _ c hc)

theorem Itoa_no_x (i : Int) : 'x' ∉ Itoa i := by
  intro h
  rcases Itoa_chars i 'x' h with h | h
  · exact absurd h (by decide)
  · exact absurd h (by decide)

/-- `strconv.Itoa` is injective. -/
theorem Itoa_injective (i j : Int) (h : Itoa i = Itoa j) : i = j := by
  have hminus : ∀ n : Nat, ∀ t, Nat.toDigits 10 n ≠ '-' :: t := by
    intro n t ht
    have := toDigits_decimal n '-' (by rw [ht]; simp)
    exact absurd this (by decide)
  unfold Itoa at h
  by_cases hi : i < 0 <;> by_cases hj : j < 0
  · rw [if_pos hi, if_pos hj] at h
    have := toDigits_injective _ _ (List.cons.inj h).2
    omega
  · rw [if_pos hi, if_neg hj] at h
    exact absurd h.symm (hminus _ _)
  · rw [if_neg hi, if_pos hj] at h
    exact absurd h (hminus _ _)
  · rw [if_neg hi, if_neg hj] at h
    have := toDigits_injective _ _ h
    omega

theorem append_sep_inj (u v u1 v1 : Str) (hu : 'x' ∉ u) (hu1 : 'x' ∉ u1)
    (h : u ++ 'x' :: v = u1 ++ 'x' :: v1) : u = u1 ∧ v = v1 := by
  induction u generalizing u1 with
  | nil =>
    cases u1 with
    | nil => simpa using h
    | cons a t =>
      simp at h
      exact absurd h.1.symm (fun e => hu1 (by simp [e]))
  | cons a t ih =>
    cases u1 with
    | nil =>
      simp at h
      exact absurd h.1 (fun e => hu (by simp [e]))
    | cons b s =>
      simp only [List.cons_append, List.cons.injEq] at h
      obtain ⟨h1, h2⟩ := ih s (fun e => hu (by simp [e])) (fun e => hu1 (by simp [e])) h.2
      exact ⟨by rw [h.1, h1], h2⟩

/-- The format `"%vx%v"` is injective. -/
theorem sprintfDims_injective (d e : Dimensions) (h : sprintfDims d = sprintfDims e) :
    d = e := by
  obtain ⟨h1, h2⟩ := append_sep_inj _ _ _ _ (Itoa_no_x d.X) (Itoa_no_x e.X) h
  have hx := Itoa_injective _ _ h1
  have hy := Itoa_injective _ _ h2
  cases d
  cases e
  simp only at hx hy
  rw [hx, hy]

theorem sprintfDims_has_x (d : Dimensions) : 'x' ∈ sprintfDims d := by
  simp [sprintfDims]

theorem literal_has_slash (lit t : Str) (u : Str) (hl : '/' ∈ lit) (hu : '/' ∉ u)
    (h : u = lit ++ t) : False := by
  apply hu
  rw [h]
  exact List.mem_append_left _ hl

/-- Distinct renditions have distinct kind-segments. -/
theorem kindSegment_injective (r1 r2 : Rendition) (h : kindSegment r1 = kindSegment r2) :
    r1 = r2 := by
  have hI := fun i => (Itoa_plain i).1
  have hS := fun d => (sprintfDims_cleanSegment d).1
  have hIs := fun i => (Itoa_cleanSegment i).2.1
  have hSs := fun d => (sprintfDims_cleanSegment d).2.1
  have hx : '/' ∈ "minxmaxy/".toList := by decide
  have hy : '/' ∈ "minymaxx/".toList := by decide
  cases r1 with
  | main =>
    cases r2 with
    | main => rfl
    | scale m => exact absurd h.symm (hI m)
    | crop d => exact absurd h.symm (hS d)
    | minXMaxY d => exact absurd h (by simp [kindSegment])
    | minYMaxX d => exact absurd h (by simp [kindSegment])
  | scale m =>
    cases r2 with
    | main => exact absurd h (hI m)
    | scale m2 => rw [Itoa_injective m m2 h]
    | crop d =>
      have h1 : Itoa m = sprintfDims d := h
      exact absurd (h1 ▸ sprintfDims_has_x d) (Itoa_no_x m)
    | minXMaxY d => exact (literal_has_slash _ _ _ hx (hIs m) h).elim
    | minYMaxX d => exact (literal_has_slash _ _ _ hy (hIs m) h).elim
  | crop d =>
    cases r2 with
    | main => exact absurd h (hS d)
    | scale m =>
      have h1 : sprintfDims d = Itoa m := h
      exact absurd (h1.symm ▸ sprintfDims_has_x d) (Itoa_no_x m)
    | crop d2 => rw [sprintfDims_injective d d2 h]
    | minXMaxY d2 => exact (literal_has_slash _ _ _ hx (hSs d) h).elim
    | minYMaxX d2 => exact (literal_has_slash _ _ _ hy (hSs d) h).elim
  | minXMaxY d =>
    cases r2 with
    | main => exact absurd h (by simp [kindSegment])
    | scale m => exact (literal_has_slash _ _ _ hx (hIs m) h.symm).elim
    | crop d2 => exact (literal_has_slash _ _ _ hx (hSs d2) h.symm).elim
    | minXMaxY d2 =>
      have h1 : "minxmaxy/".toList ++ sprintfDims d = "minxmaxy/".toList ++ sprintfDims d2 := h
      rw [sprintfDims_injective d d2 (List.append_cancel_left h1)]
    | minYMaxX d2 => exact absurd h (by simp [kindSegment])
  | minYMaxX d =>
    cases r2 with
    | main => exact absurd h (by simp [kindSegment])
    | scale m => exact (literal_has_slash _ _ _ hy (hIs m) h.symm).elim
    | crop d2 => exact (literal_has_slash _ _ _ hy (hSs d2) h.symm).elim
    | minXMaxY d2 => exact absurd h (by simp [kindSegment])
    | minYMaxX d2 =>
      have h1 : "minymaxx/".toList ++ sprintfDims d = "minymaxx/".toList ++ sprintfDims d2 := h
      rw [sprintfDims_injective d d2 (List.append_cancel_left h1)]

/-- The key of a rendition under a tenant, for a prefix, product id and file name that
are single clean segments: the kind-segment stands between the product id and the file
name. -/
theorem ImageSubPath_kind (pfx productID fileName : Str) (shopID : Int) (r : Rendition)
    (hp : CleanSegment pfx) (hd : CleanSegment productID) (hf : CleanSegment fileName) :
    ImageSubPath pfx (some shopID) productID r.scaleArg r.cropArg r.minXMaxYArg
        r.minYMaxXArg fileName
      = (pfx ++ slashTail [Itoa shopID, productID]) ++ slashTail (segOf (kindSegment r))
          ++ slashTail [fileName] := by
  rw [ImageSubPath_segments pfx productID fileName (some shopID) r (Or.inr hp) (Or.inr hd)
    (Or.inr hf)]
  simp only [filter_cons_segOf, List.filter_nil, List.append_nil, tenantSegment,
    segOf_of_clean _ hp, segOf_of_clean _ hd, segOf_of_clean _ hf,
    segOf_of_clean _ (Itoa_cleanSegment shopID), List.singleton_append, intercalate_cons_eq,
    slashTail, slashTail_append, List.append_assoc, List.cons_append, List.nil_append]

/-- C27: for a prefix, product id and file name that are non-empty single clean path
segments and a tenant id, two renditions (main, scale, crop, minXMaxY, minYMaxX) whose
keys `ImageSubPath` returns are equal are the same rendition: of the same kind, with the
same parameters. -/
theorem ImageSubPath_injective (pfx productID fileName : Str) (shopID : Int)
    (r1 r2 : Rendition)
    (hp : CleanSegment pfx) (hd : CleanSegment productID) (hf : CleanSegment fileName)
    (h : ImageSubPath pfx (some shopID) productID r1.scaleArg r1.cropArg r1.minXMaxYArg
          r1.minYMaxXArg fileName
        = ImageSubPath pfx (some shopID) productID r2.scaleArg r2.cropArg r2.minXMaxYArg
          r2.minYMaxXArg fileName) :
    r1 = r2 := by
  rw [ImageSubPath_kind pfx productID fileName shopID r1 hp hd hf,
    ImageSubPath_kind pfx productID fileName shopID r2 hp hd hf] at h
  have h1 := List.append_cancel_left (List.append_cancel_right h)
  apply kindSegment_injective
  unfold segOf at h1
  by_cases e1 : kindSegment r1 = [] <;> by_cases e2 : kindSegment r2 = []
  · rw [e1, e2]
  · rw [if_pos e1, if_neg e2] at h1
    simp [slashTail] at h1
  · rw [if_neg e1, if_pos e2] at h1
    simp [slashTail] at h1
  · rw [if_neg e1, if_neg e2] at h1
    simpa [slashTail] using h1

/-- C27 at two renditions of the image `a.png` of product `p1` of tenant 7: the scale
rendition 100 shares its key only with itself. -/
theorem ImageSubPath_injective_witness :
    CleanSegment "images".toList ∧ CleanSegment "p1".toList ∧ CleanSegment "a.png".toList
    ∧ ImageSubPath "images".toList (some 7) "p1".toList (some 100) none none none
        "a.png".toList = "images/7/p1/100/a.png".toList
    ∧ Rendition.scale 100 = Rendition.scale 100 :=
  have hp : CleanSegment "images".toList := ⟨by decide, by decide, by decide, by decide⟩
  have hd : CleanSegment "p1".toList := ⟨by decide, by decide, by decide, by decide⟩
  have hf : CleanSegment "a.png".toList := ⟨by decide, by decide, by decide, by decide⟩
  ⟨hp, hd, hf, by decide,
    ImageSubPath_injective "images".toList "p1".toList "a.png".toList 7 (.scale 100)
      (.scale 100) hp hd hf rfl⟩

end ImageResizer
